import Mathlib

/-!
Verification development for the ISO/IEC 14443-A air-interface engine
(`armsrc/iso14443a.c`).  The C code is shallowly embedded: machine integers
become `Nat` with explicit `% 2^w` where the width matters, output buffers
written through an increasing length counter become Lean lists, and the
hardware clock (`GetCountSspClk`) is abstracted by the `non_real_time`
parameter that the decoders already take in the source.
-/

set_option maxRecDepth 10000

namespace Iso14443a

/-! ### Byte-level helpers (framer) -/

/-- Number of set bits among the 8 low bits of `b`. -/
def bitWeight8 (b : Nat) : Nat :=
  (List.range 8).foldl (fun a i => a + ((b >>> i) &&& 1)) 0

/-- Modelled from the spec: `oddparity8` (from `common/parity.h`, outside
`src/`) returns the odd-parity bit of a byte: 1 when the byte has an even
number of set bits, so that byte plus parity bit has odd weight. -/
def oddparity8 (b : Nat) : Nat := (bitWeight8 b + 1) % 2

/-- `GetParity` (iso14443a.c): pack the odd-parity bit of every byte
MSB-first into parity bytes, flushing a byte after every 8 input bytes and
always storing the (possibly empty) remainder. -/
def GetParityAux : List Nat → Nat → Nat → List Nat
  | [], _, parityBits => [parityBits]
  | b :: rest, cnt, parityBits =>
    let parityBits := parityBits ||| (oddparity8 b <<< (7 - cnt))
    if cnt == 7 then parityBits :: GetParityAux rest 0 0
    else GetParityAux rest (cnt + 1) parityBits

def GetParity (cmd : List Nat) : List Nat := GetParityAux cmd 0 0

/-- Modelled from the spec: CRC-16 of ISO/IEC 14443-3-A (ITU polynomial,
init 0x6363); the implementation lives in `common/crc16.c`, outside `src/`.
One byte step of the CRC. -/
def crc14aStep (crc b : Nat) : Nat :=
  let ch := (b ^^^ (crc &&& 0xFF)) &&& 0xFF
  let ch := (ch ^^^ ((ch <<< 4) &&& 0xFF)) &&& 0xFF
  ((crc >>> 8) ^^^ (ch <<< 8) ^^^ (ch <<< 3) ^^^ (ch >>> 4)) &&& 0xFFFF

/-- Modelled from the spec: CRC-A over a byte list, init 0x6363. -/
def crc14a (bs : List Nat) : Nat := bs.foldl crc14aStep 0x6363

/-- `AddCrc14A(data, len)`: append the CRC over the first `len` bytes,
low byte first. -/
def AddCrc14A (bs : List Nat) : List Nat :=
  bs ++ [crc14a bs &&& 0xFF, crc14a bs >>> 8]

/-! ### Miller decoder (reader to tag), iso14443a.c lines 336-539 -/

inductive UartState where
  | unsyncd
  | startOfComm
  | millerX
  | millerY
  | millerZ
deriving DecidableEq, Repr

/-- `tUart14a`: `len` is `output.length` and `parityLen` is `parity.length`
(the C array plus write index become a list). -/
structure Uart14a where
  state : UartState
  shiftReg : Nat      -- uint16_t
  bitCount : Nat      -- uint16_t
  syncBit : Nat       -- 9999 = unset
  parityBits : Nat    -- uint8_t
  fourBits : Nat      -- uint32_t
  startTime : Nat
  endTime : Nat
  output : List Nat
  parity : List Nat
  output_len : Nat
deriving DecidableEq, Repr

def Uart14aReset (u : Uart14a) : Uart14a :=
  { u with state := .unsyncd, shiftReg := 0, bitCount := 0, output := [],
           syncBit := 9999, parityBits := 0, parity := [],
           fourBits := 0, startTime := 0, endTime := 0 }

def Uart14aInit (outputLen : Nat) : Uart14a :=
  { state := .unsyncd, shiftReg := 0, bitCount := 0, output := [],
    syncBit := 9999, parityBits := 0, parity := [],
    fourBits := 0, startTime := 0, endTime := 0, output_len := outputLen }

/-- `Mod_Miller_LUT`: is a 4-sample nibble a (pause) modulation. -/
def Mod_Miller_LUT : List Bool :=
  [false, true,  false, true,  false, false, false, true,
   false, true,  false, false, false, false, false, false]

def IsMillerModulationNibble1 (b : Nat) : Bool :=
  Mod_Miller_LUT.getD ((b &&& 0xF0) >>> 4) false

def IsMillerModulationNibble2 (b : Nat) : Bool :=
  Mod_Miller_LUT.getD (b &&& 0x0F) false

def ISO14443A_STARTBIT_MASK : Nat := 0x07FFEF80
def ISO14443A_STARTBIT_PATTERN : Nat := 0x07FF8F80

/-- The sync-bit search cascade of `MillerDecoding` (lines 414-421). -/
def millerSyncSearch (fourBits : Nat) : Nat :=
  if fourBits &&& (ISO14443A_STARTBIT_MASK >>> 0) == ISO14443A_STARTBIT_PATTERN >>> 0 then 7
  else if fourBits &&& (ISO14443A_STARTBIT_MASK >>> 1) == ISO14443A_STARTBIT_PATTERN >>> 1 then 6
  else if fourBits &&& (ISO14443A_STARTBIT_MASK >>> 2) == ISO14443A_STARTBIT_PATTERN >>> 2 then 5
  else if fourBits &&& (ISO14443A_STARTBIT_MASK >>> 3) == ISO14443A_STARTBIT_PATTERN >>> 3 then 4
  else if fourBits &&& (ISO14443A_STARTBIT_MASK >>> 4) == ISO14443A_STARTBIT_PATTERN >>> 4 then 3
  else if fourBits &&& (ISO14443A_STARTBIT_MASK >>> 5) == ISO14443A_STARTBIT_PATTERN >>> 5 then 2
  else if fourBits &&& (ISO14443A_STARTBIT_MASK >>> 6) == ISO14443A_STARTBIT_PATTERN >>> 6 then 1
  else if fourBits &&& (ISO14443A_STARTBIT_MASK >>> 7) == ISO14443A_STARTBIT_PATTERN >>> 7 then 0
  else 9999

/-- The `if (Uart.bitCount >= 9)` byte-completion block, repeated verbatim
in the Z, X and Y branches of `MillerDecoding`. -/
def millerByteComplete (u : Uart14a) : Uart14a :=
  if u.bitCount ≥ 9 then
    let output := u.output ++ [u.shiftReg &&& 0xFF]
    let parityBits := ((u.parityBits <<< 1) &&& 0xFF) ||| ((u.shiftReg >>> 8) &&& 1)
    let u := { u with output, bitCount := 0, shiftReg := 0 }
    if output.length % 8 == 0 then
      { u with parity := u.parity ++ [parityBits], parityBits := 0 }
    else
      { u with parityBits }
  else u

/-- `MillerDecoding(bit, non_real_time)` (lines 393-539).  The real-time
clock read (`GetCountSspClk`) is hardware; all runs here pass a nonzero
`nonRealTime`, exactly as the sniffer does, so only that branch is
modelled.  `Uart.bitCount--` on a `uint16_t` is `(bitCount + 65535) %
65536`; the C shift `shiftReg >>= (9 - bitCount)` is undefined for
`bitCount > 9` (never reached on synchronised runs) and is modelled with
truncated subtraction. -/
def MillerDecoding (u0 : Uart14a) (bit : Nat) (nonRealTime : Nat) : Uart14a × Bool :=
  if u0.output.length == u0.output_len then (u0, true)
  else
    let u := { u0 with fourBits := ((u0.fourBits <<< 8) ||| bit) % 2 ^ 32 }
    if u.state == .unsyncd then
      let syncBit := millerSyncSearch u.fourBits
      if syncBit != 9999 then
        let startTime := nonRealTime - syncBit
        ({ u with syncBit, startTime, endTime := startTime,
                  state := .startOfComm }, false)
      else
        ({ u with syncBit }, false)
    else
      let w := u.fourBits >>> u.syncBit
      if IsMillerModulationNibble1 w then
        if IsMillerModulationNibble2 w then
          (Uart14aReset u, false)                       -- modulation in both halves: error
        else
          if u.state == .millerX then
            (Uart14aReset u, false)                     -- Z must not follow after X
          else                                          -- Sequence Z = logic 0
            let u := { u with bitCount := (u.bitCount + 1) % 65536,
                              shiftReg := u.shiftReg >>> 1,
                              state := .millerZ }
            let u := { u with endTime :=
                         u.startTime + 8 * (9 * u.output.length + u.bitCount + 1) - 6 }
            (millerByteComplete u, false)
      else
        if IsMillerModulationNibble2 w then             -- Sequence X = logic 1
          let u := { u with bitCount := (u.bitCount + 1) % 65536,
                            shiftReg := (u.shiftReg >>> 1) ||| 0x100,
                            state := .millerX }
          let u := { u with endTime :=
                       u.startTime + 8 * (9 * u.output.length + u.bitCount + 1) - 2 }
          (millerByteComplete u, false)
        else                                            -- Sequence Y
          if u.state == .millerZ || u.state == .millerY then
            -- Y after logic 0: end of communication
            let u := { u with state := .unsyncd,
                              bitCount := (u.bitCount + 65535) % 65536,
                              shiftReg := (u.shiftReg <<< 1) % 65536 }
            if u.bitCount > 0 then
              let shiftReg := u.shiftReg >>> (9 - u.bitCount)
              let output := u.output ++ [shiftReg &&& 0xFF]
              let parityBits := (u.parityBits <<< 1) &&& 0xFF
              let parityBits := (parityBits <<< (8 - output.length % 8)) &&& 0xFF
              ({ u with shiftReg, output, parityBits,
                        parity := u.parity ++ [parityBits] }, true)
            else
              let u :=
                if u.output.length % 8 != 0 then
                  let parityBits := (u.parityBits <<< (8 - u.output.length % 8)) &&& 0xFF
                  { u with parityBits, parity := u.parity ++ [parityBits] }
                else u
              if u.output.length != 0 then (u, true)
              else (Uart14aReset u, false)
          else if u.state == .startOfComm then
            (Uart14aReset u, false)                     -- Y must not follow directly after SOC
          else                                          -- a logic 0
            let u := { u with bitCount := (u.bitCount + 1) % 65536,
                              shiftReg := u.shiftReg >>> 1,
                              state := .millerY }
            (millerByteComplete u, false)

/-- Feed a sample-byte stream to the decoder, stopping at the first
completed frame, as every caller of `MillerDecoding` does. -/
def millerRun : Uart14a → List Nat → Uart14a × Bool
  | u, [] => (u, false)
  | u, b :: rest =>
    let s := MillerDecoding u b 8
    if s.2 then (s.1, true) else millerRun s.1 rest

/-! ### Miller encoder (reader commands), iso14443a.c lines 2340-2412 -/

def SEC_D : Nat := 0xf0
def SEC_E : Nat := 0x0f
def SEC_F : Nat := 0x00
def SEC_COLL : Nat := 0xff
def SEC_X : Nat := 0x0c
def SEC_Y : Nat := 0x00
def SEC_Z : Nat := 0xc0

/-- `nbytes(n)` from commonutil.h. -/
def nbytes (bits : Nat) : Nat := bits / 8 + (if bits % 8 > 0 then 1 else 0)

/-- One data or parity bit of `CodeIso14443aBitsAsReaderPar`: X for a 1,
else Z when the previous symbol ended unmodulated (`last = 0`), else Y.
Returns the symbol and the new `last`. -/
def millerEncodeBit (bitv : Nat) (last : Nat) : Nat × Nat :=
  if bitv != 0 then (SEC_X, 1)
  else if last == 0 then (SEC_Z, 0)
  else (SEC_Y, 0)

/-- The C inner loop `for (j = 0; j < bitsleft; j++)` sending the low
`bitsleft` bits of byte `b`, LSB first. -/
def millerEncodeByteBits (b : Nat) (bitsleft : Nat) (last : Nat) : List Nat × Nat :=
  match bitsleft with
  | 0 => ([], last)
  | k + 1 =>
    let s := millerEncodeBit (b &&& 1) last
    let rest := millerEncodeByteBits (b >>> 1) k s.2
    (s.1 :: rest.1, rest.2)

/-- `par[i >> 3] & (0x80 >> (i & 0x0007))` as a bit value. -/
def parityBitOf (par : List Nat) (i : Nat) : Nat :=
  ((par.getD (i / 8) 0) >>> (7 - i % 8)) &&& 1

/-- The C outer loop over the `nbytes bits` command bytes: all 8 bits of a
complete byte followed by its parity bit (when `par` is non-null), or the
remaining low bits of a final partial byte with no parity. -/
def millerEncodeData (par : Option (List Nat)) : List Nat → Nat → Nat → Nat → List Nat × Nat
  | [], _, _, last => ([], last)
  | b :: rest, bits, i, last =>
    let bitsleft := min bits 8
    let s := millerEncodeByteBits b bitsleft last
    if bitsleft == 8 then
      match par with
      | some p =>
        let ps := millerEncodeBit (parityBitOf p i) s.2
        let t := millerEncodeData par rest (bits - 8) (i + 1) ps.2
        (s.1 ++ ps.1 :: t.1, t.2)
      | none =>
        let t := millerEncodeData par rest (bits - 8) (i + 1) s.2
        (s.1 ++ t.1, t.2)
    else
      let t := millerEncodeData par rest (bits - 8) (i + 1) s.2
      (s.1 ++ t.1, t.2)

/-- `CodeIso14443aBitsAsReaderPar(cmd, bits, par)`: start-of-communication
Sequence Z, the data (and parity) bits, then the end of communication
(logic 0 followed by Sequence Y).  Returns the ToSend symbol bytes. -/
def CodeIso14443aBitsAsReaderPar (cmd : List Nat) (bits : Nat) (par : Option (List Nat)) : List Nat :=
  let d := millerEncodeData par (cmd.take (nbytes bits)) bits 0 0
  let eoc := if d.2 == 0 then [SEC_Z, SEC_Y] else [SEC_Y, SEC_Y]
  SEC_Z :: d.1 ++ eoc

/-- The radio channel between `CodeIso14443aBitsAsReaderPar` and
`MillerDecoding`: a ToSend byte marks modulated (pause) ticks with 1-bits,
while the FPGA delivers the demodulated antenna voltage, i.e. 1 for an
unmodulated tick and 0 during a pause; one symbol byte is one sample
byte, inverted. -/
def millerAir (b : Nat) : Nat := 0xFF ^^^ b

/-- Two idle (fully unmodulated) sample bytes precede the frame, as on the
air where the field is on before the reader starts pausing. -/
def millerSamplesOf (cmd : List Nat) (bits : Nat) (par : Option (List Nat)) : List Nat :=
  [0xFF, 0xFF] ++ (CodeIso14443aBitsAsReaderPar cmd bits par).map millerAir

/-! ### Manchester decoder (tag to reader), iso14443a.c lines 541-693 -/

inductive DemodState where
  | unsyncd
  | manchesterData
deriving DecidableEq, Repr

/-- `tDemod14a`: `len` is `output.length`, `parityLen` is `parity.length`. -/
structure Demod14a where
  state : DemodState
  twoBits : Nat       -- uint16_t
  highCnt : Nat
  bitCount : Nat
  collisionPos : Nat  -- 0 = no collision
  syncBit : Nat       -- 0xFFFF = unset
  parityBits : Nat    -- uint8_t
  shiftReg : Nat
  samples : Nat
  startTime : Nat
  endTime : Nat
  output : List Nat
  parity : List Nat
  output_len : Nat
deriving DecidableEq, Repr

def Demod14aReset (u : Demod14a) : Demod14a :=
  { u with state := .unsyncd, twoBits := 0xFFFF, highCnt := 0, bitCount := 0,
           collisionPos := 0, syncBit := 0xFFFF, parityBits := 0, parity := [],
           shiftReg := 0, samples := 0, output := [], startTime := 0, endTime := 0 }

def Demod14aInit (outputLen : Nat) : Demod14a :=
  { state := .unsyncd, twoBits := 0xFFFF, highCnt := 0, bitCount := 0,
    collisionPos := 0, syncBit := 0xFFFF, parityBits := 0, parity := [],
    shiftReg := 0, samples := 0, output := [], startTime := 0, endTime := 0,
    output_len := outputLen }

/-- `Mod_Manchester_LUT`: three or four 1-samples in a nibble. -/
def Mod_Manchester_LUT : List Bool :=
  [false, false, false, false, false, false, false, true,
   false, false, false, true,  false, true,  true,  true]

def IsManchesterModulationNibble1 (b : Nat) : Bool :=
  Mod_Manchester_LUT.getD ((b &&& 0xF0) >>> 4) false

def IsManchesterModulationNibble2 (b : Nat) : Bool :=
  Mod_Manchester_LUT.getD (b &&& 0x0F) false

/-- The sync-bit search cascade of `ManchesterDecoding` (lines 617-624). -/
def manchesterSyncSearch (twoBits : Nat) : Nat :=
  if twoBits &&& 0x7700 == 0x7000 then 7
  else if twoBits &&& 0x3B80 == 0x3800 then 6
  else if twoBits &&& 0x1DC0 == 0x1C00 then 5
  else if twoBits &&& 0x0EE0 == 0x0E00 then 4
  else if twoBits &&& 0x0770 == 0x0700 then 3
  else if twoBits &&& 0x03B8 == 0x0380 then 2
  else if twoBits &&& 0x01DC == 0x01C0 then 1
  else if twoBits &&& 0x00EE == 0x00E0 then 0
  else 0xFFFF

/-- The byte-completion block of the Manchester branches. -/
def manchesterByteComplete (u : Demod14a) : Demod14a :=
  let output := u.output ++ [u.shiftReg &&& 0xFF]
  let parityBits := ((u.parityBits <<< 1) &&& 0xFF) ||| ((u.shiftReg >>> 8) &&& 1)
  let u := { u with output, bitCount := 0, shiftReg := 0 }
  if output.length % 8 == 0 then
    { u with parity := u.parity ++ [parityBits], parityBits := 0 }
  else
    { u with parityBits }

/-- `ManchesterDecoding(bit, offset, non_real_time)` (lines 596-693).  As
for the Miller decoder the hardware clock read is abstracted by a nonzero
`nonRealTime`. -/
def ManchesterDecoding (u0 : Demod14a) (bit : Nat) (offset : Nat) (nonRealTime : Nat) :
    Demod14a × Bool :=
  if u0.output.length == u0.output_len then
    let parityBits := (u0.parityBits <<< (8 - u0.output.length % 8)) &&& 0xFF
    ({ u0 with parityBits, parity := u0.parity ++ [parityBits] }, true)
  else
    let u := { u0 with twoBits := ((u0.twoBits <<< 8) ||| bit) % 65536 }
    if u.state == .unsyncd then
      if u.highCnt < 2 then
        if u.twoBits == 0 then ({ u with highCnt := u.highCnt + 1 }, false)
        else ({ u with highCnt := 0 }, false)
      else
        let syncBit := manchesterSyncSearch u.twoBits
        if syncBit != 0xFFFF then
          let startTime := nonRealTime - syncBit
          ({ u with syncBit, startTime, bitCount := offset,
                    state := .manchesterData }, false)
        else ({ u with syncBit }, false)
    else
      let w := u.twoBits >>> u.syncBit
      if IsManchesterModulationNibble1 w then
        let u :=
          if IsManchesterModulationNibble2 w then   -- modulation in both halves: collision
            if u.collisionPos == 0 then
              { u with collisionPos := (u.output.length <<< 3) + u.bitCount }
            else u
          else u
        -- Sequence D = 1 (in both cases a 1 enters the shift register)
        let u := { u with bitCount := u.bitCount + 1,
                          shiftReg := (u.shiftReg >>> 1) ||| 0x100 }
        let u := if u.bitCount == 9 then manchesterByteComplete u else u
        ({ u with endTime :=
             u.startTime + 8 * (9 * u.output.length + u.bitCount + 1) - 4 }, false)
      else
        if IsManchesterModulationNibble2 w then     -- Sequence E = 0
          let u := { u with bitCount := u.bitCount + 1,
                            shiftReg := u.shiftReg >>> 1 }
          let u := if u.bitCount ≥ 9 then manchesterByteComplete u else u
          ({ u with endTime :=
               u.startTime + 8 * (9 * u.output.length + u.bitCount + 1) }, false)
        else                                        -- no modulation: end of communication
          if u.bitCount > 0 then
            let shiftReg := u.shiftReg >>> (9 - u.bitCount)
            let output := u.output ++ [shiftReg &&& 0xFF]
            let parityBits := (u.parityBits <<< 1) &&& 0xFF
            let parityBits := (parityBits <<< (8 - output.length % 8)) &&& 0xFF
            ({ u with shiftReg, output, parityBits,
                      parity := u.parity ++ [parityBits] }, true)
          else
            let u :=
              if u.output.length % 8 != 0 then
                let parityBits := (u.parityBits <<< (8 - u.output.length % 8)) &&& 0xFF
                { u with parityBits, parity := u.parity ++ [parityBits] }
              else u
            if u.output.length != 0 then (u, true)
            else (Demod14aReset u, false)

/-- Feed a sample-byte stream to the Manchester decoder, stopping at the
first completed frame. -/
def manchesterRun (offset : Nat) : Demod14a → List Nat → Demod14a × Bool
  | u, [] => (u, false)
  | u, b :: rest =>
    let s := ManchesterDecoding u b offset 8
    if s.2 then (s.1, true) else manchesterRun offset s.1 rest

/-! ### Anticollision bit walk, iso14443a.c lines 3084-3118 -/

/-- `(resp[i / 8] >> (i % 8)) & 0x01`: UID bit `i` of a received answer. -/
def respBit (resp : List Nat) (i : Nat) : Nat :=
  ((resp.getD (i / 8) 0) >>> (i % 8)) &&& 1

/-- `uid_resp[i / 8] |= b << (i % 8)`: the 5-byte accumulator is a byte
function. -/
def acSetBit (f : Nat → Nat) (i : Nat) (b : Nat) : Nat → Nat :=
  fun j => if j == i / 8 then f j ||| (b <<< (i % 8)) else f j

/-- The copy loop `for (i = collision_answer_offset; i < collisionPos; i++,
uid_resp_bits++)`, recursing on the number of copied bits. -/
def acCopyBits (resp : List Nat) : Nat → (Nat → Nat) → Nat → Nat → ((Nat → Nat) × Nat)
  | 0, f, _, bits => (f, bits)
  | n + 1, f, i, bits =>
    acCopyBits resp n (acSetBit f bits (respBit resp i)) (i + 1) (bits + 1)

/-- Bit `i` of the packed `uid_resp` accumulator. -/
def uidRespBit (f : Nat → Nat) (i : Nat) : Nat :=
  (f (i / 8) >>> (i % 8)) &&& 1

/-- State threaded through the anticollision loop. -/
structure AcState where
  uid_resp : Nat → Nat
  uid_resp_bits : Nat
  collision_answer_offset : Nat

/-- The partial SELECT that one loop iteration transmits. -/
structure AcTx where
  nvb : Nat
  uidBytes : List Nat
  txBits : Nat
deriving DecidableEq

/-- One iteration of the anticollision loop body (lines 3090-3111): copy
the valid bits before the collision, force a 1 at the collision position,
build `sel_uid[1]` (NVB) and the copied UID bytes, and transmit
`16 + uid_resp_bits` bits. -/
def acCollisionStep (st : AcState) (resp : List Nat) (collisionPos : Nat) : AcState × AcTx :=
  let c := acCopyBits resp (collisionPos - st.collision_answer_offset)
             st.uid_resp st.collision_answer_offset st.uid_resp_bits
  let f := acSetBit c.1 c.2 1                      -- next time select the card(s) with a 1 here
  let bits := c.2 + 1
  let nvb := ((2 + bits / 8) <<< 4) ||| (bits &&& 0x07)
  let uidBytes := (List.range (bits / 8 + 1)).map f
  ({ uid_resp := f, uid_resp_bits := bits, collision_answer_offset := bits % 8 },
   { nvb, uidBytes, txBits := 16 + bits })

/-- The final copy (lines 3114-3118): add the last bits and BCC of the UID
after the loop has exited. -/
def acFinish (st : AcState) (resp : List Nat) : AcState :=
  let c := acCopyBits resp (resp.length * 8 - st.collision_answer_offset)
             st.uid_resp st.collision_answer_offset st.uid_resp_bits
  { st with uid_resp := c.1, uid_resp_bits := c.2 }

/-- The loop `while (Demod.collisionPos)` driven by the sequence of
decoder results; each element is a received answer together with the
collision position the Manchester decoder reported for it.  Returns the
transmitted partial SELECTs and, if every re-transmission got an answer,
the final accumulator state. -/
def acWalk : AcState → (List Nat × Nat) → List (List Nat × Nat) →
    List AcTx × Option AcState
  | st, (resp, colPos), future =>
    if colPos == 0 then ([], some (acFinish st resp))
    else
      let s := acCollisionStep st resp colPos
      match future with
      | [] => ([s.2], none)                        -- ReaderReceiveOffset failed: return 0
      | r :: rest =>
        let t := acWalk s.1 r rest
        (s.2 :: t.1, t.2)

/-! ### BCC check and override, iso14443a.c lines 3141-3161 -/

/-- `hf14aconfig.forcebcc` policy applied to the five bytes received in
anticollision (`sel_uid[2..6]` = UID + original BCC).  Returns `none` when
selection aborts (return 0), otherwise the five bytes actually used in the
SELECT command. -/
def bccCheckStep (uid_resp : List Nat) (forcebcc : Nat) : Option (List Nat) :=
  let s2 := uid_resp.getD 0 0
  let s3 := uid_resp.getD 1 0
  let s4 := uid_resp.getD 2 0
  let s5 := uid_resp.getD 3 0
  let s6 := uid_resp.getD 4 0
  let bcc := s2 ^^^ s3 ^^^ s4 ^^^ s5
  if s6 != bcc then
    if forcebcc == 0 then none
    else if forcebcc == 1 then some [s2, s3, s4, s5, bcc]
    else some [s2, s3, s4, s5, s6]
  else some [s2, s3, s4, s5, s6]

/-! ### Tag emulator: READ dispatch and 4-bit answers -/

/-- Modelled from the spec: the 4-bit answer codes (protocols.h, outside
src/): ACK=0xA, NACK_PA=0x1 (parity/CRC error), NACK_IV=0x0 (invalid
argument), NACK_NA=0x4 (counter overflow). -/
def CARD_NACK_IV : Nat := 0x00
def CARD_NACK_PA : Nat := 0x01
def CARD_NACK_NA : Nat := 0x04
def CARD_ACK : Nat := 0x0A

/-- Emulator memory is an address-to-byte function; `emlGet(out, addr, n)`
reads `n` bytes starting at `addr`. -/
def emlGet (em : Nat → Nat) (addr n : Nat) : List Nat :=
  (List.range n).map (fun i => em (addr + i) &&& 0xFF)

/-- What the `0x30` (READ) branch of `SimulateIso14443aTag` sends back. -/
inductive EmAction where
  | send4bit (v : Nat)
  | sendFrame (bs : List Nat)
  | sendResponseIndex (i : Nat)
deriving DecidableEq

def RESP_INDEX_UIDC1 : Nat := 1

def MIFARE_BLOCK_SIZE : Nat := 16

/-- The `ISO14443A_CMD_READBLOCK && len == 4` dispatch arm of
`SimulateIso14443aTag` (lines 1814-1849).  `prefixLen` is
`MFU_DUMP_PREFIX_LENGTH` (mfu dump header, defined outside src/), kept as
a parameter. -/
def simulateReadBlock (tagType pages prefixLen block : Nat) (em : Nat → Nat) : EmAction :=
  if tagType == 7 || tagType == 2 || tagType == 13 then
    if block > pages then
      .send4bit CARD_NACK_IV
    else
      let start := block * 4 + prefixLen
      .sendFrame (AddCrc14A (emlGet em start MIFARE_BLOCK_SIZE))
  else if tagType == 9 && block == 1 then
    .sendResponseIndex RESP_INDEX_UIDC1
  else
    .sendFrame (AddCrc14A (emlGet em block MIFARE_BLOCK_SIZE))

/-- `Code4bitAnswerAsTag(cmd)` (lines 1046-1082): the eight
`tosend_stuffbit` calls (0,0,0,0,1,0,0,0; `tosend` lives outside src/)
pack into the byte 0x08, then start bit D, the four data bits LSB first
as D/E, and stop bit F. -/
def code4Data : Nat → Nat → List Nat
  | _, 0 => []
  | b, k + 1 => (if b &&& 1 == 1 then SEC_D else SEC_E) :: code4Data (b >>> 1) k

def Code4bitAnswerAsTag (cmd : Nat) : List Nat :=
  0x08 :: SEC_D :: (code4Data cmd 4 ++ [SEC_F])

/-! ### Tag emulator: UL-C AUTH part 2, iso14443a.c lines 2036-2082 -/

def ORDER_NONE : Nat := 0
def ORDER_AUTH : Nat := 7

def bufSet (f : Nat → Nat) (i v : Nat) : Nat → Nat :=
  fun j => if j == i then v else f j

def bufSetList (f : Nat → Nat) (i : Nat) : List Nat → (Nat → Nat)
  | [] => f
  | v :: vs => bufSetList (bufSet f i v) (i + 1) vs

def bufBytes (f : Nat → Nat) (n : Nat) : List Nat :=
  (List.range n).map f

/-- The `MIFARE_ULC_AUTH_2 && len == 19 && tagType == 13` handler.
`encRolRndA` stands for the 8 bytes that `tdes_nxp_send` (3DES primitive,
outside src/) writes at `response + 1`, i.e. E(K, rol(RndA)); with
`ulc_part2` set they are zeroed instead.  The handler then appends a CRC
over the first 9 bytes, sets `response_n = 11`, and - unconditionally -
appends a second CRC over the first 17 bytes and sets `response_n = 19`,
which is what is transmitted.  Returns the final buffer, `response_n` and
`order`. -/
def ulcAuth2Handler (buf0 : Nat → Nat) (encRolRndA : List Nat) (ulc_part2 : Bool) :
    (Nat → Nat) × Nat × Nat :=
  let b := bufSet buf0 0 0x00
  let b := if ulc_part2 then bufSetList b 1 (List.replicate 8 0)
           else bufSetList b 1 encRolRndA
  let c9 := crc14a (bufBytes b 9)
  let b := bufSet (bufSet b 9 (c9 &&& 0xFF)) 10 (c9 >>> 8)
  -- response_n = 1 + 8 + 2 = 11 here, immediately overwritten below
  let c17 := crc14a (bufBytes b 17)
  let b := bufSet (bufSet b 17 (c17 &&& 0xFF)) 18 (c17 >>> 8)
  (b, 1 + 16 + 2, ORDER_NONE)

/-! ### Timing controller, iso14443a.c lines 54, 2296-2335 -/

def REQUEST_GUARD_TIME : Nat := 7000 / 16 + 1

structure TxTiming where
  NextTransferTime : Nat
  LastTimeProxToAirStart : Nat
deriving DecidableEq, Repr

/-- `TransmitFor14443a(cmd, len, timing)` restricted to its effect on the
shared timing state.  `now` abstracts `GetCountSspClk()` at the moment the
start time is computed; the spin-waits and the SSC transfer do not change
these variables.  `timing = none` is the NULL pointer, `some 0` a pointer
to 0, `some t` (`t` nonzero) a target time. -/
def TransmitFor14443a (st : TxTiming) (timing : Option Nat) (now : Nat)
    (hfFieldActive : Bool) : TxTiming :=
  if hfFieldActive = false then st
  else
    let start :=
      match timing with
      | some t => if t == 0 then ((now + 8) % 2 ^ 32) &&& 0xfffffff8 else t
      | none => ((max st.NextTransferTime now &&& 0xfffffff8) + 8) % 2 ^ 32
    { LastTimeProxToAirStart := start,
      NextTransferTime := max st.NextTransferTime ((start + REQUEST_GUARD_TIME) % 2 ^ 32) }

/-! ### Receive timeout, iso14443a.c lines 69-77, 302-308 -/

def DELAY_AIR2ARM_AS_READER : Nat := 3 + 16 + 8 + 8 * 16 + 4 * 16 - 8 * 16
def DELAY_ARM2AIR_AS_READER : Nat := 4 * 16 + 8 * 16 + 8 + 8 + 1

/-- `iso14a_set_timeout`: value stored in the static `iso14a_timeout`. -/
def iso14a_set_timeout (timeout : Nat) : Nat :=
  (timeout + (DELAY_AIR2ARM_AS_READER + DELAY_ARM2AIR_AS_READER) / 128 + 2) % 2 ^ 32

/-- `iso14a_get_timeout` applied to the stored value (uint32 subtraction). -/
def iso14a_get_timeout (stored : Nat) : Nat :=
  (stored + 2 ^ 32 - ((DELAY_AIR2ARM_AS_READER + DELAY_ARM2AIR_AS_READER) / 128 + 2)) % 2 ^ 32

/-! ### Mifare PRNG and `dist_nt`, iso14443a.c lines 3664-3689 -/

/-- Modelled from the spec: one step of the 16-bit LFSR nonce PRNG of
Mifare Classic (`prng_successor` lives in crapto1, outside src/).  A
32-bit nonce holds 32 consecutive LFSR output bits; one step shifts the
nonce left and feeds in the next output of the LFSR with feedback
polynomial x^16 + x^14 + x^13 + x^11 + 1, whose taps sit at nonce bits
15, 13, 12 and 10. -/
def prngFeedback (x : Nat) : Nat :=
  ((x >>> 15) ^^^ (x >>> 13) ^^^ (x >>> 12) ^^^ (x >>> 10)) &&& 1

def prngStep (x : Nat) : Nat :=
  ((x <<< 1) &&& 0xFFFFFFFF) ||| prngFeedback x

def prngIter : Nat → Nat → Nat
  | 0, x => x
  | n + 1, x => prngIter n (prngStep x)

/-- Modelled from the spec: `prng_successor(x, n)` advances the nonce by
`n` steps. -/
def prng_successor (x n : Nat) : Nat := prngIter n x

/-- The 16-bit LFSR underlying the nonce PRNG: the low 16 bits of the
nonce evolve autonomously (the taps all sit below bit 16). -/
def lfsr16Step (s : Nat) : Nat :=
  ((s <<< 1) &&& 0xFFFF) ||| prngFeedback s

def lfsr16Iter : Nat → Nat → Nat
  | 0, s => s
  | n + 1, s => lfsr16Iter n (lfsr16Step s)

/-- The loop of `dist_nt` (lines 3676-3686): iterations `i = 1 .. 32767`,
walking both nonces forward one step per iteration and checking the two
directions in order. -/
def distNtAux (nt1 nt2 : Nat) : Nat → Nat → Nat → Nat → Int
  | _, _, _, 0 => -99999
  | t1, t2, i, fuel + 1 =>
    let t1 := prngStep t1
    if t1 == nt2 then (i : Int)
    else
      let t2 := prngStep t2
      if t2 == nt1 then -(i : Int)
      else distNtAux nt1 nt2 t1 t2 (i + 1) fuel

/-- `dist_nt(nt1, nt2)` (lines 3667-3689). -/
def dist_nt (nt1 nt2 : Nat) : Int :=
  if nt1 == nt2 then 0
  else distNtAux nt1 nt2 nt1 nt2 1 32767

/-! ## Theorems -/

/-! ### Bit-manipulation kit -/

theorem and255_eq_mod (x : Nat) : x &&& 255 = x % 256 := by
  have h := Nat.and_pow_two_sub_one_eq_mod x 8
  norm_num at h
  exact h

theorem and65535_eq_mod (x : Nat) : x &&& 65535 = x % 65536 := by
  have h := Nat.and_pow_two_sub_one_eq_mod x 16
  norm_num at h
  exact h

theorem and7_eq_mod (x : Nat) : x &&& 7 = x % 8 := by
  have h := Nat.and_pow_two_sub_one_eq_mod x 3
  norm_num at h
  exact h

theorem and_u32_eq_mod (x : Nat) : x &&& 4294967295 = x % 4294967296 := by
  have h := Nat.and_pow_two_sub_one_eq_mod x 32
  norm_num at h
  exact h

theorem nat_shiftRight_or (x y k : Nat) : (x ||| y) >>> k = (x >>> k) ||| (y >>> k) := by
  apply Nat.eq_of_testBit_eq
  intro i
  simp [Nat.testBit_shiftRight, Nat.testBit_or]

theorem nat_and_or_right (x y m : Nat) : (x ||| y) &&& m = (x &&& m) ||| (y &&& m) := by
  apply Nat.eq_of_testBit_eq
  intro i
  simp only [Nat.testBit_and, Nat.testBit_or]
  cases x.testBit i <;> cases y.testBit i <;> cases m.testBit i <;> rfl

theorem bitval_or (x y k : Nat) : ((x ||| y) >>> k) &&& 1 = ((x >>> k) &&& 1) ||| ((y >>> k) &&& 1) := by
  rw [nat_shiftRight_or, nat_and_or_right]

theorem bitval_shiftLeft_self (b k : Nat) : ((b <<< k) >>> k) &&& 1 = b &&& 1 := by
  rw [Nat.shiftLeft_eq, Nat.shiftRight_eq_div_pow,
    Nat.mul_div_cancel _ (Nat.pos_pow_of_pos k (by norm_num))]

theorem bitval_shiftLeft_ne (b k j : Nat) (hb : b ≤ 1) (hne : j ≠ k) :
    ((b <<< k) >>> j) &&& 1 = 0 := by
  rw [Nat.shiftLeft_eq, Nat.shiftRight_eq_div_pow, Nat.and_one_is_mod]
  rcases Nat.lt_or_ge j k with h | h
  · have he : b * 2 ^ k / 2 ^ j = b * 2 ^ (k - j) := by
      rw [Nat.mul_div_assoc _ (pow_dvd_pow 2 (le_of_lt h)),
        Nat.pow_div (le_of_lt h) (by norm_num)]
    rw [he]
    obtain ⟨c, hc⟩ : (2 : Nat) ∣ b * 2 ^ (k - j) :=
      Dvd.dvd.mul_left (dvd_pow_self 2 (by omega)) b
    omega
  · have hgt : k < j := lt_of_le_of_ne h (fun a => hne a.symm)
    have hz : b * 2 ^ k / 2 ^ j = 0 := by
      apply Nat.div_eq_of_lt
      calc b * 2 ^ k ≤ 1 * 2 ^ k := Nat.mul_le_mul_right _ hb
        _ < 2 ^ j := by
            rw [one_mul]
            exact Nat.pow_lt_pow_right (by norm_num) hgt
    simp [hz]

/-! ### Claim C2: request guard time -/

/-- Claim C2: for every call to `TransmitFor14443a` while the HF field is
active, whatever the `timing` argument (null, pointer to 0, or a target
time), afterwards `NextTransferTime - LastTimeProxToAirStart` is at least
`REQUEST_GUARD_TIME = 7000/16 + 1` ssp cycles.  The bounds keep the
32-bit clock arithmetic away from wrap-around. -/
theorem c2_transmit_guard_time (st : TxTiming) (timing : Option Nat) (now : Nat)
    (hnow : now ≤ 2 ^ 32 - 1024) (hntt : st.NextTransferTime ≤ 2 ^ 32 - 1024)
    (ht : ∀ t, timing = some t → t ≤ 2 ^ 32 - 1024) :
    REQUEST_GUARD_TIME ≤
      (TransmitFor14443a st timing now true).NextTransferTime -
        (TransmitFor14443a st timing now true).LastTimeProxToAirStart ∧
    REQUEST_GUARD_TIME = 7000 / 16 + 1 := by
  refine ⟨?_, rfl⟩
  have hrgt : REQUEST_GUARD_TIME = 438 := rfl
  cases timing with
  | none =>
    have h1 : (max st.NextTransferTime now) &&& 0xfffffff8 ≤ max st.NextTransferTime now :=
      Nat.and_le_left
    have h2 : max st.NextTransferTime now ≤ 2 ^ 32 - 1024 := max_le hntt hnow
    have h3 : ((max st.NextTransferTime now &&& 0xfffffff8) + 8) % 2 ^ 32 =
        (max st.NextTransferTime now &&& 0xfffffff8) + 8 := Nat.mod_eq_of_lt (by omega)
    have eL : (TransmitFor14443a st none now true).LastTimeProxToAirStart =
        ((max st.NextTransferTime now &&& 0xfffffff8) + 8) % 2 ^ 32 := by
      simp only [TransmitFor14443a, Bool.true_eq_false, if_false]
    have eN : (TransmitFor14443a st none now true).NextTransferTime =
        max st.NextTransferTime
          ((((max st.NextTransferTime now &&& 0xfffffff8) + 8) % 2 ^ 32 +
            REQUEST_GUARD_TIME) % 2 ^ 32) := by
      simp only [TransmitFor14443a, Bool.true_eq_false, if_false]
    rw [h3] at eL eN
    set s := (max st.NextTransferTime now &&& 0xfffffff8) + 8 with hs
    have h4 : (s + REQUEST_GUARD_TIME) % 2 ^ 32 = s + REQUEST_GUARD_TIME :=
      Nat.mod_eq_of_lt (by omega)
    rw [h4] at eN
    rw [eL, eN]
    have h5 := le_max_right st.NextTransferTime (s + REQUEST_GUARD_TIME)
    omega
  | some t =>
    have htb : t ≤ 2 ^ 32 - 1024 := ht t rfl
    by_cases h0 : t = 0
    · subst h0
      have h1 : (now + 8) % 2 ^ 32 = now + 8 := Nat.mod_eq_of_lt (by omega)
      have h2 : (now + 8) &&& 0xfffffff8 ≤ now + 8 := Nat.and_le_left
      have eL : (TransmitFor14443a st (some 0) now true).LastTimeProxToAirStart =
          ((now + 8) % 2 ^ 32) &&& 0xfffffff8 := by
        simp [TransmitFor14443a]
      have eN : (TransmitFor14443a st (some 0) now true).NextTransferTime =
          max st.NextTransferTime
            (((((now + 8) % 2 ^ 32) &&& 0xfffffff8) + REQUEST_GUARD_TIME) % 2 ^ 32) := by
        simp [TransmitFor14443a]
      rw [h1] at eL eN
      set s := (now + 8) &&& 0xfffffff8 with hs
      have h4 : (s + REQUEST_GUARD_TIME) % 2 ^ 32 = s + REQUEST_GUARD_TIME :=
        Nat.mod_eq_of_lt (by omega)
      rw [h4] at eN
      rw [eL, eN]
      have h5 := le_max_right st.NextTransferTime (s + REQUEST_GUARD_TIME)
      omega
    · have hb : (t == 0) = false := by simp [h0]
      have h4 : (t + REQUEST_GUARD_TIME) % 2 ^ 32 = t + REQUEST_GUARD_TIME :=
        Nat.mod_eq_of_lt (by omega)
      have eL : (TransmitFor14443a st (some t) now true).LastTimeProxToAirStart = t := by
        simp only [TransmitFor14443a, Bool.true_eq_false, if_false, hb,
          Bool.false_eq_true]
      have eN : (TransmitFor14443a st (some t) now true).NextTransferTime =
          max st.NextTransferTime ((t + REQUEST_GUARD_TIME) % 2 ^ 32) := by
        simp only [TransmitFor14443a, Bool.true_eq_false, if_false, hb,
          Bool.false_eq_true]
      rw [h4] at eN
      rw [eL, eN]
      have h5 := le_max_right st.NextTransferTime (t + REQUEST_GUARD_TIME)
      omega

/-- Witness for `c2_transmit_guard_time` at a concrete state and all three
timing modes. -/
theorem c2_transmit_guard_time_witness :
    (REQUEST_GUARD_TIME ≤
      (TransmitFor14443a ⟨0, 0⟩ none 100 true).NextTransferTime -
        (TransmitFor14443a ⟨0, 0⟩ none 100 true).LastTimeProxToAirStart ∧
     REQUEST_GUARD_TIME = 7000 / 16 + 1) ∧
    (REQUEST_GUARD_TIME ≤
      (TransmitFor14443a ⟨500, 0⟩ (some 0) 100 true).NextTransferTime -
        (TransmitFor14443a ⟨500, 0⟩ (some 0) 100 true).LastTimeProxToAirStart ∧
     REQUEST_GUARD_TIME = 7000 / 16 + 1) ∧
    (REQUEST_GUARD_TIME ≤
      (TransmitFor14443a ⟨500, 0⟩ (some 4096) 100 true).NextTransferTime -
        (TransmitFor14443a ⟨500, 0⟩ (some 4096) 100 true).LastTimeProxToAirStart ∧
     REQUEST_GUARD_TIME = 7000 / 16 + 1) :=
  ⟨c2_transmit_guard_time ⟨0, 0⟩ none 100 (by norm_num) (by norm_num)
     (by intro t h; cases h),
   c2_transmit_guard_time ⟨500, 0⟩ (some 0) 100 (by norm_num) (by norm_num)
     (by intro t h; cases h; norm_num),
   c2_transmit_guard_time ⟨500, 0⟩ (some 4096) 100 (by norm_num) (by norm_num)
     (by intro t h; cases h; norm_num)⟩

/-! ### Claim C10: timeout set/get round trip -/

/-- Claim C10: for every timeout value `t` (any 32-bit value),
`iso14a_get_timeout` after `iso14a_set_timeout t` returns exactly `t`:
the compensation `(DELAY_AIR2ARM_AS_READER + DELAY_ARM2AIR_AS_READER)/128
+ 2` added by the setter is subtracted unchanged by the getter. -/
theorem c10_timeout_roundtrip (t : Nat) (ht : t < 2 ^ 32) :
    iso14a_get_timeout (iso14a_set_timeout t) = t := by
  unfold iso14a_get_timeout iso14a_set_timeout DELAY_AIR2ARM_AS_READER DELAY_ARM2AIR_AS_READER
  norm_num
  omega

/-- Witness for `c10_timeoutroundtrip` at the default timeout 1060. -/
theorem c10_timeout_roundtrip_witness :
    iso14a_get_timeout (iso14a_set_timeout 1060) = 1060 :=
  c10_timeout_roundtrip 1060 (by norm_num)

/-! ### Claim C4: Manchester collision recording -/

/-- Claim C4, amended: in the synchronised Manchester decoder, a nibble
pair with modulation in both halves is a collision: if no collision has
been recorded yet, `collisionPos` is set to the 0-based bit index of the
colliding bit, i.e. `8 * len + bitCount` (so a collision on the very
first bit is not distinguishable from "no collision", 0 being the
sentinel), an already-recorded position is kept, and the colliding bit is
decoded as a 1 (Sequence D). -/
theorem c4_manchester_collision_records (u : Demod14a) (bit off nrt : Nat)
    (hlen : u.output.length ≠ u.output_len)
    (hst : u.state = .manchesterData)
    (hm1 : IsManchesterModulationNibble1
      ((((u.twoBits <<< 8) ||| bit) % 65536) >>> u.syncBit) = true)
    (hm2 : IsManchesterModulationNibble2
      ((((u.twoBits <<< 8) ||| bit) % 65536) >>> u.syncBit) = true) :
    ((ManchesterDecoding u bit off nrt).1.collisionPos =
       if u.collisionPos = 0 then u.output.length * 8 + u.bitCount else u.collisionPos) ∧
    (ManchesterDecoding u bit off nrt).2 = false ∧
    ((ManchesterDecoding u bit off nrt).1.bitCount =
       if u.bitCount + 1 = 9 then 0 else u.bitCount + 1) ∧
    (u.bitCount + 1 ≠ 9 →
       (ManchesterDecoding u bit off nrt).1.shiftReg = (u.shiftReg >>> 1) ||| 0x100) ∧
    (u.bitCount + 1 = 9 →
       (ManchesterDecoding u bit off nrt).1.output =
         u.output ++ [((u.shiftReg >>> 1) ||| 0x100) &&& 0xFF]) := by
  have hb : (u.output.length == u.output_len) = false := by simp [hlen]
  have hsb : (u.state == DemodState.unsyncd) = false := by simp [hst]
  simp only [ManchesterDecoding, hb, Bool.false_eq_true, if_false, hsb, hm1, hm2, if_true,
    manchesterByteComplete]
  split_ifs <;> simp_all [Nat.shiftLeft_eq]

/-- Claim C4 counterexample (the claim as stated): decoding the sample
stream idle, idle, idle, start bit D, data bit D, collision nibble 0xFF
puts the collision at 0-based data-bit index 1; the decoder records
`collisionPos = 1`, not the 1-based index 2 the claim asserts. -/
theorem c4_counterexample :
    (manchesterRun 0 (Demod14aInit 3)
      [0x00, 0x00, 0x00, 0xF0, 0xF0, 0xFF, 0x0F, 0x00]).1.collisionPos ≠ 2 ∧
    (manchesterRun 0 (Demod14aInit 3)
      [0x00, 0x00, 0x00, 0xF0, 0xF0, 0xFF, 0x0F, 0x00]).1.collisionPos = 1 := by
  decide

/-- Witness for `c4_manchester_collision_records` on a concrete
synchronised decoder state. -/
theorem c4_manchester_collision_records_witness :
    ((ManchesterDecoding
        { state := .manchesterData, twoBits := 0x00F0, highCnt := 2, bitCount := 1,
          collisionPos := 0, syncBit := 0, parityBits := 0, shiftReg := 0x100,
          samples := 0, startTime := 8, endTime := 0, output := [], parity := [],
          output_len := 3 } 0xFF 0 8).1.collisionPos =
       if (0 : Nat) = 0 then 0 * 8 + 1 else 0) ∧
    (ManchesterDecoding
        { state := .manchesterData, twoBits := 0x00F0, highCnt := 2, bitCount := 1,
          collisionPos := 0, syncBit := 0, parityBits := 0, shiftReg := 0x100,
          samples := 0, startTime := 8, endTime := 0, output := [], parity := [],
          output_len := 3 } 0xFF 0 8).2 = false ∧
    ((ManchesterDecoding
        { state := .manchesterData, twoBits := 0x00F0, highCnt := 2, bitCount := 1,
          collisionPos := 0, syncBit := 0, parityBits := 0, shiftReg := 0x100,
          samples := 0, startTime := 8, endTime := 0, output := [], parity := [],
          output_len := 3 } 0xFF 0 8).1.bitCount =
       if (1 : Nat) + 1 = 9 then 0 else 1 + 1) ∧
    ((1 : Nat) + 1 ≠ 9 →
       (ManchesterDecoding
        { state := .manchesterData, twoBits := 0x00F0, highCnt := 2, bitCount := 1,
          collisionPos := 0, syncBit := 0, parityBits := 0, shiftReg := 0x100,
          samples := 0, startTime := 8, endTime := 0, output := [], parity := [],
          output_len := 3 } 0xFF 0 8).1.shiftReg = ((0x100 : Nat) >>> 1) ||| 0x100) ∧
    ((1 : Nat) + 1 = 9 →
       (ManchesterDecoding
        { state := .manchesterData, twoBits := 0x00F0, highCnt := 2, bitCount := 1,
          collisionPos := 0, syncBit := 0, parityBits := 0, shiftReg := 0x100,
          samples := 0, startTime := 8, endTime := 0, output := [], parity := [],
          output_len := 3 } 0xFF 0 8).1.output = [] ++ [(((0x100 : Nat) >>> 1) ||| 0x100) &&& 0xFF]) :=
  c4_manchester_collision_records
    { state := .manchesterData, twoBits := 0x00F0, highCnt := 2, bitCount := 1,
      collisionPos := 0, syncBit := 0, parityBits := 0, shiftReg := 0x100,
      samples := 0, startTime := 8, endTime := 0, output := [], parity := [],
      output_len := 3 } 0xFF 0 8 (by decide) rfl (by decide) (by decide)

/-! ### Claim C5: anticollision bit walk -/

theorem respBit_le_one (resp : List Nat) (i : Nat) : respBit resp i ≤ 1 :=
  Nat.and_le_right

theorem uidRespBit_acSetBit (f : Nat → Nat) (i b j : Nat) (hb : b ≤ 1) :
    uidRespBit (acSetBit f i b) j =
      if j = i then uidRespBit f j ||| b else uidRespBit f j := by
  unfold uidRespBit acSetBit
  by_cases hji : j = i
  · subst hji
    simp only [beq_self_eq_true, if_true, if_pos rfl]
    rw [bitval_or, bitval_shiftLeft_self]
    rcases Nat.le_one_iff_eq_zero_or_eq_one.mp hb with rfl | rfl <;> rfl
  · rw [if_neg hji]
    by_cases hd : j / 8 = i / 8
    · have hmod : j % 8 ≠ i % 8 := by omega
      simp only [hd, beq_self_eq_true, if_true]
      rw [bitval_or, bitval_shiftLeft_ne b (i % 8) (j % 8) hb hmod]
      simp
    · have hne : (j / 8 == i / 8) = false := by simp [hd]
      simp [hne]

theorem acCopyBits_len (resp : List Nat) :
    ∀ (n : Nat) (f : Nat → Nat) (i b : Nat), (acCopyBits resp n f i b).2 = b + n := by
  intro n
  induction n with
  | zero => intro f i b; simp [acCopyBits]
  | succ m ih =>
    intro f i b
    simp only [acCopyBits]
    rw [ih]
    omega

theorem acCopyBits_bits (resp : List Nat) :
    ∀ (n : Nat) (f : Nat → Nat) (i b j : Nat),
      uidRespBit (acCopyBits resp n f i b).1 j =
        if b ≤ j ∧ j < b + n then uidRespBit f j ||| respBit resp (i + (j - b))
        else uidRespBit f j := by
  intro n
  induction n with
  | zero =>
    intro f i b j
    have h0 : ¬ (b ≤ j ∧ j < b) := by omega
    simp [acCopyBits, h0]
  | succ m ih =>
    intro f i b j
    simp only [acCopyBits]
    rw [ih]
    rw [uidRespBit_acSetBit f b (respBit resp i) j (respBit_le_one resp i)]
    by_cases hj : j = b
    · subst hj
      have h1 : ¬ (j + 1 ≤ j ∧ j < j + 1 + m) := by omega
      have h2 : j ≤ j ∧ j < j + (m + 1) := by omega
      simp [h1, h2]
    · by_cases h3 : b + 1 ≤ j ∧ j < b + 1 + m
      · have h4 : b ≤ j ∧ j < b + (m + 1) := by omega
        have h5 : i + 1 + (j - (b + 1)) = i + (j - b) := by omega
        simp [h3, h4, hj, h5]
      · have h6 : ¬ (b ≤ j ∧ j < b + (m + 1)) := by omega
        simp [h3, h6, hj]

/-- Claim C5: on a collision flagged at bit index `k`, the anticollision
walk keeps the valid response bits `[0..k)`, appends a forced 1 at
position `k`, sets NVB to `((2 + (k+1)/8) << 4) | ((k+1) & 7)` (the
integer byte count `(k+1)/8`, i.e. `ceil(k+1)` divided by 8), transmits
`16 + (k+1)` bits carrying the `k+1` UID bits, and the loop repeats
exactly until the decoder reports `collisionPos = 0`. -/
theorem c5_anticollision_walk (resp : List Nat) (k : Nat) (hk : 0 < k) :
    (∀ i, i < k →
       uidRespBit (acCollisionStep ⟨fun _ => 0, 0, 0⟩ resp k).1.uid_resp i = respBit resp i) ∧
    uidRespBit (acCollisionStep ⟨fun _ => 0, 0, 0⟩ resp k).1.uid_resp k = 1 ∧
    (acCollisionStep ⟨fun _ => 0, 0, 0⟩ resp k).1.uid_resp_bits = k + 1 ∧
    (acCollisionStep ⟨fun _ => 0, 0, 0⟩ resp k).2.nvb =
      ((2 + (k + 1) / 8) <<< 4) ||| ((k + 1) &&& 0x07) ∧
    (acCollisionStep ⟨fun _ => 0, 0, 0⟩ resp k).2.txBits = 16 + (k + 1) ∧
    (acCollisionStep ⟨fun _ => 0, 0, 0⟩ resp k).2.uidBytes =
      (List.range ((k + 1) / 8 + 1)).map (acCollisionStep ⟨fun _ => 0, 0, 0⟩ resp k).1.uid_resp ∧
    (∀ (st : AcState) (r : List Nat) (future : List (List Nat × Nat)),
       acWalk st (r, 0) future = ([], some (acFinish st r))) := by
  have hcl := acCopyBits_len resp k (fun _ => 0) 0 0
  have hz : ∀ j, uidRespBit (fun _ => 0) j = 0 := by
    intro j
    simp [uidRespBit]
  refine ⟨?_, ?_, ?_, ?_, ?_, ?_, ?_⟩
  · intro i hi
    simp only [acCollisionStep, Nat.sub_zero]
    rw [uidRespBit_acSetBit _ _ _ _ (by norm_num)]
    rw [hcl]
    have : ¬ (i = 0 + k) := by omega
    rw [if_neg this]
    rw [acCopyBits_bits resp k (fun _ => 0) 0 0 i]
    have h2 : 0 ≤ i ∧ i < 0 + k := by omega
    simp [h2, hz]
    intro hle
    exact absurd hle (by omega)
  · simp only [acCollisionStep, Nat.sub_zero]
    rw [uidRespBit_acSetBit _ _ _ _ (by norm_num)]
    rw [hcl]
    rw [if_pos (by omega)]
    rw [acCopyBits_bits resp k (fun _ => 0) 0 0 k]
    have h2 : ¬ (0 ≤ k ∧ k < 0 + k) := by omega
    simp [h2, hz]
  · simp only [acCollisionStep, Nat.sub_zero]
    rw [hcl]
    omega
  · simp only [acCollisionStep, Nat.sub_zero]
    rw [hcl]
    norm_num
  · simp only [acCollisionStep, Nat.sub_zero]
    rw [hcl]
    omega
  · simp only [acCollisionStep, Nat.sub_zero]
    rw [hcl]
    norm_num
  · intro st r future
    simp [acWalk]

/-- Witness for `c5_anticollision_walk` with a collision at bit 3 of a
concrete 5-byte answer. -/
theorem c5_anticollision_walk_witness :
    (∀ i, i < 3 →
       uidRespBit (acCollisionStep ⟨fun _ => 0, 0, 0⟩ [0xB5, 0xFF, 0, 0, 0] 3).1.uid_resp i =
         respBit [0xB5, 0xFF, 0, 0, 0] i) ∧
    uidRespBit (acCollisionStep ⟨fun _ => 0, 0, 0⟩ [0xB5, 0xFF, 0, 0, 0] 3).1.uid_resp 3 = 1 ∧
    (acCollisionStep ⟨fun _ => 0, 0, 0⟩ [0xB5, 0xFF, 0, 0, 0] 3).1.uid_resp_bits = 3 + 1 ∧
    (acCollisionStep ⟨fun _ => 0, 0, 0⟩ [0xB5, 0xFF, 0, 0, 0] 3).2.nvb =
      ((2 + (3 + 1) / 8) <<< 4) ||| ((3 + 1) &&& 0x07) ∧
    (acCollisionStep ⟨fun _ => 0, 0, 0⟩ [0xB5, 0xFF, 0, 0, 0] 3).2.txBits = 16 + (3 + 1) ∧
    (acCollisionStep ⟨fun _ => 0, 0, 0⟩ [0xB5, 0xFF, 0, 0, 0] 3).2.uidBytes =
      (List.range ((3 + 1) / 8 + 1)).map
        (acCollisionStep ⟨fun _ => 0, 0, 0⟩ [0xB5, 0xFF, 0, 0, 0] 3).1.uid_resp ∧
    (∀ (st : AcState) (r : List Nat) (future : List (List Nat × Nat)),
       acWalk st (r, 0) future = ([], some (acFinish st r))) :=
  c5_anticollision_walk [0xB5, 0xFF, 0, 0, 0] 3 (by norm_num)

/-! ### Claim C6: BCC check and override policy -/

/-- Claim C6: before the full SELECT the engine compares the received 5th
byte with `uid[0]^uid[1]^uid[2]^uid[3]`; on match the bytes are used as
received; on mismatch `forcebcc = 0` aborts (selection returns 0),
`forcebcc = 1` replaces the BCC with the computed XOR, and `forcebcc = 2`
transmits the card-supplied BCC unchanged. -/
theorem c6_bcc_policy (u0 u1 u2 u3 b force : Nat) :
    (b = (u0 ^^^ u1 ^^^ u2 ^^^ u3) →
       bccCheckStep [u0, u1, u2, u3, b] force = some [u0, u1, u2, u3, b]) ∧
    (b ≠ (u0 ^^^ u1 ^^^ u2 ^^^ u3) → force = 0 →
       bccCheckStep [u0, u1, u2, u3, b] force = none) ∧
    (b ≠ (u0 ^^^ u1 ^^^ u2 ^^^ u3) → force = 1 →
       bccCheckStep [u0, u1, u2, u3, b] force =
         some [u0, u1, u2, u3, u0 ^^^ u1 ^^^ u2 ^^^ u3]) ∧
    (b ≠ (u0 ^^^ u1 ^^^ u2 ^^^ u3) → force = 2 →
       bccCheckStep [u0, u1, u2, u3, b] force = some [u0, u1, u2, u3, b]) := by
  refine ⟨fun h => ?_, fun h h0 => ?_, fun h h1 => ?_, fun h h2 => ?_⟩ <;>
    simp_all [bccCheckStep]

/-- Witness for `c6_bcc_policy` on the UID DE AD BE EF, whose BCC is
0x22: a matching BCC and a corrupted BCC 0x00 under each policy. -/
theorem c6_bcc_policy_witness :
    bccCheckStep [0xDE, 0xAD, 0xBE, 0xEF, 0x22] 0 = some [0xDE, 0xAD, 0xBE, 0xEF, 0x22] ∧
    bccCheckStep [0xDE, 0xAD, 0xBE, 0xEF, 0x00] 0 = none ∧
    bccCheckStep [0xDE, 0xAD, 0xBE, 0xEF, 0x00] 1 = some [0xDE, 0xAD, 0xBE, 0xEF, 0x22] ∧
    bccCheckStep [0xDE, 0xAD, 0xBE, 0xEF, 0x00] 2 = some [0xDE, 0xAD, 0xBE, 0xEF, 0x00] := by
  have h1 := (c6_bcc_policy 0xDE 0xAD 0xBE 0xEF 0x22 0).1 (by decide)
  have h2 := (c6_bcc_policy 0xDE 0xAD 0xBE 0xEF 0x00 0).2.1 (by decide) rfl
  have h3 := (c6_bcc_policy 0xDE 0xAD 0xBE 0xEF 0x00 1).2.2.1 (by decide) rfl
  have h4 := (c6_bcc_policy 0xDE 0xAD 0xBE 0xEF 0x00 2).2.2.2 (by decide) rfl
  exact ⟨h1, h2, by simpa using h3, h4⟩

/-! ### Claim C7: UL/NTAG READ dispatch -/

/-- Claim C7: in Ultralight/NTAG-family emulation (tagType 2, 7 or 13) a
READ `0x30 b` with `b` beyond the page count is answered with the 4-bit
NACK_IV frame (value 0x0) and no emulator memory enters the response,
while `b ≤ pages` is answered with 16 bytes of emulator memory from page
`b` (after the dump header) followed by the CRC-16. -/
theorem c7_ul_read (tagType pages prefixLen block : Nat) (em : Nat → Nat)
    (htype : tagType = 2 ∨ tagType = 7 ∨ tagType = 13) :
    (pages < block →
       simulateReadBlock tagType pages prefixLen block em = .send4bit CARD_NACK_IV ∧
       CARD_NACK_IV = 0 ∧
       Code4bitAnswerAsTag CARD_NACK_IV =
         [0x08, SEC_D, SEC_E, SEC_E, SEC_E, SEC_E, SEC_F]) ∧
    (block ≤ pages →
       simulateReadBlock tagType pages prefixLen block em =
         .sendFrame (AddCrc14A (emlGet em (block * 4 + prefixLen) 16))) := by
  constructor
  · intro h
    refine ⟨?_, rfl, rfl⟩
    rcases htype with rfl | rfl | rfl <;> simp [simulateReadBlock, h]
  · intro h
    have h2 : ¬ (block > pages) := by omega
    rcases htype with rfl | rfl | rfl <;>
      simp [simulateReadBlock, h2, MIFARE_BLOCK_SIZE]

/-- Witness for `c7_ul_read`: a 16-page tag answering READ 0x20 with
NACK_IV and READ 0x02 with data plus CRC. -/
theorem c7_ul_read_witness :
    (simulateReadBlock 2 16 56 0x20 (fun _ => 0) = .send4bit CARD_NACK_IV ∧
     CARD_NACK_IV = 0 ∧
     Code4bitAnswerAsTag CARD_NACK_IV =
       [0x08, SEC_D, SEC_E, SEC_E, SEC_E, SEC_E, SEC_F]) ∧
    (simulateReadBlock 2 16 56 0x02 (fun _ => 0) =
       .sendFrame (AddCrc14A (emlGet (fun _ => 0) (0x02 * 4 + 56) 16))) :=
  ⟨(c7_ul_read 2 16 56 0x20 (fun _ => 0) (Or.inl rfl)).1 (by norm_num),
   (c7_ul_read 2 16 56 0x02 (fun _ => 0) (Or.inl rfl)).2 (by norm_num)⟩

/-! ### Claim C8: UL-C AUTH part 2 response -/

/-- Claim C8 counterexample: the handler sets `response_n` to 19, so the
transmitted AUTH part 2 answer is a 19-byte frame, not the claimed
11-byte `0x00 + E(K, rol(RndA)) + CRC` frame. -/
theorem c8_counterexample :
    (ulcAuth2Handler (fun _ => 0) [1, 2, 3, 4, 5, 6, 7, 8] false).2.1 = 19 ∧
    (ulcAuth2Handler (fun _ => 0) [1, 2, 3, 4, 5, 6, 7, 8] false).2.1 ≠ 11 := by
  constructor
  · rfl
  · decide

/-- Claim C8, amended: the UL-C AUTH part 2 handler builds
`0x00 + E(K, rol(RndA))`, appends a CRC over those 9 bytes, then
unconditionally appends a second CRC over the first 17 bytes (covering
six residual buffer bytes) and transmits `response_n = 19` bytes; the
emulator state returns to NONE. -/
theorem c8_ulc_auth2_frame (buf0 : Nat → Nat) (e0 e1 e2 e3 e4 e5 e6 e7 : Nat) (p2 : Bool) :
    (ulcAuth2Handler buf0 [e0, e1, e2, e3, e4, e5, e6, e7] p2).2.1 = 19 ∧
    (ulcAuth2Handler buf0 [e0, e1, e2, e3, e4, e5, e6, e7] p2).2.2 = ORDER_NONE ∧
    bufBytes (ulcAuth2Handler buf0 [e0, e1, e2, e3, e4, e5, e6, e7] p2).1 19 =
      (let payload := if p2 then [0, 0, 0, 0, 0, 0, 0, 0]
                      else [e0, e1, e2, e3, e4, e5, e6, e7]
       let c9 := crc14a (0x00 :: payload)
       let mid := 0x00 :: payload ++
         [c9 &&& 0xFF, c9 >>> 8, buf0 11, buf0 12, buf0 13, buf0 14, buf0 15, buf0 16]
       mid ++ [crc14a mid &&& 0xFF, crc14a mid >>> 8]) := by
  refine ⟨rfl, rfl, ?_⟩
  have h19 : List.range 19 = [0, 1, 2, 3, 4, 5, 6, 7, 8, 9, 10, 11, 12, 13, 14, 15, 16, 17, 18] := rfl
  have h17 : List.range 17 = [0, 1, 2, 3, 4, 5, 6, 7, 8, 9, 10, 11, 12, 13, 14, 15, 16] := rfl
  have h9 : List.range 9 = [0, 1, 2, 3, 4, 5, 6, 7, 8] := rfl
  cases p2 <;>
    simp [ulcAuth2Handler, bufSetList, bufSet, bufBytes, List.replicate, h19, h17, h9]


/-! ### Claim C9: Mifare PRNG distance

The Lean development below establishes the three properties of `dist_nt`:
the 16-bit LFSR underlying the nonce PRNG has minimal period 65535 on every
nonzero state (proved from the computed orbit of state 1, chunked into
400-step segments so the kernel can evaluate them), the 32-bit nonce
projects onto that LFSR through its low 16 bits, and the loop of `dist_nt`
is characterised by three fuel-induction lemmas. -/

theorem lfsr16Iter_add (m n s : Nat) : lfsr16Iter (m + n) s = lfsr16Iter n (lfsr16Iter m s) := by
  induction m generalizing s with
  | zero => simp [lfsr16Iter]
  | succ k ih =>
    rw [show k + 1 + n = (k + n) + 1 by omega]
    show lfsr16Iter (k + n) (lfsr16Step s) = _
    rw [ih]
    rfl

theorem prngIter_add (m n x : Nat) : prngIter (m + n) x = prngIter n (prngIter m x) := by
  induction m generalizing x with
  | zero => simp [prngIter]
  | succ k ih =>
    rw [show k + 1 + n = (k + n) + 1 by omega]
    show prngIter (k + n) (prngStep x) = _
    rw [ih]
    rfl

theorem prngFeedback_le (x : Nat) : prngFeedback x ≤ 1 := Nat.and_le_right

theorem xor_mod_two (a b : Nat) : (a ^^^ b) % 2 = (a % 2 + b % 2) % 2 := by
  have h : (a ^^^ b) % 2 = (a % 2) ^^^ (b % 2) := by
    rw [← Nat.and_one_is_mod, ← Nat.and_one_is_mod, ← Nat.and_one_is_mod,
        Nat.and_xor_distrib_right]
  rw [h]
  rcases Nat.mod_two_eq_zero_or_one a with ha | ha <;>
    rcases Nat.mod_two_eq_zero_or_one b with hb | hb <;> rw [ha, hb] <;> decide

theorem prngFeedback_mod (x : Nat) : prngFeedback (x % 65536) = prngFeedback x := by
  unfold prngFeedback
  simp only [Nat.shiftRight_eq_div_pow, Nat.and_one_is_mod, xor_mod_two]
  norm_num
  omega

theorem prngStep_mod (x : Nat) : prngStep x % 65536 = lfsr16Step (x % 65536) := by
  rw [← and65535_eq_mod (prngStep x)]
  unfold prngStep lfsr16Step
  rw [nat_and_or_right, Nat.and_assoc]
  congr 1
  · rw [show (4294967295 &&& 65535 : Nat) = 65535 from by decide]
    simp only [Nat.shiftLeft_eq, and65535_eq_mod]
    omega
  · have h := prngFeedback_le x
    rw [prngFeedback_mod]
    interval_cases h' : prngFeedback x <;> rfl

theorem prngIter_mod (n : Nat) : ∀ x, prngIter n x % 65536 = lfsr16Iter n (x % 65536) := by
  induction n with
  | zero => intro x; rfl
  | succ k ih =>
    intro x
    show prngIter k (prngStep x) % 65536 = lfsr16Iter k (lfsr16Step (x % 65536))
    rw [ih, prngStep_mod]

theorem lfsr16Step_lt (s : Nat) : lfsr16Step s < 65536 := by
  have h1 : (s <<< 1) &&& 65535 < 65536 := by
    have := Nat.and_le_right (n := s <<< 1) (m := 65535)
    omega
  have h2 : prngFeedback s < 65536 := by
    have := prngFeedback_le s
    omega
  exact Nat.or_lt_two_pow (n := 16) h1 h2

theorem lfsr16Iter_lt (n : Nat) : ∀ s, s < 65536 → lfsr16Iter n s < 65536 := by
  induction n with
  | zero => intro s hs; exact hs
  | succ k ih =>
    intro s hs
    exact ih (lfsr16Step s) (lfsr16Step_lt s)

theorem lfsr16Step_zero : lfsr16Step 0 = 0 := by decide

theorem lfsr16Iter_zero (n : Nat) : lfsr16Iter n 0 = 0 := by
  induction n with
  | zero => rfl
  | succ k ih =>
    show lfsr16Iter k (lfsr16Step 0) = 0
    rw [lfsr16Step_zero]
    exact ih

theorem prngStep_zero : prngStep 0 = 0 := by decide

theorem prngIter_zero (n : Nat) : prngIter n 0 = 0 := by
  induction n with
  | zero => rfl
  | succ k ih =>
    show prngIter k (prngStep 0) = 0
    rw [prngStep_zero]
    exact ih

theorem distNtAux_succ (nt1 nt2 t1 t2 i fuel : Nat) :
    distNtAux nt1 nt2 t1 t2 i (fuel + 1) =
      if prngStep t1 = nt2 then (i : Int)
      else if prngStep t2 = nt1 then -(i : Int)
      else distNtAux nt1 nt2 (prngStep t1) (prngStep t2) (i + 1) fuel := by
  simp [distNtAux, beq_iff_eq]

theorem distNtAux_fwd (nt1 nt2 : Nat) :
    ∀ (m t1 t2 i fuel : Nat), m < fuel →
      prngIter (m + 1) t1 = nt2 →
      (∀ l, l < m → prngIter (l + 1) t1 ≠ nt2) →
      (∀ l, l < m → prngIter (l + 1) t2 ≠ nt1) →
      distNtAux nt1 nt2 t1 t2 i fuel = (i : Int) + m := by
  intro m
  induction m with
  | zero =>
    intro t1 t2 i fuel hf hit _ _
    obtain ⟨f, rfl⟩ : ∃ f, fuel = f + 1 := ⟨fuel - 1, by omega⟩
    rw [distNtAux_succ]
    have h1 : prngStep t1 = nt2 := hit
    simp [h1]
  | succ k ih =>
    intro t1 t2 i fuel hf hit miss1 miss2
    obtain ⟨f, rfl⟩ : ∃ f, fuel = f + 1 := ⟨fuel - 1, by omega⟩
    rw [distNtAux_succ]
    have h1 : prngStep t1 ≠ nt2 := miss1 0 (by omega)
    have h2 : prngStep t2 ≠ nt1 := miss2 0 (by omega)
    rw [if_neg h1, if_neg h2]
    have hrec := ih (prngStep t1) (prngStep t2) (i + 1) f (by omega)
      (by show prngIter (k + 1) (prngStep t1) = nt2; exact hit)
      (by intro l hl; exact miss1 (l + 1) (by omega))
      (by intro l hl; exact miss2 (l + 1) (by omega))
    rw [hrec]
    push_cast
    ring

theorem distNtAux_bwd (nt1 nt2 : Nat) :
    ∀ (m t1 t2 i fuel : Nat), m < fuel →
      prngIter (m + 1) t2 = nt1 →
      (∀ l, l ≤ m → prngIter (l + 1) t1 ≠ nt2) →
      (∀ l, l < m → prngIter (l + 1) t2 ≠ nt1) →
      distNtAux nt1 nt2 t1 t2 i fuel = -((i : Int) + m) := by
  intro m
  induction m with
  | zero =>
    intro t1 t2 i fuel hf hit miss1 _
    obtain ⟨f, rfl⟩ : ∃ f, fuel = f + 1 := ⟨fuel - 1, by omega⟩
    rw [distNtAux_succ]
    have h1 : prngStep t1 ≠ nt2 := miss1 0 (by omega)
    have h2 : prngStep t2 = nt1 := hit
    simp [h1, h2]
  | succ k ih =>
    intro t1 t2 i fuel hf hit miss1 miss2
    obtain ⟨f, rfl⟩ : ∃ f, fuel = f + 1 := ⟨fuel - 1, by omega⟩
    rw [distNtAux_succ]
    have h1 : prngStep t1 ≠ nt2 := miss1 0 (by omega)
    have h2 : prngStep t2 ≠ nt1 := miss2 0 (by omega)
    rw [if_neg h1, if_neg h2]
    have hrec := ih (prngStep t1) (prngStep t2) (i + 1) f (by omega)
      (by show prngIter (k + 1) (prngStep t2) = nt1; exact hit)
      (by intro l hl; exact miss1 (l + 1) (by omega))
      (by intro l hl; exact miss2 (l + 1) (by omega))
    rw [hrec]
    push_cast
    ring

theorem distNtAux_none (nt1 nt2 : Nat) :
    ∀ (fuel t1 t2 i : Nat),
      (∀ l, l < fuel → prngIter (l + 1) t1 ≠ nt2) →
      (∀ l, l < fuel → prngIter (l + 1) t2 ≠ nt1) →
      distNtAux nt1 nt2 t1 t2 i fuel = -99999 := by
  intro fuel
  induction fuel with
  | zero => intro t1 t2 i _ _; rfl
  | succ k ih =>
    intro t1 t2 i miss1 miss2
    rw [distNtAux_succ]
    have h1 : prngStep t1 ≠ nt2 := miss1 0 (by omega)
    have h2 : prngStep t2 ≠ nt1 := miss2 0 (by omega)
    rw [if_neg h1, if_neg h2]
    exact ih (prngStep t1) (prngStep t2) (i + 1)
      (by intro l hl; exact miss1 (l + 1) (by omega))
      (by intro l hl; exact miss2 (l + 1) (by omega))

theorem dist_nt_self (nt : Nat) : dist_nt nt nt = 0 := by
  simp [dist_nt]

theorem dist_nt_fwd (nt1 nt2 m : Nat) (hm : m < 32767) (hne : nt1 ≠ nt2)
    (hit : prngIter (m + 1) nt1 = nt2)
    (miss1 : ∀ l, l < m → prngIter (l + 1) nt1 ≠ nt2)
    (miss2 : ∀ l, l < m → prngIter (l + 1) nt2 ≠ nt1) :
    dist_nt nt1 nt2 = (m : Int) + 1 := by
  unfold dist_nt
  rw [if_neg (by simpa using hne)]
  rw [distNtAux_fwd nt1 nt2 m nt1 nt2 1 32767 hm hit miss1 miss2]
  push_cast
  ring

theorem dist_nt_bwd (nt1 nt2 m : Nat) (hm : m < 32767) (hne : nt1 ≠ nt2)
    (hit : prngIter (m + 1) nt2 = nt1)
    (miss1 : ∀ l, l ≤ m → prngIter (l + 1) nt1 ≠ nt2)
    (miss2 : ∀ l, l < m → prngIter (l + 1) nt2 ≠ nt1) :
    dist_nt nt1 nt2 = -((m : Int) + 1) := by
  unfold dist_nt
  rw [if_neg (by simpa using hne)]
  rw [distNtAux_bwd nt1 nt2 m nt1 nt2 1 32767 hm hit miss1 miss2]
  push_cast
  ring

theorem dist_nt_none (nt1 nt2 : Nat) (hne : nt1 ≠ nt2)
    (miss1 : ∀ l, l < 32767 → prngIter (l + 1) nt1 ≠ nt2)
    (miss2 : ∀ l, l < 32767 → prngIter (l + 1) nt2 ≠ nt1) :
    dist_nt nt1 nt2 = -99999 := by
  unfold dist_nt
  rw [if_neg (by simpa using hne)]
  exact distNtAux_none nt1 nt2 32767 nt1 nt2 1 miss1 miss2

theorem lfsrC1 : lfsr16Iter 255 1 = 197 := by decide
theorem lfsrC2 : lfsr16Iter 655 1 = 53436 := by
  rw [show (655 : Nat) = 255 + 400 by norm_num, lfsr16Iter_add, lfsrC1]
  decide
theorem lfsrC3 : lfsr16Iter 1055 1 = 19991 := by
  rw [show (1055 : Nat) = 655 + 400 by norm_num, lfsr16Iter_add, lfsrC2]
  decide
theorem lfsrC4 : lfsr16Iter 1455 1 = 2261 := by
  rw [show (1455 : Nat) = 1055 + 400 by norm_num, lfsr16Iter_add, lfsrC3]
  decide
theorem lfsrC5 : lfsr16Iter 1855 1 = 12059 := by
  rw [show (1855 : Nat) = 1455 + 400 by norm_num, lfsr16Iter_add, lfsrC4]
  decide
theorem lfsrC6 : lfsr16Iter 2255 1 = 48518 := by
  rw [show (2255 : Nat) = 1855 + 400 by norm_num, lfsr16Iter_add, lfsrC5]
  decide
theorem lfsrC7 : lfsr16Iter 2655 1 = 57435 := by
  rw [show (2655 : Nat) = 2255 + 400 by norm_num, lfsr16Iter_add, lfsrC6]
  decide
theorem lfsrC8 : lfsr16Iter 3055 1 = 12050 := by
  rw [show (3055 : Nat) = 2655 + 400 by norm_num, lfsr16Iter_add, lfsrC7]
  decide
theorem lfsrC9 : lfsr16Iter 3455 1 = 21931 := by
  rw [show (3455 : Nat) = 3055 + 400 by norm_num, lfsr16Iter_add, lfsrC8]
  decide
theorem lfsrC10 : lfsr16Iter 3855 1 = 44198 := by
  rw [show (3855 : Nat) = 3455 + 400 by norm_num, lfsr16Iter_add, lfsrC9]
  decide
theorem lfsrC11 : lfsr16Iter 4255 1 = 34909 := by
  rw [show (4255 : Nat) = 3855 + 400 by norm_num, lfsr16Iter_add, lfsrC10]
  decide
theorem lfsrC12 : lfsr16Iter 4655 1 = 17998 := by
  rw [show (4655 : Nat) = 4255 + 400 by norm_num, lfsr16Iter_add, lfsrC11]
  decide
theorem lfsrC13 : lfsr16Iter 5055 1 = 14989 := by
  rw [show (5055 : Nat) = 4655 + 400 by norm_num, lfsr16Iter_add, lfsrC12]
  decide
theorem lfsrC14 : lfsr16Iter 5455 1 = 46056 := by
  rw [show (5455 : Nat) = 5055 + 400 by norm_num, lfsr16Iter_add, lfsrC13]
  decide
theorem lfsrC15 : lfsr16Iter 5855 1 = 24009 := by
  rw [show (5855 : Nat) = 5455 + 400 by norm_num, lfsr16Iter_add, lfsrC14]
  decide
theorem lfsrC16 : lfsr16Iter 6255 1 = 13408 := by
  rw [show (6255 : Nat) = 5855 + 400 by norm_num, lfsr16Iter_add, lfsrC15]
  decide
theorem lfsrC17 : lfsr16Iter 6655 1 = 53351 := by
  rw [show (6655 : Nat) = 6255 + 400 by norm_num, lfsr16Iter_add, lfsrC16]
  decide
theorem lfsrC18 : lfsr16Iter 7055 1 = 6166 := by
  rw [show (7055 : Nat) = 6655 + 400 by norm_num, lfsr16Iter_add, lfsrC17]
  decide
theorem lfsrC19 : lfsr16Iter 7455 1 = 47475 := by
  rw [show (7455 : Nat) = 7055 + 400 by norm_num, lfsr16Iter_add, lfsrC18]
  decide
theorem lfsrC20 : lfsr16Iter 7855 1 = 13912 := by
  rw [show (7855 : Nat) = 7455 + 400 by norm_num, lfsr16Iter_add, lfsrC19]
  decide
theorem lfsrC21 : lfsr16Iter 8255 1 = 49617 := by
  rw [show (8255 : Nat) = 7855 + 400 by norm_num, lfsr16Iter_add, lfsrC20]
  decide
theorem lfsrC22 : lfsr16Iter 8655 1 = 55731 := by
  rw [show (8655 : Nat) = 8255 + 400 by norm_num, lfsr16Iter_add, lfsrC21]
  decide
theorem lfsrC23 : lfsr16Iter 9055 1 = 11474 := by
  rw [show (9055 : Nat) = 8655 + 400 by norm_num, lfsr16Iter_add, lfsrC22]
  decide
theorem lfsrC24 : lfsr16Iter 9455 1 = 33284 := by
  rw [show (9455 : Nat) = 9055 + 400 by norm_num, lfsr16Iter_add, lfsrC23]
  decide
theorem lfsrC25 : lfsr16Iter 9855 1 = 23175 := by
  rw [show (9855 : Nat) = 9455 + 400 by norm_num, lfsr16Iter_add, lfsrC24]
  decide
theorem lfsrC26 : lfsr16Iter 10255 1 = 47744 := by
  rw [show (10255 : Nat) = 9855 + 400 by norm_num, lfsr16Iter_add, lfsrC25]
  decide
theorem lfsrC27 : lfsr16Iter 10655 1 = 12243 := by
  rw [show (10655 : Nat) = 10255 + 400 by norm_num, lfsr16Iter_add, lfsrC26]
  decide
theorem lfsrC28 : lfsr16Iter 11055 1 = 46922 := by
  rw [show (11055 : Nat) = 10655 + 400 by norm_num, lfsr16Iter_add, lfsrC27]
  decide
theorem lfsrC29 : lfsr16Iter 11455 1 = 49288 := by
  rw [show (11455 : Nat) = 11055 + 400 by norm_num, lfsr16Iter_add, lfsrC28]
  decide
theorem lfsrC30 : lfsr16Iter 11855 1 = 19056 := by
  rw [show (11855 : Nat) = 11455 + 400 by norm_num, lfsr16Iter_add, lfsrC29]
  decide
theorem lfsrC31 : lfsr16Iter 12255 1 = 17704 := by
  rw [show (12255 : Nat) = 11855 + 400 by norm_num, lfsr16Iter_add, lfsrC30]
  decide
theorem lfsrC32 : lfsr16Iter 12655 1 = 7964 := by
  rw [show (12655 : Nat) = 12255 + 400 by norm_num, lfsr16Iter_add, lfsrC31]
  decide
theorem lfsrC33 : lfsr16Iter 13055 1 = 8220 := by
  rw [show (13055 : Nat) = 12655 + 400 by norm_num, lfsr16Iter_add, lfsrC32]
  decide
theorem lfsrC34 : lfsr16Iter 13107 1 = 34540 := by
  rw [show (13107 : Nat) = 13055 + 52 by norm_num, lfsr16Iter_add, lfsrC33]
  decide
theorem lfsrC35 : lfsr16Iter 13507 1 = 40832 := by
  rw [show (13507 : Nat) = 13107 + 400 by norm_num, lfsr16Iter_add, lfsrC34]
  decide
theorem lfsrC36 : lfsr16Iter 13907 1 = 45664 := by
  rw [show (13907 : Nat) = 13507 + 400 by norm_num, lfsr16Iter_add, lfsrC35]
  decide
theorem lfsrC37 : lfsr16Iter 14307 1 = 58783 := by
  rw [show (14307 : Nat) = 13907 + 400 by norm_num, lfsr16Iter_add, lfsrC36]
  decide
theorem lfsrC38 : lfsr16Iter 14707 1 = 47443 := by
  rw [show (14707 : Nat) = 14307 + 400 by norm_num, lfsr16Iter_add, lfsrC37]
  decide
theorem lfsrC39 : lfsr16Iter 15107 1 = 42161 := by
  rw [show (15107 : Nat) = 14707 + 400 by norm_num, lfsr16Iter_add, lfsrC38]
  decide
theorem lfsrC40 : lfsr16Iter 15507 1 = 53278 := by
  rw [show (15507 : Nat) = 15107 + 400 by norm_num, lfsr16Iter_add, lfsrC39]
  decide
theorem lfsrC41 : lfsr16Iter 15907 1 = 36468 := by
  rw [show (15907 : Nat) = 15507 + 400 by norm_num, lfsr16Iter_add, lfsrC40]
  decide
theorem lfsrC42 : lfsr16Iter 16307 1 = 20281 := by
  rw [show (16307 : Nat) = 15907 + 400 by norm_num, lfsr16Iter_add, lfsrC41]
  decide
theorem lfsrC43 : lfsr16Iter 16707 1 = 17085 := by
  rw [show (16707 : Nat) = 16307 + 400 by norm_num, lfsr16Iter_add, lfsrC42]
  decide
theorem lfsrC44 : lfsr16Iter 17107 1 = 51197 := by
  rw [show (17107 : Nat) = 16707 + 400 by norm_num, lfsr16Iter_add, lfsrC43]
  decide
theorem lfsrC45 : lfsr16Iter 17507 1 = 28174 := by
  rw [show (17507 : Nat) = 17107 + 400 by norm_num, lfsr16Iter_add, lfsrC44]
  decide
theorem lfsrC46 : lfsr16Iter 17907 1 = 32341 := by
  rw [show (17907 : Nat) = 17507 + 400 by norm_num, lfsr16Iter_add, lfsrC45]
  decide
theorem lfsrC47 : lfsr16Iter 18307 1 = 3671 := by
  rw [show (18307 : Nat) = 17907 + 400 by norm_num, lfsr16Iter_add, lfsrC46]
  decide
theorem lfsrC48 : lfsr16Iter 18707 1 = 3618 := by
  rw [show (18707 : Nat) = 18307 + 400 by norm_num, lfsr16Iter_add, lfsrC47]
  decide
theorem lfsrC49 : lfsr16Iter 19107 1 = 52903 := by
  rw [show (19107 : Nat) = 18707 + 400 by norm_num, lfsr16Iter_add, lfsrC48]
  decide
theorem lfsrC50 : lfsr16Iter 19507 1 = 24231 := by
  rw [show (19507 : Nat) = 19107 + 400 by norm_num, lfsr16Iter_add, lfsrC49]
  decide
theorem lfsrC51 : lfsr16Iter 19907 1 = 30027 := by
  rw [show (19907 : Nat) = 19507 + 400 by norm_num, lfsr16Iter_add, lfsrC50]
  decide
theorem lfsrC52 : lfsr16Iter 20307 1 = 2016 := by
  rw [show (20307 : Nat) = 19907 + 400 by norm_num, lfsr16Iter_add, lfsrC51]
  decide
theorem lfsrC53 : lfsr16Iter 20707 1 = 6244 := by
  rw [show (20707 : Nat) = 20307 + 400 by norm_num, lfsr16Iter_add, lfsrC52]
  decide
theorem lfsrC54 : lfsr16Iter 21107 1 = 56850 := by
  rw [show (21107 : Nat) = 20707 + 400 by norm_num, lfsr16Iter_add, lfsrC53]
  decide
theorem lfsrC55 : lfsr16Iter 21507 1 = 40435 := by
  rw [show (21507 : Nat) = 21107 + 400 by norm_num, lfsr16Iter_add, lfsrC54]
  decide
theorem lfsrC56 : lfsr16Iter 21845 1 = 44248 := by
  rw [show (21845 : Nat) = 21507 + 338 by norm_num, lfsr16Iter_add, lfsrC55]
  decide
theorem lfsrC57 : lfsr16Iter 22245 1 = 47579 := by
  rw [show (22245 : Nat) = 21845 + 400 by norm_num, lfsr16Iter_add, lfsrC56]
  decide
theorem lfsrC58 : lfsr16Iter 22645 1 = 35759 := by
  rw [show (22645 : Nat) = 22245 + 400 by norm_num, lfsr16Iter_add, lfsrC57]
  decide
theorem lfsrC59 : lfsr16Iter 23045 1 = 54098 := by
  rw [show (23045 : Nat) = 22645 + 400 by norm_num, lfsr16Iter_add, lfsrC58]
  decide
theorem lfsrC60 : lfsr16Iter 23445 1 = 17560 := by
  rw [show (23445 : Nat) = 23045 + 400 by norm_num, lfsr16Iter_add, lfsrC59]
  decide
theorem lfsrC61 : lfsr16Iter 23845 1 = 39021 := by
  rw [show (23845 : Nat) = 23445 + 400 by norm_num, lfsr16Iter_add, lfsrC60]
  decide
theorem lfsrC62 : lfsr16Iter 24245 1 = 28788 := by
  rw [show (24245 : Nat) = 23845 + 400 by norm_num, lfsr16Iter_add, lfsrC61]
  decide
theorem lfsrC63 : lfsr16Iter 24645 1 = 21833 := by
  rw [show (24645 : Nat) = 24245 + 400 by norm_num, lfsr16Iter_add, lfsrC62]
  decide
theorem lfsrC64 : lfsr16Iter 25045 1 = 18711 := by
  rw [show (25045 : Nat) = 24645 + 400 by norm_num, lfsr16Iter_add, lfsrC63]
  decide
theorem lfsrC65 : lfsr16Iter 25445 1 = 60462 := by
  rw [show (25445 : Nat) = 25045 + 400 by norm_num, lfsr16Iter_add, lfsrC64]
  decide
theorem lfsrC66 : lfsr16Iter 25845 1 = 33894 := by
  rw [show (25845 : Nat) = 25445 + 400 by norm_num, lfsr16Iter_add, lfsrC65]
  decide
theorem lfsrC67 : lfsr16Iter 26245 1 = 34593 := by
  rw [show (26245 : Nat) = 25845 + 400 by norm_num, lfsr16Iter_add, lfsrC66]
  decide
theorem lfsrC68 : lfsr16Iter 26645 1 = 48334 := by
  rw [show (26645 : Nat) = 26245 + 400 by norm_num, lfsr16Iter_add, lfsrC67]
  decide
theorem lfsrC69 : lfsr16Iter 27045 1 = 13947 := by
  rw [show (27045 : Nat) = 26645 + 400 by norm_num, lfsr16Iter_add, lfsrC68]
  decide
theorem lfsrC70 : lfsr16Iter 27445 1 = 50817 := by
  rw [show (27445 : Nat) = 27045 + 400 by norm_num, lfsr16Iter_add, lfsrC69]
  decide
theorem lfsrC71 : lfsr16Iter 27845 1 = 53742 := by
  rw [show (27845 : Nat) = 27445 + 400 by norm_num, lfsr16Iter_add, lfsrC70]
  decide
theorem lfsrC72 : lfsr16Iter 28245 1 = 11479 := by
  rw [show (28245 : Nat) = 27845 + 400 by norm_num, lfsr16Iter_add, lfsrC71]
  decide
theorem lfsrC73 : lfsr16Iter 28645 1 = 15566 := by
  rw [show (28645 : Nat) = 28245 + 400 by norm_num, lfsr16Iter_add, lfsrC72]
  decide
theorem lfsrC74 : lfsr16Iter 29045 1 = 28720 := by
  rw [show (29045 : Nat) = 28645 + 400 by norm_num, lfsr16Iter_add, lfsrC73]
  decide
theorem lfsrC75 : lfsr16Iter 29445 1 = 17094 := by
  rw [show (29445 : Nat) = 29045 + 400 by norm_num, lfsr16Iter_add, lfsrC74]
  decide
theorem lfsrC76 : lfsr16Iter 29845 1 = 18609 := by
  rw [show (29845 : Nat) = 29445 + 400 by norm_num, lfsr16Iter_add, lfsrC75]
  decide
theorem lfsrC77 : lfsr16Iter 30245 1 = 35160 := by
  rw [show (30245 : Nat) = 29845 + 400 by norm_num, lfsr16Iter_add, lfsrC76]
  decide
theorem lfsrC78 : lfsr16Iter 30645 1 = 28620 := by
  rw [show (30645 : Nat) = 30245 + 400 by norm_num, lfsr16Iter_add, lfsrC77]
  decide
theorem lfsrC79 : lfsr16Iter 31045 1 = 40517 := by
  rw [show (31045 : Nat) = 30645 + 400 by norm_num, lfsr16Iter_add, lfsrC78]
  decide
theorem lfsrC80 : lfsr16Iter 31445 1 = 62868 := by
  rw [show (31445 : Nat) = 31045 + 400 by norm_num, lfsr16Iter_add, lfsrC79]
  decide
theorem lfsrC81 : lfsr16Iter 31845 1 = 9719 := by
  rw [show (31845 : Nat) = 31445 + 400 by norm_num, lfsr16Iter_add, lfsrC80]
  decide
theorem lfsrC82 : lfsr16Iter 32245 1 = 4028 := by
  rw [show (32245 : Nat) = 31845 + 400 by norm_num, lfsr16Iter_add, lfsrC81]
  decide
theorem lfsrC83 : lfsr16Iter 32645 1 = 38134 := by
  rw [show (32645 : Nat) = 32245 + 400 by norm_num, lfsr16Iter_add, lfsrC82]
  decide
theorem lfsrC84 : lfsr16Iter 33045 1 = 26710 := by
  rw [show (33045 : Nat) = 32645 + 400 by norm_num, lfsr16Iter_add, lfsrC83]
  decide
theorem lfsrC85 : lfsr16Iter 33445 1 = 34298 := by
  rw [show (33445 : Nat) = 33045 + 400 by norm_num, lfsr16Iter_add, lfsrC84]
  decide
theorem lfsrC86 : lfsr16Iter 33845 1 = 50270 := by
  rw [show (33845 : Nat) = 33445 + 400 by norm_num, lfsr16Iter_add, lfsrC85]
  decide
theorem lfsrC87 : lfsr16Iter 34245 1 = 39715 := by
  rw [show (34245 : Nat) = 33845 + 400 by norm_num, lfsr16Iter_add, lfsrC86]
  decide
theorem lfsrC88 : lfsr16Iter 34645 1 = 41910 := by
  rw [show (34645 : Nat) = 34245 + 400 by norm_num, lfsr16Iter_add, lfsrC87]
  decide
theorem lfsrC89 : lfsr16Iter 35045 1 = 37633 := by
  rw [show (35045 : Nat) = 34645 + 400 by norm_num, lfsr16Iter_add, lfsrC88]
  decide
theorem lfsrC90 : lfsr16Iter 35445 1 = 7842 := by
  rw [show (35445 : Nat) = 35045 + 400 by norm_num, lfsr16Iter_add, lfsrC89]
  decide
theorem lfsrC91 : lfsr16Iter 35845 1 = 59556 := by
  rw [show (35845 : Nat) = 35445 + 400 by norm_num, lfsr16Iter_add, lfsrC90]
  decide
theorem lfsrC92 : lfsr16Iter 36245 1 = 61300 := by
  rw [show (36245 : Nat) = 35845 + 400 by norm_num, lfsr16Iter_add, lfsrC91]
  decide
theorem lfsrC93 : lfsr16Iter 36645 1 = 44173 := by
  rw [show (36645 : Nat) = 36245 + 400 by norm_num, lfsr16Iter_add, lfsrC92]
  decide
theorem lfsrC94 : lfsr16Iter 37045 1 = 60343 := by
  rw [show (37045 : Nat) = 36645 + 400 by norm_num, lfsr16Iter_add, lfsrC93]
  decide
theorem lfsrC95 : lfsr16Iter 37445 1 = 2656 := by
  rw [show (37445 : Nat) = 37045 + 400 by norm_num, lfsr16Iter_add, lfsrC94]
  decide
theorem lfsrC96 : lfsr16Iter 37845 1 = 44921 := by
  rw [show (37845 : Nat) = 37445 + 400 by norm_num, lfsr16Iter_add, lfsrC95]
  decide
theorem lfsrC97 : lfsr16Iter 38245 1 = 21976 := by
  rw [show (38245 : Nat) = 37845 + 400 by norm_num, lfsr16Iter_add, lfsrC96]
  decide
theorem lfsrC98 : lfsr16Iter 38645 1 = 18256 := by
  rw [show (38645 : Nat) = 38245 + 400 by norm_num, lfsr16Iter_add, lfsrC97]
  decide
theorem lfsrC99 : lfsr16Iter 39045 1 = 11128 := by
  rw [show (39045 : Nat) = 38645 + 400 by norm_num, lfsr16Iter_add, lfsrC98]
  decide
theorem lfsrC100 : lfsr16Iter 39445 1 = 49702 := by
  rw [show (39445 : Nat) = 39045 + 400 by norm_num, lfsr16Iter_add, lfsrC99]
  decide
theorem lfsrC101 : lfsr16Iter 39845 1 = 62053 := by
  rw [show (39845 : Nat) = 39445 + 400 by norm_num, lfsr16Iter_add, lfsrC100]
  decide
theorem lfsrC102 : lfsr16Iter 40245 1 = 30832 := by
  rw [show (40245 : Nat) = 39845 + 400 by norm_num, lfsr16Iter_add, lfsrC101]
  decide
theorem lfsrC103 : lfsr16Iter 40645 1 = 20935 := by
  rw [show (40645 : Nat) = 40245 + 400 by norm_num, lfsr16Iter_add, lfsrC102]
  decide
theorem lfsrC104 : lfsr16Iter 41045 1 = 4184 := by
  rw [show (41045 : Nat) = 40645 + 400 by norm_num, lfsr16Iter_add, lfsrC103]
  decide
theorem lfsrC105 : lfsr16Iter 41445 1 = 58811 := by
  rw [show (41445 : Nat) = 41045 + 400 by norm_num, lfsr16Iter_add, lfsrC104]
  decide
theorem lfsrC106 : lfsr16Iter 41845 1 = 6631 := by
  rw [show (41845 : Nat) = 41445 + 400 by norm_num, lfsr16Iter_add, lfsrC105]
  decide
theorem lfsrC107 : lfsr16Iter 42245 1 = 38727 := by
  rw [show (42245 : Nat) = 41845 + 400 by norm_num, lfsr16Iter_add, lfsrC106]
  decide
theorem lfsrC108 : lfsr16Iter 42645 1 = 19745 := by
  rw [show (42645 : Nat) = 42245 + 400 by norm_num, lfsr16Iter_add, lfsrC107]
  decide
theorem lfsrC109 : lfsr16Iter 43045 1 = 49634 := by
  rw [show (43045 : Nat) = 42645 + 400 by norm_num, lfsr16Iter_add, lfsrC108]
  decide
theorem lfsrC110 : lfsr16Iter 43445 1 = 6039 := by
  rw [show (43445 : Nat) = 43045 + 400 by norm_num, lfsr16Iter_add, lfsrC109]
  decide
theorem lfsrC111 : lfsr16Iter 43845 1 = 44136 := by
  rw [show (43845 : Nat) = 43445 + 400 by norm_num, lfsr16Iter_add, lfsrC110]
  decide
theorem lfsrC112 : lfsr16Iter 44245 1 = 43490 := by
  rw [show (44245 : Nat) = 43845 + 400 by norm_num, lfsr16Iter_add, lfsrC111]
  decide
theorem lfsrC113 : lfsr16Iter 44645 1 = 21944 := by
  rw [show (44645 : Nat) = 44245 + 400 by norm_num, lfsr16Iter_add, lfsrC112]
  decide
theorem lfsrC114 : lfsr16Iter 45045 1 = 61547 := by
  rw [show (45045 : Nat) = 44645 + 400 by norm_num, lfsr16Iter_add, lfsrC113]
  decide
theorem lfsrC115 : lfsr16Iter 45445 1 = 6440 := by
  rw [show (45445 : Nat) = 45045 + 400 by norm_num, lfsr16Iter_add, lfsrC114]
  decide
theorem lfsrC116 : lfsr16Iter 45845 1 = 14959 := by
  rw [show (45845 : Nat) = 45445 + 400 by norm_num, lfsr16Iter_add, lfsrC115]
  decide
theorem lfsrC117 : lfsr16Iter 46245 1 = 22105 := by
  rw [show (46245 : Nat) = 45845 + 400 by norm_num, lfsr16Iter_add, lfsrC116]
  decide
theorem lfsrC118 : lfsr16Iter 46645 1 = 14778 := by
  rw [show (46645 : Nat) = 46245 + 400 by norm_num, lfsr16Iter_add, lfsrC117]
  decide
theorem lfsrC119 : lfsr16Iter 47045 1 = 63048 := by
  rw [show (47045 : Nat) = 46645 + 400 by norm_num, lfsr16Iter_add, lfsrC118]
  decide
theorem lfsrC120 : lfsr16Iter 47445 1 = 28107 := by
  rw [show (47445 : Nat) = 47045 + 400 by norm_num, lfsr16Iter_add, lfsrC119]
  decide
theorem lfsrC121 : lfsr16Iter 47845 1 = 5936 := by
  rw [show (47845 : Nat) = 47445 + 400 by norm_num, lfsr16Iter_add, lfsrC120]
  decide
theorem lfsrC122 : lfsr16Iter 48245 1 = 53953 := by
  rw [show (48245 : Nat) = 47845 + 400 by norm_num, lfsr16Iter_add, lfsrC121]
  decide
theorem lfsrC123 : lfsr16Iter 48645 1 = 50361 := by
  rw [show (48645 : Nat) = 48245 + 400 by norm_num, lfsr16Iter_add, lfsrC122]
  decide
theorem lfsrC124 : lfsr16Iter 49045 1 = 49240 := by
  rw [show (49045 : Nat) = 48645 + 400 by norm_num, lfsr16Iter_add, lfsrC123]
  decide
theorem lfsrC125 : lfsr16Iter 49445 1 = 60786 := by
  rw [show (49445 : Nat) = 49045 + 400 by norm_num, lfsr16Iter_add, lfsrC124]
  decide
theorem lfsrC126 : lfsr16Iter 49845 1 = 43375 := by
  rw [show (49845 : Nat) = 49445 + 400 by norm_num, lfsr16Iter_add, lfsrC125]
  decide
theorem lfsrC127 : lfsr16Iter 50245 1 = 50284 := by
  rw [show (50245 : Nat) = 49845 + 400 by norm_num, lfsr16Iter_add, lfsrC126]
  decide
theorem lfsrC128 : lfsr16Iter 50645 1 = 55696 := by
  rw [show (50645 : Nat) = 50245 + 400 by norm_num, lfsr16Iter_add, lfsrC127]
  decide
theorem lfsrC129 : lfsr16Iter 51045 1 = 11138 := by
  rw [show (51045 : Nat) = 50645 + 400 by norm_num, lfsr16Iter_add, lfsrC128]
  decide
theorem lfsrC130 : lfsr16Iter 51445 1 = 35417 := by
  rw [show (51445 : Nat) = 51045 + 400 by norm_num, lfsr16Iter_add, lfsrC129]
  decide
theorem lfsrC131 : lfsr16Iter 51845 1 = 23170 := by
  rw [show (51845 : Nat) = 51445 + 400 by norm_num, lfsr16Iter_add, lfsrC130]
  decide
theorem lfsrC132 : lfsr16Iter 52245 1 = 1098 := by
  rw [show (52245 : Nat) = 51845 + 400 by norm_num, lfsr16Iter_add, lfsrC131]
  decide
theorem lfsrC133 : lfsr16Iter 52645 1 = 1380 := by
  rw [show (52645 : Nat) = 52245 + 400 by norm_num, lfsr16Iter_add, lfsrC132]
  decide
theorem lfsrC134 : lfsr16Iter 53045 1 = 20236 := by
  rw [show (53045 : Nat) = 52645 + 400 by norm_num, lfsr16Iter_add, lfsrC133]
  decide
theorem lfsrC135 : lfsr16Iter 53445 1 = 42986 := by
  rw [show (53445 : Nat) = 53045 + 400 by norm_num, lfsr16Iter_add, lfsrC134]
  decide
theorem lfsrC136 : lfsr16Iter 53845 1 = 29794 := by
  rw [show (53845 : Nat) = 53445 + 400 by norm_num, lfsr16Iter_add, lfsrC135]
  decide
theorem lfsrC137 : lfsr16Iter 54245 1 = 60012 := by
  rw [show (54245 : Nat) = 53845 + 400 by norm_num, lfsr16Iter_add, lfsrC136]
  decide
theorem lfsrC138 : lfsr16Iter 54645 1 = 52009 := by
  rw [show (54645 : Nat) = 54245 + 400 by norm_num, lfsr16Iter_add, lfsrC137]
  decide
theorem lfsrC139 : lfsr16Iter 55045 1 = 37024 := by
  rw [show (55045 : Nat) = 54645 + 400 by norm_num, lfsr16Iter_add, lfsrC138]
  decide
theorem lfsrC140 : lfsr16Iter 55445 1 = 62113 := by
  rw [show (55445 : Nat) = 55045 + 400 by norm_num, lfsr16Iter_add, lfsrC139]
  decide
theorem lfsrC141 : lfsr16Iter 55845 1 = 9307 := by
  rw [show (55845 : Nat) = 55445 + 400 by norm_num, lfsr16Iter_add, lfsrC140]
  decide
theorem lfsrC142 : lfsr16Iter 56245 1 = 5982 := by
  rw [show (56245 : Nat) = 55845 + 400 by norm_num, lfsr16Iter_add, lfsrC141]
  decide
theorem lfsrC143 : lfsr16Iter 56645 1 = 10803 := by
  rw [show (56645 : Nat) = 56245 + 400 by norm_num, lfsr16Iter_add, lfsrC142]
  decide
theorem lfsrC144 : lfsr16Iter 57045 1 = 33215 := by
  rw [show (57045 : Nat) = 56645 + 400 by norm_num, lfsr16Iter_add, lfsrC143]
  decide
theorem lfsrC145 : lfsr16Iter 57445 1 = 612 := by
  rw [show (57445 : Nat) = 57045 + 400 by norm_num, lfsr16Iter_add, lfsrC144]
  decide
theorem lfsrC146 : lfsr16Iter 57845 1 = 44023 := by
  rw [show (57845 : Nat) = 57445 + 400 by norm_num, lfsr16Iter_add, lfsrC145]
  decide
theorem lfsrC147 : lfsr16Iter 58245 1 = 3223 := by
  rw [show (58245 : Nat) = 57845 + 400 by norm_num, lfsr16Iter_add, lfsrC146]
  decide
theorem lfsrC148 : lfsr16Iter 58645 1 = 20165 := by
  rw [show (58645 : Nat) = 58245 + 400 by norm_num, lfsr16Iter_add, lfsrC147]
  decide
theorem lfsrC149 : lfsr16Iter 59045 1 = 46841 := by
  rw [show (59045 : Nat) = 58645 + 400 by norm_num, lfsr16Iter_add, lfsrC148]
  decide
theorem lfsrC150 : lfsr16Iter 59445 1 = 53824 := by
  rw [show (59445 : Nat) = 59045 + 400 by norm_num, lfsr16Iter_add, lfsrC149]
  decide
theorem lfsrC151 : lfsr16Iter 59845 1 = 906 := by
  rw [show (59845 : Nat) = 59445 + 400 by norm_num, lfsr16Iter_add, lfsrC150]
  decide
theorem lfsrC152 : lfsr16Iter 60245 1 = 36841 := by
  rw [show (60245 : Nat) = 59845 + 400 by norm_num, lfsr16Iter_add, lfsrC151]
  decide
theorem lfsrC153 : lfsr16Iter 60645 1 = 32977 := by
  rw [show (60645 : Nat) = 60245 + 400 by norm_num, lfsr16Iter_add, lfsrC152]
  decide
theorem lfsrC154 : lfsr16Iter 61045 1 = 28126 := by
  rw [show (61045 : Nat) = 60645 + 400 by norm_num, lfsr16Iter_add, lfsrC153]
  decide
theorem lfsrC155 : lfsr16Iter 61445 1 = 24718 := by
  rw [show (61445 : Nat) = 61045 + 400 by norm_num, lfsr16Iter_add, lfsrC154]
  decide
theorem lfsrC156 : lfsr16Iter 61845 1 = 28817 := by
  rw [show (61845 : Nat) = 61445 + 400 by norm_num, lfsr16Iter_add, lfsrC155]
  decide
theorem lfsrC157 : lfsr16Iter 62245 1 = 5916 := by
  rw [show (62245 : Nat) = 61845 + 400 by norm_num, lfsr16Iter_add, lfsrC156]
  decide
theorem lfsrC158 : lfsr16Iter 62645 1 = 5839 := by
  rw [show (62645 : Nat) = 62245 + 400 by norm_num, lfsr16Iter_add, lfsrC157]
  decide
theorem lfsrC159 : lfsr16Iter 63045 1 = 45884 := by
  rw [show (63045 : Nat) = 62645 + 400 by norm_num, lfsr16Iter_add, lfsrC158]
  decide
theorem lfsrC160 : lfsr16Iter 63445 1 = 51350 := by
  rw [show (63445 : Nat) = 63045 + 400 by norm_num, lfsr16Iter_add, lfsrC159]
  decide
theorem lfsrC161 : lfsr16Iter 63845 1 = 64030 := by
  rw [show (63845 : Nat) = 63445 + 400 by norm_num, lfsr16Iter_add, lfsrC160]
  decide
theorem lfsrC162 : lfsr16Iter 64245 1 = 49647 := by
  rw [show (64245 : Nat) = 63845 + 400 by norm_num, lfsr16Iter_add, lfsrC161]
  decide
theorem lfsrC163 : lfsr16Iter 64645 1 = 52711 := by
  rw [show (64645 : Nat) = 64245 + 400 by norm_num, lfsr16Iter_add, lfsrC162]
  decide
theorem lfsrC164 : lfsr16Iter 65045 1 = 49836 := by
  rw [show (65045 : Nat) = 64645 + 400 by norm_num, lfsr16Iter_add, lfsrC163]
  decide
theorem lfsrC165 : lfsr16Iter 65445 1 = 50261 := by
  rw [show (65445 : Nat) = 65045 + 400 by norm_num, lfsr16Iter_add, lfsrC164]
  decide
theorem lfsrC166 : lfsr16Iter 65535 1 = 1 := by
  rw [show (65535 : Nat) = 65445 + 90 by norm_num, lfsr16Iter_add, lfsrC165]
  decide
theorem lfsr_at_255 : lfsr16Iter 255 1 = 197 := lfsrC1
theorem lfsr_at_3855 : lfsr16Iter 3855 1 = 44198 := lfsrC10
theorem lfsr_at_13107 : lfsr16Iter 13107 1 = 34540 := lfsrC34
theorem lfsr_at_21845 : lfsr16Iter 21845 1 = 44248 := lfsrC56
theorem lfsr_at_65535 : lfsr16Iter 65535 1 = 1 := lfsrC166

theorem dvd_65535_cases (d : Nat) (hd : d ∣ 65535) (hne : d ≠ 65535) :
    d ∣ 21845 ∨ d ∣ 13107 ∨ d ∣ 3855 ∨ d ∣ 255 := by
  obtain ⟨k, hk65⟩ := hd
  have hdne : d ≠ 0 := by rintro rfl; omega
  have hkdiv : 65535 / d = k := by
    rw [hk65]; exact Nat.mul_div_cancel_left k (Nat.pos_of_ne_zero hdne)
  have hk1 : k ≠ 1 := by rintro rfl; omega
  have hk0 : k ≠ 0 := by rintro rfl; omega
  have hq : (k.minFac).Prime := Nat.minFac_prime hk1
  obtain ⟨m, hm⟩ : k.minFac ∣ k := Nat.minFac_dvd k
  have hq65 : k.minFac ∣ 65535 := Dvd.dvd.trans (Nat.minFac_dvd k) ⟨d, by rw [hk65]; ring⟩
  have hqcases : k.minFac = 3 ∨ k.minFac = 5 ∨ k.minFac = 17 ∨ k.minFac = 257 := by
    have h1 : k.minFac ∣ 3 * 21845 := by norm_num; exact hq65
    rcases (Nat.Prime.dvd_mul hq).mp h1 with h | h
    · exact Or.inl ((Nat.prime_dvd_prime_iff_eq hq (by norm_num)).mp h)
    · have h2 : k.minFac ∣ 5 * 4369 := by norm_num; exact h
      rcases (Nat.Prime.dvd_mul hq).mp h2 with h' | h'
      · exact Or.inr (Or.inl ((Nat.prime_dvd_prime_iff_eq hq (by norm_num)).mp h'))
      · have h3 : k.minFac ∣ 17 * 257 := by norm_num; exact h'
        rcases (Nat.Prime.dvd_mul hq).mp h3 with h'' | h''
        · exact Or.inr (Or.inr (Or.inl ((Nat.prime_dvd_prime_iff_eq hq (by norm_num)).mp h'')))
        · exact Or.inr (Or.inr (Or.inr ((Nat.prime_dvd_prime_iff_eq hq (by norm_num)).mp h'')))
  rcases hqcases with hqe | hqe | hqe | hqe <;> rw [hqe] at hm
  · refine Or.inl ⟨m, ?_⟩
    have h2 : 3 * 21845 = 3 * (d * m) := by
      rw [show 3 * 21845 = 65535 by norm_num, hk65, hm]; ring
    exact Nat.eq_of_mul_eq_mul_left (by norm_num) h2
  · refine Or.inr (Or.inl ⟨m, ?_⟩)
    have h2 : 5 * 13107 = 5 * (d * m) := by
      rw [show 5 * 13107 = 65535 by norm_num, hk65, hm]; ring
    exact Nat.eq_of_mul_eq_mul_left (by norm_num) h2
  · refine Or.inr (Or.inr (Or.inl ⟨m, ?_⟩))
    have h2 : 17 * 3855 = 17 * (d * m) := by
      rw [show 17 * 3855 = 65535 by norm_num, hk65, hm]; ring
    exact Nat.eq_of_mul_eq_mul_left (by norm_num) h2
  · refine Or.inr (Or.inr (Or.inr ⟨m, ?_⟩))
    have h2 : 257 * 255 = 257 * (d * m) := by
      rw [show 257 * 255 = 65535 by norm_num, hk65, hm]; ring
    exact Nat.eq_of_mul_eq_mul_left (by norm_num) h2

theorem lfsr_min_period_one (d : Nat) (hd0 : 0 < d) (hd : d < 65535) :
    lfsr16Iter d 1 ≠ 1 := by
  induction d using Nat.strong_induction_on with
  | _ d ih =>
    intro hfix
    have hmult : ∀ k, lfsr16Iter (k * d) 1 = 1 := by
      intro k
      induction k with
      | zero => rw [Nat.zero_mul]; rfl
      | succ j ihj => rw [show (j + 1) * d = j * d + d by ring, lfsr16Iter_add, ihj, hfix]
    have hr : lfsr16Iter (65535 % d) 1 = 1 := by
      have h1 : lfsr16Iter (65535 / d * d + 65535 % d) 1 = 1 := by
        rw [Nat.div_add_mod']; exact lfsr_at_65535
      rw [lfsr16Iter_add, hmult] at h1
      exact h1
    rcases Nat.eq_zero_or_pos (65535 % d) with hz | hpos
    · have hdvd : d ∣ 65535 := Nat.dvd_of_mod_eq_zero hz
      rcases dvd_65535_cases d hdvd (by omega) with ⟨m, hm⟩ | ⟨m, hm⟩ | ⟨m, hm⟩ | ⟨m, hm⟩
      · have := hmult m
        rw [show m * d = 21845 by rw [hm]; ring, lfsr_at_21845] at this
        omega
      · have := hmult m
        rw [show m * d = 13107 by rw [hm]; ring, lfsr_at_13107] at this
        omega
      · have := hmult m
        rw [show m * d = 3855 by rw [hm]; ring, lfsr_at_3855] at this
        omega
      · have := hmult m
        rw [show m * d = 255 by rw [hm]; ring, lfsr_at_255] at this
        omega
    · exact ih (65535 % d) (Nat.mod_lt _ hd0) hpos (lt_trans (Nat.mod_lt _ hd0) hd) hr

theorem lfsr_iter_mod_period (n : Nat) : lfsr16Iter n 1 = lfsr16Iter (n % 65535) 1 := by
  induction n using Nat.strong_induction_on with
  | _ n ih =>
    by_cases h : n < 65535
    · rw [Nat.mod_eq_of_lt h]
    · obtain ⟨k, rfl⟩ : ∃ k, n = 65535 + k := ⟨n - 65535, by omega⟩
      rw [lfsr16Iter_add, lfsr_at_65535, ih k (by omega)]
      congr 1
      omega

theorem lfsr_iter_one_ne_zero (m : Nat) : lfsr16Iter m 1 ≠ 0 := by
  have hb : ∀ j, j < 65535 → lfsr16Iter j 1 ≠ 0 := by
    intro j hj h0
    have h1 : lfsr16Iter 65535 1 = 0 := by
      rw [show (65535 : Nat) = j + (65535 - j) by omega, lfsr16Iter_add, h0, lfsr16Iter_zero]
    rw [lfsr_at_65535] at h1
    omega
  rw [lfsr_iter_mod_period]
  exact hb _ (Nat.mod_lt _ (by norm_num))

theorem lfsr_orbit_one (s : Nat) (hs0 : s ≠ 0) (hs : s < 65536) :
    ∃ m, m < 65535 ∧ lfsr16Iter m 1 = s := by
  have hinj : Set.InjOn (fun m => lfsr16Iter m 1) (Finset.range 65535) := by
    have key : ∀ i j, i < j → j < 65535 → lfsr16Iter i 1 = lfsr16Iter j 1 → False := by
      intro i j hij hj heq
      have h1 : lfsr16Iter (65535 - i) (lfsr16Iter i 1) = 1 := by
        rw [← lfsr16Iter_add, show i + (65535 - i) = 65535 by omega, lfsr_at_65535]
      have h2 : lfsr16Iter (65535 - i) (lfsr16Iter j 1) = lfsr16Iter (j - i) 1 := by
        rw [← lfsr16Iter_add, show j + (65535 - i) = 65535 + (j - i) by omega,
            lfsr16Iter_add, lfsr_at_65535]
      rw [heq, h2] at h1
      exact lfsr_min_period_one (j - i) (by omega) (by omega) h1
    intro i hi j hj hij
    simp only [Finset.coe_range, Set.mem_Iio] at hi hj
    rcases lt_trichotomy i j with h | h | h
    · exact absurd (key i j h hj hij) not_false
    · exact h
    · exact absurd (key j i h hi hij.symm) not_false
  have himg : Finset.image (fun m => lfsr16Iter m 1) (Finset.range 65535) ⊆ Finset.Icc 1 65535 := by
    intro y hy
    simp only [Finset.mem_image, Finset.mem_range] at hy
    obtain ⟨m, hm, rfl⟩ := hy
    have h1 := lfsr_iter_one_ne_zero m
    have h2 := lfsr16Iter_lt m 1 (by norm_num)
    simp only [Finset.mem_Icc]
    omega
  have hcard : (Finset.image (fun m => lfsr16Iter m 1) (Finset.range 65535)).card = 65535 := by
    rw [Finset.card_image_of_injOn hinj, Finset.card_range]
  have heq : Finset.image (fun m => lfsr16Iter m 1) (Finset.range 65535) = Finset.Icc 1 65535 :=
    Finset.eq_of_subset_of_card_le himg (by rw [hcard, Nat.card_Icc])
  have hsmem : s ∈ Finset.Icc 1 65535 := by
    simp only [Finset.mem_Icc]; omega
  rw [← heq] at hsmem
  simp only [Finset.mem_image, Finset.mem_range] at hsmem
  obtain ⟨m, hm, hgm⟩ := hsmem
  exact ⟨m, hm, hgm⟩

theorem lfsr_period_all (s : Nat) (hs0 : s ≠ 0) (hs : s < 65536) :
    lfsr16Iter 65535 s = s := by
  obtain ⟨m, hm, rfl⟩ := lfsr_orbit_one s hs0 hs
  rw [← lfsr16Iter_add, show m + 65535 = 65535 + m by omega, lfsr16Iter_add, lfsr_at_65535]

theorem lfsr_min_period_all (s d : Nat) (hs0 : s ≠ 0) (hs : s < 65536)
    (hd0 : 0 < d) (hd : d < 65535) : lfsr16Iter d s ≠ s := by
  obtain ⟨m, hm, rfl⟩ := lfsr_orbit_one s hs0 hs
  intro hfix
  have h1 : lfsr16Iter (65535 - m) (lfsr16Iter d (lfsr16Iter m 1)) = lfsr16Iter d 1 := by
    rw [← lfsr16Iter_add, ← lfsr16Iter_add,
        show m + (d + (65535 - m)) = 65535 + d by omega, lfsr16Iter_add, lfsr_at_65535]
  have h2 : lfsr16Iter (65535 - m) (lfsr16Iter m 1) = 1 := by
    rw [← lfsr16Iter_add, show m + (65535 - m) = 65535 by omega, lfsr_at_65535]
  rw [hfix, h2] at h1
  exact lfsr_min_period_one d hd0 hd h1.symm

theorem lfsr_no_collision (s i j : Nat) (hs0 : s ≠ 0) (hs : s < 65536)
    (hij : i < j) (hd : j - i < 65535) : lfsr16Iter i s ≠ lfsr16Iter j s := by
  intro heq
  have hjsplit : lfsr16Iter j s = lfsr16Iter (j - i) (lfsr16Iter i s) := by
    rw [← lfsr16Iter_add]; congr 1; omega
  obtain ⟨m, hm, rfl⟩ := lfsr_orbit_one s hs0 hs
  have ht0 : lfsr16Iter i (lfsr16Iter m 1) ≠ 0 := by
    rw [← lfsr16Iter_add]; exact lfsr_iter_one_ne_zero (m + i)
  have htlt : lfsr16Iter i (lfsr16Iter m 1) < 65536 :=
    lfsr16Iter_lt i _ (lfsr16Iter_lt m 1 (by norm_num))
  rw [hjsplit] at heq
  exact lfsr_min_period_all _ (j - i) ht0 htlt (by omega) hd heq.symm

theorem prng_no_collision (x i j : Nat) (hx : x % 65536 ≠ 0)
    (hij : i < j) (hd : j - i < 65535) : prngIter i x ≠ prngIter j x := by
  intro h
  have h2 : lfsr16Iter i (x % 65536) = lfsr16Iter j (x % 65536) := by
    rw [← prngIter_mod, ← prngIter_mod, h]
  exact lfsr_no_collision (x % 65536) i j hx (Nat.mod_lt x (by norm_num)) hij hd h2

theorem prngFeedback_of_mod_zero (x : Nat) (hx : x % 65536 = 0) : prngFeedback x = 0 := by
  unfold prngFeedback
  simp only [Nat.shiftRight_eq_div_pow, Nat.and_one_is_mod, xor_mod_two]
  norm_num
  omega

theorem prngStep_of_mod_zero (x : Nat) (hx : x % 65536 = 0) :
    prngStep x = 2 * x % 4294967296 := by
  unfold prngStep
  rw [prngFeedback_of_mod_zero x hx, Nat.or_zero, Nat.shiftLeft_eq, and_u32_eq_mod]
  congr 1
  ring

theorem prngIter_mul_pow (n : Nat) : ∀ x, x < 4294967296 → x % 65536 = 0 →
    prngIter n x = x * 2 ^ n % 4294967296 := by
  induction n with
  | zero =>
    intro x hx _
    show x = x * 2 ^ 0 % 4294967296
    rw [pow_zero, Nat.mul_one, Nat.mod_eq_of_lt hx]
  | succ k ih =>
    intro x hx h0
    show prngIter k (prngStep x) = _
    rw [prngStep_of_mod_zero x h0,
        ih (2 * x % 4294967296) (Nat.mod_lt _ (by norm_num)) (by omega),
        Nat.mod_mul_mod]
    congr 1
    ring

theorem prng_zero_tail (a p : Nat) (ha : a < 4294967296) (h0 : a % 65536 = 0)
    (hp : 0 < p) (hfix : prngIter p a = a) : a = 0 := by
  have hmult : ∀ k, prngIter (k * p) a = a := by
    intro k
    induction k with
    | zero => rw [Nat.zero_mul]; rfl
    | succ j ihj => rw [show (j + 1) * p = j * p + p by ring, prngIter_add, ihj, hfix]
  have h32 := hmult 32
  rw [prngIter_mul_pow (32 * p) a ha h0] at h32
  have hdvd : (4294967296 : Nat) ∣ a * 2 ^ (32 * p) := by
    have h3 : (4294967296 : Nat) ∣ 2 ^ (32 * p) := by
      rw [show (4294967296 : Nat) = 2 ^ 32 by norm_num]
      exact pow_dvd_pow 2 (by omega)
    exact Dvd.dvd.mul_left h3 a
  omega

theorem dist_nt_prng_dist (nt k : Nat) (hmod : nt % 65536 ≠ 0) (hk : k < 32768) :
    dist_nt nt (prng_successor nt k) = (k : Int) := by
  cases k with
  | zero => exact dist_nt_self nt
  | succ m =>
    have hne : nt ≠ prngIter (m + 1) nt :=
      prng_no_collision nt 0 (m + 1) hmod (by omega) (by omega)
    have hdist := dist_nt_fwd nt (prngIter (m + 1) nt) m (by omega) hne rfl
      (fun l hl => prng_no_collision nt (l + 1) (m + 1) hmod (by omega) (by omega))
      (by
        intro l hl h
        rw [← prngIter_add] at h
        exact prng_no_collision nt 0 (m + 1 + (l + 1)) hmod (by omega) (by omega) h.symm)
    rw [show prng_successor nt (m + 1) = prngIter (m + 1) nt from rfl, hdist]
    push_cast
    ring

theorem dist_nt_antisym (a b : Nat) (ha : a < 4294967296) (hb : b < 4294967296)
    (h1 : dist_nt a b ≠ -99999) (h2 : dist_nt b a ≠ -99999) :
    dist_nt a b = -dist_nt b a := by
  by_cases hab : a = b
  · subst hab
    rw [dist_nt_self]
    norm_num
  · have hab' : b ≠ a := fun h => hab h.symm
    by_cases hP : ∃ l, l < 32767 ∧ prngIter (l + 1) a = b
    · have hPs := Nat.find_spec hP
      by_cases hQ : ∃ l, l < 32767 ∧ prngIter (l + 1) b = a
      · have hQs := Nat.find_spec hQ
        rcases lt_trichotomy (Nat.find hP) (Nat.find hQ) with hlt | heq | hgt
        · have hd1 := dist_nt_fwd a b (Nat.find hP) hPs.1 hab hPs.2
            (fun l hl hh => Nat.find_min hP hl ⟨by omega, hh⟩)
            (fun l hl hh => Nat.find_min hQ (by omega) ⟨by omega, hh⟩)
          have hd2 := dist_nt_bwd b a (Nat.find hP) hPs.1 hab' hPs.2
            (fun l hl hh => Nat.find_min hQ (by omega) ⟨by omega, hh⟩)
            (fun l hl hh => Nat.find_min hP hl ⟨by omega, hh⟩)
          rw [hd1, hd2]; ring
        · have hitq := hQs.2
          rw [← heq] at hitq
          have hcirc : prngIter (Nat.find hP + 1 + (Nat.find hP + 1)) a = a := by
            rw [prngIter_add, hPs.2, hitq]
          by_cases hx : a % 65536 = 0
          · have ha0 : a = 0 := prng_zero_tail a _ ha hx (by omega) hcirc
            subst ha0
            have hb0 := hPs.2
            rw [prngIter_zero] at hb0
            exact absurd hb0 hab
          · have hfind := hPs.1
            exact absurd hcirc
              (fun hh => prng_no_collision a 0 (Nat.find hP + 1 + (Nat.find hP + 1)) hx
                (by omega) (by omega) hh.symm)
        · have hd1 := dist_nt_bwd a b (Nat.find hQ) hQs.1 hab hQs.2
            (fun l hl hh => Nat.find_min hP (by omega) ⟨by omega, hh⟩)
            (fun l hl hh => Nat.find_min hQ hl ⟨by omega, hh⟩)
          have hd2 := dist_nt_fwd b a (Nat.find hQ) hQs.1 hab' hQs.2
            (fun l hl hh => Nat.find_min hQ hl ⟨by omega, hh⟩)
            (fun l hl hh => Nat.find_min hP (by omega) ⟨by omega, hh⟩)
          rw [hd1, hd2]
      · push_neg at hQ
        have hd1 := dist_nt_fwd a b (Nat.find hP) hPs.1 hab hPs.2
          (fun l hl hh => Nat.find_min hP hl ⟨by omega, hh⟩)
          (fun l hl => hQ l (by omega))
        have hd2 := dist_nt_bwd b a (Nat.find hP) hPs.1 hab' hPs.2
          (fun l hl => hQ l (by omega))
          (fun l hl hh => Nat.find_min hP hl ⟨by omega, hh⟩)
        rw [hd1, hd2]; ring
    · push_neg at hP
      by_cases hQ : ∃ l, l < 32767 ∧ prngIter (l + 1) b = a
      · have hQs := Nat.find_spec hQ
        have hd1 := dist_nt_bwd a b (Nat.find hQ) hQs.1 hab hQs.2
          (fun l hl => hP l (by omega))
          (fun l hl hh => Nat.find_min hQ hl ⟨by omega, hh⟩)
        have hd2 := dist_nt_fwd b a (Nat.find hQ) hQs.1 hab' hQs.2
          (fun l hl hh => Nat.find_min hQ hl ⟨by omega, hh⟩)
          (fun l hl => hP l (by omega))
        rw [hd1, hd2]
      · push_neg at hQ
        exact absurd (dist_nt_none a b hab (fun l hl => hP l hl) (fun l hl => hQ l hl)) h1

theorem dist_nt_unreachable (a b : Nat)
    (h : ∀ i, i ≤ 32767 → prng_successor a i ≠ b ∧ prng_successor b i ≠ a) :
    dist_nt a b = -99999 := by
  have hab : a ≠ b := (h 0 (by omega)).1
  exact dist_nt_none a b hab
    (fun l hl => (h (l + 1) (by omega)).1)
    (fun l hl => (h (l + 1) (by omega)).2)

/-- **Claim C9** (amended).  For the Mifare nonce PRNG: (1) for every 32-bit
nonce `nt` whose low 16 bits are nonzero and every `k < 32768`,
`dist_nt nt (prng_successor nt k) = k` — the restriction `nt % 65536 ≠ 0` is
the amendment: a nonce with zero low half is outside the LFSR's nonzero
orbit and the identity can fail there, as at `nt = 0`, which the PRNG fixes,
so `dist_nt 0 (prng_successor 0 k) = 0` (see the counterexample); (2) for
any two nonces whose distance is valid in both directions,
`dist_nt a b = -dist_nt b a`; (3) `dist_nt` returns `-99999` when neither
nonce is reachable from the other within 32767 PRNG steps. -/
theorem c9_dist_nt :
    (∀ nt k : Nat, nt < 4294967296 → nt % 65536 ≠ 0 → k < 32768 →
        dist_nt nt (prng_successor nt k) = (k : Int)) ∧
    (∀ a b : Nat, a < 4294967296 → b < 4294967296 →
        dist_nt a b ≠ -99999 → dist_nt b a ≠ -99999 →
        dist_nt a b = -dist_nt b a) ∧
    (∀ a b : Nat,
        (∀ i, i ≤ 32767 → prng_successor a i ≠ b ∧ prng_successor b i ≠ a) →
        dist_nt a b = -99999) :=
  ⟨fun nt k _ hmod hk => dist_nt_prng_dist nt k hmod hk,
   fun a b ha hb h1 h2 => dist_nt_antisym a b ha hb h1 h2,
   fun a b h => dist_nt_unreachable a b h⟩

/-- Counterexample to C9 as stated by the spec: for the 32-bit nonce
`nt = 0` (whose low 16 bits are zero) and `k = 1`,
`dist_nt(nt, prng_successor(nt, 1))` returns `0`, not `1`: the PRNG fixes
`0`, so the spec's unconditional identity fails. -/
theorem c9_counterexample :
    (0 : Nat) % 65536 = 0 ∧ dist_nt 0 (prng_successor 0 1) = 0 ∧ (0 : Int) ≠ 1 :=
  ⟨rfl, by decide, by decide⟩

/-- Witness for C9: the amended part 1 applied at the concrete nonce `1`
and distance `2`. -/
theorem c9_dist_nt_witness :
    (1 : Nat) < 4294967296 ∧ (1 : Nat) % 65536 ≠ 0 ∧ (2 : Nat) < 32768 ∧
      dist_nt 1 (prng_successor 1 2) = 2 :=
  ⟨by norm_num, by decide, by norm_num,
    c9_dist_nt.1 1 2 (by norm_num) (by decide) (by norm_num)⟩

/-! ### Claims C1 and C3: Miller round-trip and sequence rules -/

theorem lowbyte_and (x B M : Nat) (hB : B < 256) (hM : M < 256) :
    (((x <<< 8) ||| B) % 2 ^ 32) &&& M = B &&& M := by
  apply Nat.eq_of_testBit_eq
  intro i
  rw [Nat.testBit_and, Nat.testBit_and]
  by_cases hi : i < 8
  · rw [Nat.testBit_mod_two_pow]
    have h32 : i < 32 := by omega
    simp [h32, Nat.testBit_or, Nat.testBit_shiftLeft, Nat.not_le.mpr hi]
  · have hMb : M.testBit i = false := by
      apply Nat.testBit_eq_false_of_lt
      calc M < 256 := hM
        _ = 2 ^ 8 := by norm_num
        _ ≤ 2 ^ i := Nat.pow_le_pow_right (by norm_num) (by omega)
    simp [hMb]

theorem miller_nibble1_air (x B : Nat) (hB : B < 256) :
    IsMillerModulationNibble1 (((x <<< 8) ||| B) % 2 ^ 32) =
      IsMillerModulationNibble1 B := by
  unfold IsMillerModulationNibble1
  rw [lowbyte_and x B 0xF0 hB (by norm_num)]

theorem miller_nibble2_air (x B : Nat) (hB : B < 256) :
    IsMillerModulationNibble2 (((x <<< 8) ||| B) % 2 ^ 32) =
      IsMillerModulationNibble2 B := by
  unfold IsMillerModulationNibble2
  rw [lowbyte_and x B 0x0F hB (by norm_num)]

theorem millerStep_X (u : Uart14a) (nrt : Nat)
    (hfull : u.output.length ≠ u.output_len) (hsync : u.syncBit = 0)
    (hst : u.state ≠ .unsyncd) :
    MillerDecoding u 0xF3 nrt =
      (millerByteComplete
        { u with fourBits := ((u.fourBits <<< 8) ||| 0xF3) % 2 ^ 32,
                 bitCount := (u.bitCount + 1) % 65536,
                 shiftReg := (u.shiftReg >>> 1) ||| 0x100,
                 state := .millerX,
                 endTime := u.startTime +
                   8 * (9 * u.output.length + ((u.bitCount + 1) % 65536) + 1) - 2 },
       false) := by
  have hf : (u.output.length == u.output_len) = false := beq_eq_false_iff_ne.mpr hfull
  have hs : (u.state == UartState.unsyncd) = false := beq_eq_false_iff_ne.mpr hst
  have hn1 : IsMillerModulationNibble1 ((u.fourBits <<< 8 ||| 0xF3) % 2 ^ 32) = false := by
    rw [miller_nibble1_air u.fourBits 0xF3 (by norm_num)]
    decide
  have hn2 : IsMillerModulationNibble2 ((u.fourBits <<< 8 ||| 0xF3) % 2 ^ 32) = true := by
    rw [miller_nibble2_air u.fourBits 0xF3 (by norm_num)]
    decide
  simp only [MillerDecoding, hf, Bool.false_eq_true, if_false, hs, hsync,
    Nat.shiftRight_zero, hn1, hn2, if_true]

theorem millerStep_Z (u : Uart14a) (nrt : Nat)
    (hfull : u.output.length ≠ u.output_len) (hsync : u.syncBit = 0)
    (hst : u.state ≠ .unsyncd) (hnx : u.state ≠ .millerX) :
    MillerDecoding u 0x3F nrt =
      (millerByteComplete
        { u with fourBits := ((u.fourBits <<< 8) ||| 0x3F) % 2 ^ 32,
                 bitCount := (u.bitCount + 1) % 65536,
                 shiftReg := u.shiftReg >>> 1,
                 state := .millerZ,
                 endTime := u.startTime +
                   8 * (9 * u.output.length + ((u.bitCount + 1) % 65536) + 1) - 6 },
       false) := by
  have hf : (u.output.length == u.output_len) = false := beq_eq_false_iff_ne.mpr hfull
  have hs : (u.state == UartState.unsyncd) = false := beq_eq_false_iff_ne.mpr hst
  have hx : (u.state == UartState.millerX) = false := beq_eq_false_iff_ne.mpr hnx
  have hn1 : IsMillerModulationNibble1 ((u.fourBits <<< 8 ||| 0x3F) % 2 ^ 32) = true := by
    rw [miller_nibble1_air u.fourBits 0x3F (by norm_num)]
    decide
  have hn2 : IsMillerModulationNibble2 ((u.fourBits <<< 8 ||| 0x3F) % 2 ^ 32) = false := by
    rw [miller_nibble2_air u.fourBits 0x3F (by norm_num)]
    decide
  simp only [MillerDecoding, hf, Bool.false_eq_true, if_false, hs, hx, hsync,
    Nat.shiftRight_zero, hn1, hn2, if_true]

theorem millerStep_Z_afterX (u : Uart14a) (nrt : Nat)
    (hfull : u.output.length ≠ u.output_len) (hsync : u.syncBit = 0)
    (hst : u.state = .millerX) :
    MillerDecoding u 0x3F nrt = (Uart14aReset u, false) := by
  have hf : (u.output.length == u.output_len) = false := beq_eq_false_iff_ne.mpr hfull
  have hs : (u.state == UartState.unsyncd) = false := by rw [hst]; rfl
  have hx : (u.state == UartState.millerX) = true := by rw [hst]; rfl
  have hn1 : IsMillerModulationNibble1 ((u.fourBits <<< 8 ||| 0x3F) % 2 ^ 32) = true := by
    rw [miller_nibble1_air u.fourBits 0x3F (by norm_num)]
    decide
  have hn2 : IsMillerModulationNibble2 ((u.fourBits <<< 8 ||| 0x3F) % 2 ^ 32) = false := by
    rw [miller_nibble2_air u.fourBits 0x3F (by norm_num)]
    decide
  simp only [MillerDecoding, hf, Bool.false_eq_true, if_false, hs, hx, hsync,
    Nat.shiftRight_zero, hn1, hn2, if_true]
  rfl

theorem millerStep_Y_data (u : Uart14a) (nrt : Nat)
    (hfull : u.output.length ≠ u.output_len) (hsync : u.syncBit = 0)
    (hst : u.state = .millerX) :
    MillerDecoding u 0xFF nrt =
      (millerByteComplete
        { u with fourBits := ((u.fourBits <<< 8) ||| 0xFF) % 2 ^ 32,
                 bitCount := (u.bitCount + 1) % 65536,
                 shiftReg := u.shiftReg >>> 1,
                 state := .millerY },
       false) := by
  have hf : (u.output.length == u.output_len) = false := beq_eq_false_iff_ne.mpr hfull
  have hs : (u.state == UartState.unsyncd) = false := by rw [hst]; rfl
  have hz : (u.state == UartState.millerZ) = false := by rw [hst]; rfl
  have hy : (u.state == UartState.millerY) = false := by rw [hst]; rfl
  have hsoc : (u.state == UartState.startOfComm) = false := by rw [hst]; rfl
  have hn1 : IsMillerModulationNibble1 ((u.fourBits <<< 8 ||| 0xFF) % 2 ^ 32) = false := by
    rw [miller_nibble1_air u.fourBits 0xFF (by norm_num)]
    decide
  have hn2 : IsMillerModulationNibble2 ((u.fourBits <<< 8 ||| 0xFF) % 2 ^ 32) = false := by
    rw [miller_nibble2_air u.fourBits 0xFF (by norm_num)]
    decide
  simp only [MillerDecoding, hf, Bool.false_eq_true, if_false, hs, hz, hy, hsoc, hsync,
    Nat.shiftRight_zero, hn1, hn2, if_true, Bool.or_self]

theorem millerStep_Y_SOC (u : Uart14a) (nrt : Nat)
    (hfull : u.output.length ≠ u.output_len) (hsync : u.syncBit = 0)
    (hst : u.state = .startOfComm) :
    MillerDecoding u 0xFF nrt = (Uart14aReset u, false) := by
  have hf : (u.output.length == u.output_len) = false := beq_eq_false_iff_ne.mpr hfull
  have hs : (u.state == UartState.unsyncd) = false := by rw [hst]; rfl
  have hz : (u.state == UartState.millerZ) = false := by rw [hst]; rfl
  have hy : (u.state == UartState.millerY) = false := by rw [hst]; rfl
  have hsoc : (u.state == UartState.startOfComm) = true := by rw [hst]; rfl
  have hn1 : IsMillerModulationNibble1 ((u.fourBits <<< 8 ||| 0xFF) % 2 ^ 32) = false := by
    rw [miller_nibble1_air u.fourBits 0xFF (by norm_num)]
    decide
  have hn2 : IsMillerModulationNibble2 ((u.fourBits <<< 8 ||| 0xFF) % 2 ^ 32) = false := by
    rw [miller_nibble2_air u.fourBits 0xFF (by norm_num)]
    decide
  simp only [MillerDecoding, hf, Bool.false_eq_true, if_false, hs, hz, hy, hsoc, hsync,
    Nat.shiftRight_zero, hn1, hn2, if_true, Bool.or_self]
  rfl

theorem millerStep_Y_EOC_partial (u : Uart14a) (nrt : Nat)
    (hfull : u.output.length ≠ u.output_len) (hsync : u.syncBit = 0)
    (hst : u.state = .millerZ ∨ u.state = .millerY)
    (hbc1 : 1 < u.bitCount) (hbc2 : u.bitCount < 65536) :
    MillerDecoding u 0xFF nrt =
      ({ u with fourBits := ((u.fourBits <<< 8) ||| 0xFF) % 2 ^ 32,
                state := .unsyncd,
                bitCount := u.bitCount - 1,
                shiftReg := ((u.shiftReg <<< 1) % 65536) >>> (9 - (u.bitCount - 1)),
                output := u.output ++
                  [(((u.shiftReg <<< 1) % 65536) >>> (9 - (u.bitCount - 1))) &&& 0xFF],
                parityBits := (((u.parityBits <<< 1) &&& 0xFF) <<<
                    (8 - (u.output.length + 1) % 8)) &&& 0xFF,
                parity := u.parity ++ [(((u.parityBits <<< 1) &&& 0xFF) <<<
                    (8 - (u.output.length + 1) % 8)) &&& 0xFF] }, true) := by
  have hf : (u.output.length == u.output_len) = false := beq_eq_false_iff_ne.mpr hfull
  have hs : (u.state == UartState.unsyncd) = false := by
    rcases hst with h | h <;> rw [h] <;> rfl
  have hzy : (u.state == UartState.millerZ || u.state == UartState.millerY) = true := by
    rcases hst with h | h <;> rw [h] <;> rfl
  have hn1 : IsMillerModulationNibble1 ((u.fourBits <<< 8 ||| 0xFF) % 2 ^ 32) = false := by
    rw [miller_nibble1_air u.fourBits 0xFF (by norm_num)]
    decide
  have hn2 : IsMillerModulationNibble2 ((u.fourBits <<< 8 ||| 0xFF) % 2 ^ 32) = false := by
    rw [miller_nibble2_air u.fourBits 0xFF (by norm_num)]
    decide
  have hdec : (u.bitCount + 65535) % 65536 = u.bitCount - 1 := by omega
  have hpos : (u.bitCount - 1 > 0) = True := by simp; omega
  simp only [MillerDecoding, hf, Bool.false_eq_true, if_false, hs, hsync,
    Nat.shiftRight_zero, hn1, hn2, hzy, if_true, hdec, hpos, List.length_append,
    List.length_singleton]

theorem millerStep_Y_EOC_zero (u : Uart14a) (nrt : Nat)
    (hfull : u.output.length ≠ u.output_len) (hsync : u.syncBit = 0)
    (hst : u.state = .millerZ ∨ u.state = .millerY)
    (hbc : u.bitCount = 1) (hlen0 : u.output.length ≠ 0) :
    MillerDecoding u 0xFF nrt =
      (if u.output.length % 8 ≠ 0 then
        ({ u with fourBits := ((u.fourBits <<< 8) ||| 0xFF) % 2 ^ 32,
                  state := .unsyncd, bitCount := 0,
                  shiftReg := (u.shiftReg <<< 1) % 65536,
                  parityBits := (u.parityBits <<< (8 - u.output.length % 8)) &&& 0xFF,
                  parity := u.parity ++
                    [(u.parityBits <<< (8 - u.output.length % 8)) &&& 0xFF] }, true)
      else
        ({ u with fourBits := ((u.fourBits <<< 8) ||| 0xFF) % 2 ^ 32,
                  state := .unsyncd, bitCount := 0,
                  shiftReg := (u.shiftReg <<< 1) % 65536 }, true)) := by
  have hf : (u.output.length == u.output_len) = false := beq_eq_false_iff_ne.mpr hfull
  have hs : (u.state == UartState.unsyncd) = false := by
    rcases hst with h | h <;> rw [h] <;> rfl
  have hzy : (u.state == UartState.millerZ || u.state == UartState.millerY) = true := by
    rcases hst with h | h <;> rw [h] <;> rfl
  have hn1 : IsMillerModulationNibble1 ((u.fourBits <<< 8 ||| 0xFF) % 2 ^ 32) = false := by
    rw [miller_nibble1_air u.fourBits 0xFF (by norm_num)]
    decide
  have hn2 : IsMillerModulationNibble2 ((u.fourBits <<< 8 ||| 0xFF) % 2 ^ 32) = false := by
    rw [miller_nibble2_air u.fourBits 0xFF (by norm_num)]
    decide
  have hdec : (u.bitCount + 65535) % 65536 = 0 := by omega
  have hf0 : (u.output.length == 0) = false := beq_eq_false_iff_ne.mpr hlen0
  by_cases h8 : u.output.length % 8 = 0
  · have h8' : (u.output.length % 8 != 0) = false := by simp [h8]
    simp only [MillerDecoding, hf, Bool.false_eq_true, if_false, hs, hsync,
      Nat.shiftRight_zero, hn1, hn2, hzy, if_true, hbc, hdec, h8', hf0,
      Bool.not_eq_true, h8, gt_iff_lt, Nat.lt_irrefl]
    have hne : ¬u.output = [] := fun h => hlen0 (by simp [h])
    simp [h8, hne]
  · have h8' : (u.output.length % 8 != 0) = true := by simp [h8]
    simp only [MillerDecoding, hf, Bool.false_eq_true, if_false, hs, hsync,
      Nat.shiftRight_zero, hn1, hn2, hzy, if_true, hbc, hdec, h8', hf0,
      gt_iff_lt, Nat.lt_irrefl]
    have hne : ¬u.output = [] := fun h => hlen0 (by simp [h])
    simp [h8, hne]

/-- **Claim C3** (amended).  In the synchronised Miller decoder the framing
violation directly after a Sequence X is a Sequence Z, not another X: on a
Z the decoder resets via `Uart14aReset`, while a second X is accepted as a
further data bit (state stays `millerX`, the bit counter advances and
nothing is reset).  A Sequence Y arriving immediately after the
start-of-communication does reset the decoder, as claimed. -/
theorem c3_miller_sequence_rules (u : Uart14a) (nrt : Nat)
    (hfull : u.output.length ≠ u.output_len) (hsync : u.syncBit = 0) :
    (u.state = .millerX →
      MillerDecoding u 0x3F nrt = (Uart14aReset u, false)) ∧
    (u.state = .startOfComm →
      MillerDecoding u 0xFF nrt = (Uart14aReset u, false)) ∧
    (u.state = .millerX → u.bitCount < 8 →
      (MillerDecoding u 0xF3 nrt).2 = false ∧
      (MillerDecoding u 0xF3 nrt).1.state = .millerX ∧
      (MillerDecoding u 0xF3 nrt).1.bitCount = u.bitCount + 1 ∧
      (MillerDecoding u 0xF3 nrt).1.output = u.output) := by
  refine ⟨fun hx => millerStep_Z_afterX u nrt hfull hsync hx,
          fun hsoc => millerStep_Y_SOC u nrt hfull hsync hsoc, ?_⟩
  intro hx hbc
  rw [millerStep_X u nrt hfull hsync (by rw [hx]; intro h; cases h)]
  have hmod : (u.bitCount + 1) % 65536 = u.bitCount + 1 := by omega
  have hlt : ¬ (8 ≤ u.bitCount) := by omega
  simp [millerByteComplete, hmod, hlt]

/-- Counterexample to C3 as stated by the spec: after syncing on the SOC
and decoding one Sequence X, a second Sequence X (sample byte 0xF3) does
not reset the decoder — it is accepted as a second data bit, leaving the
decoder in `millerX` with `bitCount = 2`. -/
theorem c3_counterexample :
    (millerRun (Uart14aInit 8) [0xFF, 0xFF, 0x3F, 0xF3, 0xF3]).1.state =
      UartState.millerX ∧
    (millerRun (Uart14aInit 8) [0xFF, 0xFF, 0x3F, 0xF3, 0xF3]).1.bitCount = 2 ∧
    (millerRun (Uart14aInit 8) [0xFF, 0xFF, 0x3F, 0xF3, 0xF3]).2 = false := by
  decide

/-- Witness for C3 at a concrete synchronised decoder state. -/
theorem c3_miller_sequence_rules_witness :
    (Uart14a.mk .millerX 0x100 1 0 0 0xFFF3 8 8 [] [] 8).output.length ≠ 8 ∧
    (Uart14a.mk .millerX 0x100 1 0 0 0xFFF3 8 8 [] [] 8).state = .millerX ∧
    MillerDecoding (Uart14a.mk .millerX 0x100 1 0 0 0xFFF3 8 8 [] [] 8) 0x3F 8 =
      (Uart14aReset (Uart14a.mk .millerX 0x100 1 0 0 0xFFF3 8 8 [] [] 8), false) :=
  ⟨by decide, rfl,
    (c3_miller_sequence_rules (Uart14a.mk .millerX 0x100 1 0 0 0xFFF3 8 8 [] [] 8) 8
      (by decide) rfl).1 rfl⟩

theorem nat_shiftLeft_or (x y k : Nat) : (x ||| y) <<< k = (x <<< k) ||| (y <<< k) := by
  apply Nat.eq_of_testBit_eq
  intro i
  simp [Nat.testBit_shiftLeft, Nat.testBit_or, Bool.and_or_distrib_left]

theorem shiftLeft_shiftRight_sub (a n k : Nat) (h : k ≤ n) :
    (a <<< n) >>> k = a <<< (n - k) := by
  apply Nat.eq_of_testBit_eq
  intro i
  rw [Nat.testBit_shiftRight, Nat.testBit_shiftLeft, Nat.testBit_shiftLeft]
  rw [show k + i - n = i - (n - k) by omega]
  congr 1
  rw [decide_eq_decide]
  omega

theorem or_shiftLeft_eq_add (a c t : Nat) (ha : a < 2 ^ t) :
    a ||| (c <<< t) = a + c * 2 ^ t := by
  apply Nat.eq_of_testBit_eq
  intro i
  rw [Nat.testBit_or, Nat.testBit_shiftLeft]
  by_cases hi : i < t
  · have h1 : (decide (t ≤ i) && c.testBit (i - t)) = false := by
      simp [Nat.not_le.mpr hi]
    rw [h1, Bool.or_false]
    have h2 : (a + c * 2 ^ t) / 2 ^ i = a / 2 ^ i + c * 2 ^ (t - i) := by
      rw [show c * 2 ^ t = c * 2 ^ (t - i) * 2 ^ i by
            rw [Nat.mul_assoc, ← pow_add]
            congr 2
            omega]
      rw [Nat.add_mul_div_right _ _ (Nat.pos_pow_of_pos i (by norm_num))]
    have h3 : c * 2 ^ (t - i) % 2 = 0 := by
      obtain ⟨w, hw⟩ : (2 : Nat) ∣ 2 ^ (t - i) := dvd_pow_self 2 (by omega)
      rw [hw, show c * (2 * w) = 2 * (c * w) by ring]
      omega
    rw [Nat.testBit_to_div_mod, Nat.testBit_to_div_mod, decide_eq_decide, h2]
    omega
  · have ha' : a.testBit i = false := by
      apply Nat.testBit_eq_false_of_lt
      exact lt_of_lt_of_le ha (Nat.pow_le_pow_right (by norm_num) (by omega))
    rw [ha', Bool.false_or]
    have h4 : (a + c * 2 ^ t) / 2 ^ i = c / 2 ^ (i - t) := by
      rw [show (2 : Nat) ^ i = 2 ^ t * 2 ^ (i - t) by
            rw [← pow_add]
            congr 1
            omega]
      rw [← Nat.div_div_eq_div_mul]
      congr 1
      rw [Nat.add_mul_div_right _ _ (Nat.pos_pow_of_pos t (by norm_num)),
          Nat.div_eq_of_lt ha, Nat.zero_add]
    simp [Nat.not_lt.mp hi, Nat.testBit_to_div_mod, h4]

theorem sr_mod_split (b k : Nat) :
    (b &&& 1) ||| (((b >>> 1) % 2 ^ k) <<< 1) = b % 2 ^ (k + 1) := by
  have hb1 : b &&& 1 = b % 2 := Nat.and_one_is_mod b
  have h0 : b &&& 1 < 2 ^ 1 := by rw [hb1]; omega
  rw [or_shiftLeft_eq_add _ _ _ h0, hb1, Nat.shiftRight_eq_div_pow, pow_one]
  have hK : (0 : Nat) < 2 ^ k := Nat.pos_pow_of_pos k (by norm_num)
  have h2 : b % 2 ^ (k + 1) = 2 * (b / 2 % 2 ^ k) + b % 2 := by
    conv_lhs => rw [show b = 2 * (b / 2) + b % 2 by omega]
    rw [pow_succ', Nat.add_mod, Nat.mul_mod_mul_left]
    have hr2 : b % 2 % (2 * 2 ^ k) = b % 2 := Nat.mod_eq_of_lt (by omega)
    rw [hr2]
    apply Nat.mod_eq_of_lt
    have := Nat.mod_lt (b / 2) hK
    omega
  rw [h2]
  ring

theorem sr_chain (sr b k : Nat) (hk : k ≤ 8) :
    (((sr >>> 1) ||| ((b &&& 1) <<< 8)) >>> k) ||| (((b >>> 1) % 2 ^ k) <<< (9 - k)) =
      (sr >>> (k + 1)) ||| ((b % 2 ^ (k + 1)) <<< (9 - (k + 1))) := by
  rw [nat_shiftRight_or, shiftLeft_shiftRight_sub _ 8 k hk, Nat.or_assoc]
  have h1 : (sr >>> 1) >>> k = sr >>> (k + 1) := by
    rw [← Nat.shiftRight_add]
    congr 1
    omega
  rw [h1]
  congr 1
  have h2 : ∀ x : Nat, x <<< (9 - k) = (x <<< 1) <<< (8 - k) := by
    intro x
    rw [Nat.shiftLeft_eq, Nat.shiftLeft_eq, Nat.shiftLeft_eq, Nat.mul_assoc, ← pow_add]
    congr 2
    omega
  rw [h2, ← nat_shiftLeft_or, sr_mod_split]
  rw [show (9 : Nat) - (k + 1) = 8 - k by omega]

theorem millerByteComplete_id (u : Uart14a) (h : u.bitCount < 9) :
    millerByteComplete u = u := by
  simp only [millerByteComplete, ge_iff_le, show ¬(9 ≤ u.bitCount) by omega, if_false]

theorem millerRun_cons_false (u u' : Uart14a) (b : Nat) (rest : List Nat)
    (h : MillerDecoding u b 8 = (u', false)) :
    millerRun u (b :: rest) = millerRun u' rest := by
  simp [millerRun, h]

theorem millerRun_cons_true (u u' : Uart14a) (b : Nat) (rest : List Nat)
    (h : MillerDecoding u b 8 = (u', true)) :
    millerRun u (b :: rest) = (u', true) := by
  simp [millerRun, h]

theorem millerRun_bits (k : Nat) : ∀ (b last : Nat) (u : Uart14a) (more : List Nat),
    u.bitCount + k ≤ 8 → u.syncBit = 0 → u.output.length ≠ u.output_len →
    u.state ≠ .unsyncd → (u.state = .millerX ↔ last = 1) → last ≤ 1 →
    ∃ st f e,
      (st = .millerX ↔ (millerEncodeByteBits b k last).2 = 1) ∧ st ≠ .unsyncd ∧
      (millerEncodeByteBits b k last).2 ≤ 1 ∧
      millerRun u (List.map millerAir (millerEncodeByteBits b k last).1 ++ more) =
        millerRun { u with state := st, fourBits := f, endTime := e,
                           bitCount := u.bitCount + k,
                           shiftReg := (u.shiftReg >>> k) |||
                             ((b % 2 ^ k) <<< (9 - k)) } more := by
  induction k with
  | zero =>
    intro b last u more hbc hsync hfull hst hiff hlast
    refine ⟨u.state, u.fourBits, u.endTime, ?_, hst, ?_, ?_⟩
    · simpa [millerEncodeByteBits] using hiff
    · simpa [millerEncodeByteBits] using hlast
    · show millerRun u (List.map millerAir [] ++ more) = _
      simp only [List.map_nil, List.nil_append]
      congr 1
      cases u
      simp [Nat.mod_one]
  | succ k ih =>
    intro b last u more hbc hsync hfull hst hiff hlast
    have hb2 : b &&& 1 = b % 2 := Nat.and_one_is_mod b
    simp only [millerEncodeByteBits, hb2]
    have hbcm : (u.bitCount + 1) % 65536 = u.bitCount + 1 := by omega
    rcases Nat.mod_two_eq_zero_or_one b with h2 | h2
    · rcases Nat.lt_or_ge last 1 with hl | hl
      · -- bit 0, last = 0: Sequence Z
        have hl0 : last = 0 := by omega
        have hsz : millerEncodeBit (b % 2) last = (SEC_Z, 0) := by
          simp [millerEncodeBit, h2, hl0]
        have hnx : u.state ≠ .millerX := fun hx => absurd (hiff.mp hx) (by omega)
        have hstep := millerStep_Z u 8 hfull hsync hst hnx
        rw [hbcm, millerByteComplete_id _ (by simp; omega)] at hstep
        obtain ⟨st, f, e, hiff', hst', hle', hrun⟩ :=
          ih (b >>> 1) 0
            { u with fourBits := ((u.fourBits <<< 8) ||| 0x3F) % 2 ^ 32,
                     bitCount := u.bitCount + 1,
                     shiftReg := u.shiftReg >>> 1,
                     state := .millerZ,
                     endTime := u.startTime +
                       8 * (9 * u.output.length + (u.bitCount + 1) + 1) - 6 }
            more (by simp; omega) (by simp [hsync]) (by simpa using hfull)
            (by simp) (by simp) (by omega)
        refine ⟨st, f, e, ?_, hst', ?_, ?_⟩
        · simpa [hsz] using hiff'
        · simpa [hsz] using hle'
        · rw [hsz]
          simp only [List.map_cons, List.cons_append]
          rw [show millerAir SEC_Z = 0x3F from rfl,
              millerRun_cons_false _ _ _ _ hstep, hrun]
          have hc := sr_chain u.shiftReg b k (by omega)
          rw [hb2, h2] at hc
          simp only [Nat.zero_shiftLeft, Nat.or_zero] at hc
          rw [show u.bitCount + 1 + k = u.bitCount + (k + 1) by omega, hc]
      · -- bit 0, last = 1: Sequence Y as data bit
        have hl1 : last = 1 := by omega
        have hsy : millerEncodeBit (b % 2) last = (SEC_Y, 0) := by
          simp [millerEncodeBit, h2, hl1]
        have hx : u.state = .millerX := hiff.mpr hl1
        have hstep := millerStep_Y_data u 8 hfull hsync hx
        rw [hbcm, millerByteComplete_id _ (by simp; omega)] at hstep
        obtain ⟨st, f, e, hiff', hst', hle', hrun⟩ :=
          ih (b >>> 1) 0
            { u with fourBits := ((u.fourBits <<< 8) ||| 0xFF) % 2 ^ 32,
                     bitCount := u.bitCount + 1,
                     shiftReg := u.shiftReg >>> 1,
                     state := .millerY }
            more (by simp; omega) (by simp [hsync]) (by simpa using hfull)
            (by simp) (by simp) (by omega)
        refine ⟨st, f, e, ?_, hst', ?_, ?_⟩
        · simpa [hsy] using hiff'
        · simpa [hsy] using hle'
        · rw [hsy]
          simp only [List.map_cons, List.cons_append]
          rw [show millerAir SEC_Y = 0xFF from rfl,
              millerRun_cons_false _ _ _ _ hstep, hrun]
          have hc := sr_chain u.shiftReg b k (by omega)
          rw [hb2, h2] at hc
          simp only [Nat.zero_shiftLeft, Nat.or_zero] at hc
          rw [show u.bitCount + 1 + k = u.bitCount + (k + 1) by omega, hc]
    · -- bit 1: Sequence X
      have hsx : millerEncodeBit (b % 2) last = (SEC_X, 1) := by
        simp [millerEncodeBit, h2]
      have hstep := millerStep_X u 8 hfull hsync hst
      rw [hbcm, millerByteComplete_id _ (by simp; omega)] at hstep
      obtain ⟨st, f, e, hiff', hst', hle', hrun⟩ :=
        ih (b >>> 1) 1
          { u with fourBits := ((u.fourBits <<< 8) ||| 0xF3) % 2 ^ 32,
                   bitCount := u.bitCount + 1,
                   shiftReg := (u.shiftReg >>> 1) ||| 0x100,
                   state := .millerX,
                   endTime := u.startTime +
                     8 * (9 * u.output.length + (u.bitCount + 1) + 1) - 2 }
          more (by simp; omega) (by simp [hsync]) (by simpa using hfull)
          (by simp) (by simp) (by omega)
      refine ⟨st, f, e, ?_, hst', ?_, ?_⟩
      · simpa [hsx] using hiff'
      · simpa [hsx] using hle'
      · rw [hsx]
        simp only [List.map_cons, List.cons_append]
        rw [show millerAir SEC_X = 0xF3 from rfl,
            millerRun_cons_false _ _ _ _ hstep, hrun]
        have hc := sr_chain u.shiftReg b k (by omega)
        rw [hb2, h2] at hc
        rw [show (1 : Nat) <<< 8 = 0x100 from rfl] at hc
        rw [show u.bitCount + 1 + k = u.bitCount + (k + 1) by omega, hc]

theorem millerByteComplete_nine (u : Uart14a) (b p : Nat) (h9 : u.bitCount = 9)
    (hsr : u.shiftReg = b + p * 256) (hb : b < 256) (hp : p ≤ 1) :
    millerByteComplete u =
      if (u.output.length + 1) % 8 = 0 then
        { u with output := u.output ++ [b], bitCount := 0, shiftReg := 0,
                 parityBits := 0,
                 parity := u.parity ++ [((u.parityBits <<< 1) &&& 0xFF) ||| p] }
      else
        { u with output := u.output ++ [b], bitCount := 0, shiftReg := 0,
                 parityBits := ((u.parityBits <<< 1) &&& 0xFF) ||| p } := by
  have hand : u.shiftReg &&& 0xFF = b := by
    rw [hsr, and255_eq_mod]
    omega
  have hpar : (u.shiftReg >>> 8) &&& 1 = p := by
    rw [hsr, Nat.shiftRight_eq_div_pow, Nat.and_one_is_mod]
    interval_cases p <;> omega
  simp only [millerByteComplete, h9, ge_iff_le, le_refl, if_true, hand, hpar,
    List.length_append, List.length_singleton, beq_iff_eq]

theorem millerRun_byte_core (b p last : Nat) (u : Uart14a) (more : List Nat)
    (hb : b < 256) (hp : p ≤ 1) (hlast : last ≤ 1)
    (hbc : u.bitCount = 0) (hsr : u.shiftReg = 0) (hsync : u.syncBit = 0)
    (hfull : u.output.length ≠ u.output_len)
    (hst : u.state ≠ .unsyncd) (hiff : u.state = .millerX ↔ last = 1) :
    ∃ st f e,
      (st = .millerX ↔ p = 1) ∧ st ≠ .unsyncd ∧
      millerRun u (List.map millerAir (millerEncodeByteBits b 8 last).1 ++
          (millerAir (millerEncodeBit p (millerEncodeByteBits b 8 last).2).1 :: more)) =
        millerRun (millerByteComplete
          { u with state := st, fourBits := f, endTime := e, bitCount := 9,
                   shiftReg := b + p * 256 }) more := by
  obtain ⟨st2, f2, e2, hiff2, hst2, hle2, hrun2⟩ :=
    millerRun_bits 8 b last u
      (millerAir (millerEncodeBit p (millerEncodeByteBits b 8 last).2).1 :: more)
      (by omega) hsync hfull hst hiff hlast
  simp only [hbc, hsr, Nat.zero_shiftRight, Nat.zero_or, Nat.zero_add,
    show (2 : Nat) ^ 8 = 256 from rfl, Nat.mod_eq_of_lt hb,
    show (9 : Nat) - 8 = 1 from rfl] at hrun2
  rcases Nat.lt_or_ge p 1 with hp0 | hp1
  · -- p = 0: the parity symbol is a logic 0, Sequence Z or Y depending on lastb
    have hp' : p = 0 := by omega
    rcases Nat.lt_or_ge (millerEncodeByteBits b 8 last).2 1 with hlb | hlb
    · -- lastb = 0: Sequence Z
      have hlb0 : (millerEncodeByteBits b 8 last).2 = 0 := by omega
      have hps : millerEncodeBit p (millerEncodeByteBits b 8 last).2 = (SEC_Z, 0) := by
        simp [millerEncodeBit, hp', hlb0]
      have hnx : st2 ≠ .millerX := by
        intro hx
        have := hiff2.mp hx
        omega
      have hstep := millerStep_Z
        { u with state := st2, fourBits := f2, endTime := e2, bitCount := 8,
                 shiftReg := b <<< 1 } 8
        (by simpa using hfull) (by simpa using hsync) (by simpa using hst2)
        (by simpa using hnx)
      simp only [show ((8 : Nat) + 1) % 65536 = 9 from rfl] at hstep
      refine ⟨.millerZ, ((f2 <<< 8) ||| 0x3F) % 2 ^ 32,
        u.startTime + 8 * (9 * u.output.length + 9 + 1) - 6, by simp [hp'], by simp, ?_⟩
      rw [hrun2, hps]
      rw [show millerAir SEC_Z = 0x3F from rfl, millerRun_cons_false _ _ _ _ hstep]
      congr 2
      rw [shiftLeft_shiftRight_sub b 1 1 (le_refl 1)]
      simp [hp']
    · -- lastb = 1: Sequence Y
      have hlb1 : (millerEncodeByteBits b 8 last).2 = 1 := by omega
      have hps : millerEncodeBit p (millerEncodeByteBits b 8 last).2 = (SEC_Y, 0) := by
        simp [millerEncodeBit, hp', hlb1]
      have hx2 : st2 = .millerX := hiff2.mpr hlb1
      have hstep := millerStep_Y_data
        { u with state := st2, fourBits := f2, endTime := e2, bitCount := 8,
                 shiftReg := b <<< 1 } 8
        (by simpa using hfull) (by simpa using hsync) (by simpa using hx2)
      simp only [show ((8 : Nat) + 1) % 65536 = 9 from rfl] at hstep
      refine ⟨.millerY, ((f2 <<< 8) ||| 0xFF) % 2 ^ 32, e2, by simp [hp'], by simp, ?_⟩
      rw [hrun2, hps]
      rw [show millerAir SEC_Y = 0xFF from rfl, millerRun_cons_false _ _ _ _ hstep]
      congr 2
      rw [shiftLeft_shiftRight_sub b 1 1 (le_refl 1)]
      simp [hp']
  · -- p = 1: Sequence X
    have hp' : p = 1 := by omega
    have hps : millerEncodeBit p (millerEncodeByteBits b 8 last).2 = (SEC_X, 1) := by
      simp [millerEncodeBit, hp']
    have hstep := millerStep_X
      { u with state := st2, fourBits := f2, endTime := e2, bitCount := 8,
               shiftReg := b <<< 1 } 8
      (by simpa using hfull) (by simpa using hsync) (by simpa using hst2)
    simp only [show ((8 : Nat) + 1) % 65536 = 9 from rfl] at hstep
    refine ⟨.millerX, ((f2 <<< 8) ||| 0xF3) % 2 ^ 32,
      u.startTime + 8 * (9 * u.output.length + 9 + 1) - 2, by simp [hp'], by simp, ?_⟩
    rw [hrun2, hps]
    rw [show millerAir SEC_X = 0xF3 from rfl, millerRun_cons_false _ _ _ _ hstep]
    congr 2
    have h1 : b <<< 1 >>> 1 = b := by
      simp [shiftLeft_shiftRight_sub b 1 1 (le_refl 1)]
    have h2 : b ||| 256 = b + 256 := by
      rw [show (256 : Nat) = 1 <<< 8 from rfl, or_shiftLeft_eq_add b 1 8 hb]
      norm_num [Nat.shiftLeft_eq]
    rw [h1, h2, hp']

theorem oddparity8_le_one (b : Nat) : oddparity8 b ≤ 1 := by
  unfold oddparity8
  omega

theorem or_mod_two_pow_zero (x y c : Nat) (hx : x % 2 ^ c = 0) (hy : y % 2 ^ c = 0) :
    (x ||| y) % 2 ^ c = 0 := by
  rw [← Nat.and_pow_two_sub_one_eq_mod, nat_and_or_right,
      Nat.and_pow_two_sub_one_eq_mod, Nat.and_pow_two_sub_one_eq_mod, hx, hy]
  simp

theorem bit_low_zero (pb c : Nat) (h : pb % (2 * 2 ^ c) = 0) : (pb >>> c) &&& 1 = 0 := by
  rw [Nat.shiftRight_eq_div_pow, Nat.and_one_is_mod]
  obtain ⟨m, hm⟩ := Nat.dvd_of_mod_eq_zero h
  rw [hm, show 2 * 2 ^ c * m = 2 * m * 2 ^ c by ring,
      Nat.mul_div_cancel _ (Nat.pos_pow_of_pos c (by norm_num))]
  omega

theorem shiftRight_small_zero (x t : Nat) (h : x < 2 ^ t) : x >>> t = 0 := by
  rw [Nat.shiftRight_eq_div_pow]
  exact Nat.div_eq_of_lt h

theorem getParityAux_ne_nil (l : List Nat) : ∀ cnt pb, GetParityAux l cnt pb ≠ [] := by
  induction l with
  | nil => intro cnt pb; simp [GetParityAux]
  | cons b rest ih =>
    intro cnt pb
    simp only [GetParityAux]
    by_cases h7 : cnt == 7
    · simp [h7]
    · simp only [h7, Bool.false_eq_true, if_false]
      exact ih _ _

theorem getParityAux_head_bits (rest : List Nat) : ∀ cnt pb t, cnt ≤ 7 → 8 - cnt ≤ t →
    ((GetParityAux rest cnt pb).getD 0 0) >>> t &&& 1 = (pb >>> t) &&& 1 := by
  induction rest with
  | nil => intro cnt pb t _ ht; rfl
  | cons b rest' ih =>
    intro cnt pb t hc ht
    simp only [GetParityAux]
    have hop := oddparity8_le_one b
    by_cases h7 : cnt = 7
    · subst h7
      simp only [beq_self_eq_true, if_true, List.getD_cons_zero, Nat.sub_self,
        Nat.shiftLeft_zero]
      rw [bitval_or]
      have h1 : oddparity8 b >>> t = 0 := by
        apply shiftRight_small_zero
        have h2 : (2 : Nat) ≤ 2 ^ t := by
          calc (2 : Nat) = 2 ^ 1 := by norm_num
            _ ≤ 2 ^ t := Nat.pow_le_pow_right (by norm_num) (by omega)
        omega
      rw [h1]
      simp
    · have h7' : (cnt == 7) = false := by simp [h7]
      simp only [h7', Bool.false_eq_true, if_false]
      rw [ih (cnt + 1) _ t (by omega) (by omega), bitval_or]
      have h1 : (oddparity8 b <<< (7 - cnt)) >>> t = 0 := by
        apply shiftRight_small_zero
        calc oddparity8 b <<< (7 - cnt) = oddparity8 b * 2 ^ (7 - cnt) := Nat.shiftLeft_eq _ _
          _ ≤ 1 * 2 ^ (7 - cnt) := Nat.mul_le_mul_right _ hop
          _ < 2 ^ t := by
              rw [Nat.one_mul]
              exact Nat.pow_lt_pow_right (by norm_num) (by omega)
      rw [h1]
      simp

theorem getParityAux_bit (rest : List Nat) : ∀ cnt pb i, cnt ≤ 7 → i < rest.length →
    pb % 2 ^ (8 - cnt) = 0 → pb < 256 →
    parityBitOf (GetParityAux rest cnt pb) (cnt + i) = oddparity8 (rest.getD i 0) := by
  induction rest with
  | nil =>
    intro cnt pb i _ hi _ _
    simp at hi
  | cons b rest' ih =>
    intro cnt pb i hcnt hi hmod hlt
    have hop := oddparity8_le_one b
    cases i with
    | zero =>
      unfold parityBitOf
      rw [show (cnt + 0) / 8 = 0 by omega, show (cnt + 0) % 8 = cnt by omega,
          List.getD_cons_zero]
      by_cases h7 : cnt = 7
      · subst h7
        simp only [GetParityAux, beq_self_eq_true, if_true, List.getD_cons_zero,
          Nat.sub_self, Nat.shiftLeft_zero, Nat.shiftRight_zero]
        rw [nat_and_or_right]
        have hpb1 : pb &&& 1 = 0 := by
          rw [Nat.and_one_is_mod]
          simpa using hmod
        rcases Nat.le_one_iff_eq_zero_or_eq_one.mp hop with h | h <;> simp [h, hpb1]
      · have h7' : (cnt == 7) = false := by simp [h7]
        simp only [GetParityAux, h7', Bool.false_eq_true, if_false]
        rw [getParityAux_head_bits rest' (cnt + 1) _ (7 - cnt) (by omega) (by omega),
            bitval_or]
        have h1 : (pb >>> (7 - cnt)) &&& 1 = 0 := by
          apply bit_low_zero
          have he : 2 * 2 ^ (7 - cnt) = 2 ^ (8 - cnt) := by
            rw [← pow_succ']
            congr 1
            omega
          rw [he]
          exact hmod
        rw [h1, bitval_shiftLeft_self, Nat.zero_or, Nat.and_one_is_mod]
        omega
    | succ i' =>
      by_cases h7 : cnt = 7
      · subst h7
        simp only [GetParityAux, beq_self_eq_true, if_true]
        unfold parityBitOf
        rw [show (7 + (i' + 1)) / 8 = i' / 8 + 1 by omega,
            show (7 + (i' + 1)) % 8 = i' % 8 by omega, List.getD_cons_succ,
            List.getD_cons_succ]
        have := ih 0 0 i' (by norm_num) (by simpa using hi) (by simp) (by norm_num)
        rw [Nat.zero_add] at this
        unfold parityBitOf at this
        exact this
      · have h7' : (cnt == 7) = false := by simp [h7]
        simp only [GetParityAux, h7', Bool.false_eq_true, if_false, List.getD_cons_succ]
        rw [show cnt + (i' + 1) = (cnt + 1) + i' by omega]
        apply ih (cnt + 1) _ i' (by omega) (by simpa using hi)
        · apply or_mod_two_pow_zero
          · have hd : 2 ^ (8 - cnt) ∣ pb := Nat.dvd_of_mod_eq_zero hmod
            have hd2 : 2 ^ (8 - (cnt + 1)) ∣ pb :=
              dvd_trans (pow_dvd_pow 2 (by omega)) hd
            obtain ⟨w, hw⟩ := hd2
            rw [hw]
            exact Nat.mul_mod_right _ _
          · rw [Nat.shiftLeft_eq, show (8 : Nat) - (cnt + 1) = 7 - cnt by omega]
            exact Nat.mul_mod_left _ _
        · apply Nat.or_lt_two_pow (n := 8) hlt
          calc oddparity8 b <<< (7 - cnt) = oddparity8 b * 2 ^ (7 - cnt) :=
                Nat.shiftLeft_eq _ _
            _ ≤ 1 * 2 ^ (7 - cnt) := Nat.mul_le_mul_right _ hop
            _ < 2 ^ 8 := by
                rw [Nat.one_mul]
                exact Nat.pow_lt_pow_right (by norm_num) (by omega)

theorem getParity_bit (cmd : List Nat) (i : Nat) (h : i < cmd.length) :
    parityBitOf (GetParity cmd) i = oddparity8 (cmd.getD i 0) := by
  have := getParityAux_bit cmd 0 0 i (by norm_num) h (by simp) (by norm_num)
  rw [Nat.zero_add] at this
  exact this

theorem getParityAux_cons_seven (b : Nat) (L : List Nat) (pb : Nat) :
    GetParityAux (b :: L) 7 pb = (pb ||| oddparity8 b) :: GetParityAux L 0 0 := by
  simp [GetParityAux]

theorem getParityAux_cons_lt (b : Nat) (L : List Nat) (cnt pb : Nat) (h : cnt ≠ 7) :
    GetParityAux (b :: L) cnt pb =
      GetParityAux L (cnt + 1) (pb ||| (oddparity8 b <<< (7 - cnt))) := by
  simp [GetParityAux, h]

theorem encodeBit_snd (p l : Nat) (hp : p ≤ 1) : (millerEncodeBit p l).2 = p := by
  interval_cases p
  · simp only [millerEncodeBit]
    split_ifs <;> simp_all
  · simp [millerEncodeBit]

theorem pb_shift_distrib (pb p cnt : Nat) (h : cnt ≤ 7) :
    ((pb <<< 1) ||| p) <<< (7 - cnt) = (pb <<< (8 - cnt)) ||| (p <<< (7 - cnt)) := by
  rw [nat_shiftLeft_or]
  congr 1
  rw [Nat.shiftLeft_eq, Nat.shiftLeft_eq, Nat.shiftLeft_eq, Nat.mul_assoc, ← pow_add,
      show 1 + (7 - cnt) = 8 - cnt by omega]

theorem nbytes_eq_zero (bits : Nat) (h : nbytes bits = 0) : bits = 0 := by
  unfold nbytes at h
  split_ifs at h <;> omega

theorem nbytes_sub8 (bits : Nat) (h : 8 ≤ bits) : nbytes bits = nbytes (bits - 8) + 1 := by
  unfold nbytes
  split_ifs with h1 h2 h2 <;> omega

theorem nbytes_small (bits : Nat) (h1 : 0 < bits) (h2 : bits < 8) : nbytes bits = 1 := by
  unfold nbytes
  split_ifs with h <;> omega

theorem shiftLeft_shiftLeft (x a c : Nat) : (x <<< a) <<< c = x <<< (a + c) := by
  rw [Nat.shiftLeft_eq, Nat.shiftLeft_eq, Nat.shiftLeft_eq, Nat.mul_assoc, ← pow_add]

theorem millerRun_eoc_clean (last : Nat) (u : Uart14a)
    (hlast : last ≤ 1) (hbc : u.bitCount = 0) (hsr : u.shiftReg = 0)
    (hsync : u.syncBit = 0) (hfull : u.output.length ≠ u.output_len)
    (hst : u.state ≠ .unsyncd) (hiff : u.state = .millerX ↔ last = 1)
    (hlen0 : u.output.length ≠ 0) :
    (millerRun u (List.map millerAir
        (if last == 0 then [SEC_Z, SEC_Y] else [SEC_Y, SEC_Y]))).2 = true ∧
    (millerRun u (List.map millerAir
        (if last == 0 then [SEC_Z, SEC_Y] else [SEC_Y, SEC_Y]))).1.output = u.output ∧
    (millerRun u (List.map millerAir
        (if last == 0 then [SEC_Z, SEC_Y] else [SEC_Y, SEC_Y]))).1.bitCount = 0 ∧
    (millerRun u (List.map millerAir
        (if last == 0 then [SEC_Z, SEC_Y] else [SEC_Y, SEC_Y]))).1.parity =
      u.parity ++ (if u.output.length % 8 = 0 then ([] : List Nat)
        else [(u.parityBits <<< (8 - u.output.length % 8)) &&& 0xFF]) := by
  rcases Nat.le_one_iff_eq_zero_or_eq_one.mp hlast with hl | hl
  · -- last = 0: EOC is Sequence Z then Y
    subst hl
    simp only [beq_self_eq_true, if_true, List.map_cons, List.map_nil,
      show millerAir SEC_Z = 0x3F from rfl, show millerAir SEC_Y = 0xFF from rfl]
    have hnx : u.state ≠ .millerX := fun hx => by simpa using hiff.mp hx
    have hstep := millerStep_Z u 8 hfull hsync hst hnx
    rw [hbc, show ((0 : Nat) + 1) % 65536 = 1 from rfl,
        millerByteComplete_id _ (by simp)] at hstep
    rw [millerRun_cons_false _ _ _ _ hstep]
    have hstep2 := millerStep_Y_EOC_zero
      { u with fourBits := ((u.fourBits <<< 8) ||| 0x3F) % 2 ^ 32, bitCount := 1,
               shiftReg := u.shiftReg >>> 1, state := .millerZ,
               endTime := u.startTime + 8 * (9 * u.output.length + 1 + 1) - 6 } 8
      (by simpa using hfull) (by simpa using hsync) (Or.inl rfl) rfl
      (by simpa using hlen0)
    split_ifs at hstep2 with hc
    · rw [millerRun_cons_true _ _ _ _ hstep2]
      refine ⟨rfl, rfl, rfl, ?_⟩
      have hc' : u.output.length % 8 ≠ 0 := by simpa using hc
      simp [hc']
    · rw [millerRun_cons_true _ _ _ _ hstep2]
      refine ⟨rfl, rfl, rfl, ?_⟩
      have hc' : u.output.length % 8 = 0 := by simpa using hc
      simp [hc']
  · -- last = 1: EOC is Sequence Y then Y
    subst hl
    simp only [show ((1 : Nat) == 0) = false from rfl, Bool.false_eq_true, if_false,
      List.map_cons, List.map_nil, show millerAir SEC_Y = 0xFF from rfl]
    have hx : u.state = .millerX := hiff.mpr rfl
    have hstep := millerStep_Y_data u 8 hfull hsync hx
    rw [hbc, show ((0 : Nat) + 1) % 65536 = 1 from rfl,
        millerByteComplete_id _ (by simp)] at hstep
    rw [millerRun_cons_false _ _ _ _ hstep]
    have hstep2 := millerStep_Y_EOC_zero
      { u with fourBits := ((u.fourBits <<< 8) ||| 0xFF) % 2 ^ 32, bitCount := 1,
               shiftReg := u.shiftReg >>> 1, state := .millerY } 8
      (by simpa using hfull) (by simpa using hsync) (Or.inr rfl) rfl
      (by simpa using hlen0)
    split_ifs at hstep2 with hc
    · rw [millerRun_cons_true _ _ _ _ hstep2]
      refine ⟨rfl, rfl, rfl, ?_⟩
      have hc' : u.output.length % 8 ≠ 0 := by simpa using hc
      simp [hc']
    · rw [millerRun_cons_true _ _ _ _ hstep2]
      refine ⟨rfl, rfl, rfl, ?_⟩
      have hc' : u.output.length % 8 = 0 := by simpa using hc
      simp [hc']

theorem millerRun_eoc_partial_full (last b k : Nat) (u : Uart14a)
    (hlast : last ≤ 1) (hk1 : 1 ≤ k) (hk7 : k ≤ 7) (hb : b < 2 ^ k)
    (hbc : u.bitCount = k) (hsr : u.shiftReg = b <<< (9 - k))
    (hsync : u.syncBit = 0) (hfull : u.output.length ≠ u.output_len)
    (hst : u.state ≠ .unsyncd) (hiff : u.state = .millerX ↔ last = 1)
    (hpb : u.parityBits < 2 ^ (u.output.length % 8)) :
    (millerRun u (List.map millerAir
        (if last == 0 then [SEC_Z, SEC_Y] else [SEC_Y, SEC_Y]))).2 = true ∧
    (millerRun u (List.map millerAir
        (if last == 0 then [SEC_Z, SEC_Y] else [SEC_Y, SEC_Y]))).1.output =
      u.output ++ [b] ∧
    (millerRun u (List.map millerAir
        (if last == 0 then [SEC_Z, SEC_Y] else [SEC_Y, SEC_Y]))).1.bitCount = k ∧
    (millerRun u (List.map millerAir
        (if last == 0 then [SEC_Z, SEC_Y] else [SEC_Y, SEC_Y]))).1.parity =
      u.parity ++ [if u.output.length % 8 = 7 then 0
                   else u.parityBits <<< (8 - u.output.length % 8)] := by
  have hcnt : u.output.length % 8 < 8 := Nat.mod_lt _ (by norm_num)
  have hpb256 : u.parityBits < 128 := by
    have h2 : (2 : Nat) ^ (u.output.length % 8) ≤ 2 ^ 7 :=
      Nat.pow_le_pow_right (by norm_num) (by omega)
    norm_num at h2
    omega
  have hsr1 : (b <<< (9 - k)) >>> 1 = b <<< (8 - k) := by
    rw [shiftLeft_shiftRight_sub _ _ _ (by omega), show (9 : Nat) - k - 1 = 8 - k by omega]
  have hkey : ∀ (u3 : Uart14a), u3.bitCount = k + 1 → u3.shiftReg = b <<< (8 - k) →
      u3.syncBit = 0 → u3.output = u.output → u3.output_len = u.output_len →
      u3.parity = u.parity → u3.parityBits = u.parityBits →
      (u3.state = .millerZ ∨ u3.state = .millerY) →
      (millerRun u3 [0xFF]).2 = true ∧
      (millerRun u3 [0xFF]).1.output = u.output ++ [b] ∧
      (millerRun u3 [0xFF]).1.bitCount = k ∧
      (millerRun u3 [0xFF]).1.parity =
        u.parity ++ [if u.output.length % 8 = 7 then 0
                     else u.parityBits <<< (8 - u.output.length % 8)] := by
    intro u3 h3bc h3sr h3sync h3out h3ol h3par h3pb h3st
    have hstep2 := millerStep_Y_EOC_partial u3 8 (by rw [h3out, h3ol]; exact hfull)
      h3sync h3st (by omega) (by omega)
    rw [h3bc, Nat.add_sub_cancel, h3sr, h3out, h3par, h3pb] at hstep2
    have hsrv : ((b <<< (8 - k)) <<< 1 % 65536) >>> (9 - k) = b := by
      rw [shiftLeft_shiftLeft, show (8 : Nat) - k + 1 = 9 - k by omega]
      have hlt : b <<< (9 - k) < 65536 := by
        rw [Nat.shiftLeft_eq]
        calc b * 2 ^ (9 - k) < 2 ^ k * 2 ^ (9 - k) :=
              (Nat.mul_lt_mul_right (Nat.pos_pow_of_pos _ (by norm_num))).mpr hb
          _ = 2 ^ 9 := by rw [← pow_add]; congr 1; omega
          _ ≤ 65536 := by norm_num
      rw [Nat.mod_eq_of_lt hlt, shiftLeft_shiftRight_sub _ _ _ (le_refl _),
          Nat.sub_self, Nat.shiftLeft_zero]
    have hbyte : ((b <<< (8 - k)) <<< 1 % 65536) >>> (9 - k) &&& 0xFF = b := by
      have hb128 : b < 128 := by
        have h2 : (2 : Nat) ^ k ≤ 2 ^ 7 := Nat.pow_le_pow_right (by norm_num) (by omega)
        norm_num at h2
        omega
      rw [hsrv, and255_eq_mod]
      omega
    have hpb1 : (u.parityBits <<< 1) &&& 0xFF = u.parityBits <<< 1 := by
      rw [and255_eq_mod, Nat.mod_eq_of_lt]
      rw [Nat.shiftLeft_eq]
      omega
    rw [hbyte, hsrv, hpb1] at hstep2
    rw [millerRun_cons_true _ _ _ _ hstep2]
    refine ⟨rfl, by simp, by simp, ?_⟩
    show u.parity ++ [(u.parityBits <<< 1) <<< (8 - (u.output.length + 1) % 8) &&& 0xFF] = _
    congr 1
    by_cases h7 : u.output.length % 8 = 7
    · have hm : (u.output.length + 1) % 8 = 0 := by omega
      rw [if_pos h7, hm, Nat.sub_zero, shiftLeft_shiftLeft, Nat.shiftLeft_eq, and255_eq_mod,
          show u.parityBits * 2 ^ (1 + 8) = u.parityBits * 2 * 256 by ring, Nat.mul_mod_left]
    · have hm : (u.output.length + 1) % 8 = u.output.length % 8 + 1 := by omega
      rw [if_neg h7, hm, shiftLeft_shiftLeft,
          show 1 + (8 - (u.output.length % 8 + 1)) = 8 - u.output.length % 8 by omega,
          and255_eq_mod, Nat.mod_eq_of_lt]
      rw [Nat.shiftLeft_eq]
      calc u.parityBits * 2 ^ (8 - u.output.length % 8)
          < 2 ^ (u.output.length % 8) * 2 ^ (8 - u.output.length % 8) :=
            (Nat.mul_lt_mul_right (Nat.pos_pow_of_pos _ (by norm_num))).mpr hpb
        _ = 2 ^ 8 := by rw [← pow_add]; congr 1; omega
        _ ≤ 256 := by norm_num
  rcases Nat.le_one_iff_eq_zero_or_eq_one.mp hlast with hl | hl
  · subst hl
    simp only [beq_self_eq_true, if_true, List.map_cons, List.map_nil,
      show millerAir SEC_Z = 0x3F from rfl, show millerAir SEC_Y = 0xFF from rfl]
    have hnx : u.state ≠ .millerX := fun hx => by simpa using hiff.mp hx
    have hstep := millerStep_Z u 8 hfull hsync hst hnx
    rw [hbc, show (k + 1) % 65536 = k + 1 by omega,
        millerByteComplete_id _ (by simp; omega), hsr, hsr1] at hstep
    rw [millerRun_cons_false _ _ _ _ hstep]
    exact hkey _ rfl rfl (by simpa using hsync) rfl rfl rfl rfl (Or.inl rfl)
  · subst hl
    simp only [show ((1 : Nat) == 0) = false from rfl, Bool.false_eq_true, if_false,
      List.map_cons, List.map_nil, show millerAir SEC_Y = 0xFF from rfl]
    have hx : u.state = .millerX := hiff.mpr rfl
    have hstep := millerStep_Y_data u 8 hfull hsync hx
    rw [hbc, show (k + 1) % 65536 = k + 1 by omega,
        millerByteComplete_id _ (by simp; omega), hsr, hsr1] at hstep
    rw [millerRun_cons_false _ _ _ _ hstep]
    exact hkey _ rfl rfl (by simpa using hsync) rfl rfl rfl rfl (Or.inr rfl)

theorem dropLast_cons_ne_nil {α : Type} (a : α) {l : List α} (h : l ≠ []) :
    (a :: l).dropLast = a :: l.dropLast := by
  cases l with
  | nil => exact absurd rfl h
  | cons x xs => rfl

theorem millerRun_master (rest : List Nat) : ∀ (bits' last : Nat) (u : Uart14a) (P : List Nat),
    rest.length = nbytes bits' →
    (∀ x ∈ rest, x < 256) →
    (bits' % 8 ≠ 0 → rest.getD (bits' / 8) 0 < 2 ^ (bits' % 8)) →
    u.bitCount = 0 → u.shiftReg = 0 → u.syncBit = 0 →
    u.state ≠ .unsyncd → (u.state = .millerX ↔ last = 1) → last ≤ 1 →
    u.output.length + rest.length < u.output_len →
    0 < u.output.length + bits' →
    (∀ j, j < rest.length →
      parityBitOf P (u.output.length + j) = oddparity8 (rest.getD j 0)) →
    u.parityBits < 2 ^ (u.output.length % 8) →
    ∀ r, r = millerRun u (List.map millerAir
        ((millerEncodeData (some P) rest bits' u.output.length last).1 ++
          (if (millerEncodeData (some P) rest bits' u.output.length last).2 == 0
           then [SEC_Z, SEC_Y] else [SEC_Y, SEC_Y]))) →
    r.2 = true ∧ r.1.output = u.output ++ rest ∧ r.1.bitCount = bits' % 8 ∧
    r.1.parity = u.parity ++
      (if bits' % 8 = 0 ∧ (u.output.length + rest.length) % 8 = 0 then
         (GetParityAux rest (u.output.length % 8)
           (u.parityBits <<< (8 - u.output.length % 8))).dropLast
       else if bits' % 8 ≠ 0 ∧ (u.output.length + bits' / 8) % 8 = 7 then
         (GetParityAux (rest.take (bits' / 8)) (u.output.length % 8)
           (u.parityBits <<< (8 - u.output.length % 8))).dropLast ++ [0]
       else GetParityAux (rest.take (bits' / 8)) (u.output.length % 8)
         (u.parityBits <<< (8 - u.output.length % 8))) := by
  induction rest with
  | nil =>
    intro bits' last u P hlen hbytes hpart hbc hsr hsync hst hiff hlast hout hpos hpar hpb r hr
    have hb0 : bits' = 0 := nbytes_eq_zero _ (by simpa using hlen.symm)
    subst hb0
    simp only [millerEncodeData, List.nil_append] at hr
    subst hr
    have hlen0 : u.output.length ≠ 0 := by
      omega
    have hfull : u.output.length ≠ u.output_len := by
      simp only [List.length_nil] at hout
      omega
    obtain ⟨hA, hB, hC, hD⟩ :=
      millerRun_eoc_clean last u hlast hbc hsr hsync hfull hst hiff hlen0
    refine ⟨hA, by simpa using hB, by simpa using hC, ?_⟩
    rw [hD]
    congr 1
    by_cases h8 : u.output.length % 8 = 0
    · rw [if_pos h8, if_pos ⟨by norm_num, by simpa using h8⟩]
      simp [GetParityAux]
    · rw [if_neg h8, if_neg (by simp [h8]), if_neg (by simp)]
      simp only [List.take_nil, GetParityAux]
      have hbnd : (u.parityBits <<< (8 - u.output.length % 8)) &&& 0xFF =
          u.parityBits <<< (8 - u.output.length % 8) := by
        rw [and255_eq_mod, Nat.mod_eq_of_lt]
        rw [Nat.shiftLeft_eq]
        calc u.parityBits * 2 ^ (8 - u.output.length % 8)
            < 2 ^ (u.output.length % 8) * 2 ^ (8 - u.output.length % 8) :=
              (Nat.mul_lt_mul_right (Nat.pos_pow_of_pos _ (by norm_num))).mpr hpb
          _ = 2 ^ 8 := by
              rw [← pow_add]
              congr 1
              have := Nat.mod_lt u.output.length (show 0 < 8 by norm_num)
              omega
          _ ≤ 256 := by norm_num
      rw [hbnd]
  | cons b rest' ih =>
    intro bits' last u P hlen hbytes hpart hbc hsr hsync hst hiff hlast hout hpos hpar hpb r hr
    have hbpos : 0 < bits' := by
      rcases Nat.eq_zero_or_pos bits' with h | h
      · subst h
        simp [nbytes] at hlen
      · exact h
    have hfull : u.output.length ≠ u.output_len := by
      simp only [List.length_cons] at hout
      omega
    have hb256 : b < 256 := hbytes b (by simp)
    rcases Nat.lt_or_ge bits' 8 with hsmall | hbig
    · -- final partial byte
      have hone : nbytes bits' = 1 := nbytes_small _ hbpos hsmall
      have hrest' : rest' = [] := by
        have h1 : rest'.length + 1 = 1 := by simpa [hone] using hlen
        exact List.length_eq_zero.mp (by omega)
      subst hrest'
      have hBdiv : bits' / 8 = 0 := by omega
      have hr8 : bits' % 8 = bits' := by omega
      have hbltk : b < 2 ^ bits' := by
        have h1 := hpart (by omega)
        rw [hBdiv] at h1
        simpa [hr8] using h1
      have hmin : min bits' 8 = bits' := by omega
      have hne8 : (bits' == 8) = false := by
        simp only [beq_eq_false_iff_ne, ne_eq]
        omega
      simp only [millerEncodeData, hmin, hne8, Bool.false_eq_true, if_false,
        List.append_nil] at hr
      obtain ⟨st2, f2, e2, hiff2, hst2, hle2, hrun2⟩ :=
        millerRun_bits bits' b last u
          (List.map millerAir (if (millerEncodeByteBits b bits' last).2 == 0
            then [SEC_Z, SEC_Y] else [SEC_Y, SEC_Y]))
          (by omega) hsync hfull hst hiff hlast
      rw [List.map_append, hrun2] at hr
      subst hr
      obtain ⟨hA, hB, hC, hD⟩ := millerRun_eoc_partial_full
        ((millerEncodeByteBits b bits' last).2) b bits'
        { u with state := st2, fourBits := f2, endTime := e2,
                 bitCount := u.bitCount + bits',
                 shiftReg := (u.shiftReg >>> bits') ||| ((b % 2 ^ bits') <<< (9 - bits')) }
        hle2 (by omega) (by omega) hbltk
        (by simp [hbc])
        (by simp [hsr, Nat.mod_eq_of_lt hbltk])
        (by simp [hsync]) (by simpa using hfull)
        (by simpa using hst2) (by simpa using hiff2)
        (by simpa using hpb)
      refine ⟨hA, by simpa using hB, by rw [hC]; omega, ?_⟩
      have hD' : (millerRun
          { u with state := st2, fourBits := f2, endTime := e2,
                   bitCount := u.bitCount + bits',
                   shiftReg := (u.shiftReg >>> bits') |||
                     ((b % 2 ^ bits') <<< (9 - bits')) }
          (List.map millerAir (if (millerEncodeByteBits b bits' last).2 == 0
            then [SEC_Z, SEC_Y] else [SEC_Y, SEC_Y]))).1.parity =
          u.parity ++ [if u.output.length % 8 = 7 then 0
                       else u.parityBits <<< (8 - u.output.length % 8)] := by
        simpa using hD
      rw [hD']
      congr 1
      by_cases h7 : u.output.length % 8 = 7
      · rw [if_pos h7, if_neg (by rintro ⟨h1, -⟩; omega),
            if_pos ⟨by omega, by omega⟩, hBdiv]
        simp [GetParityAux]
      · rw [if_neg h7, if_neg (by rintro ⟨h1, -⟩; omega),
            if_neg (by rintro ⟨-, h2⟩; omega), hBdiv]
        simp [GetParityAux]
    · -- a complete byte followed by its parity bit
      have hmin : min bits' 8 = 8 := by omega
      simp only [millerEncodeData, hmin, beq_self_eq_true, if_true] at hr
      rw [List.append_assoc, List.cons_append, List.map_append, List.map_cons] at hr
      have hple : parityBitOf P u.output.length ≤ 1 := by
        unfold parityBitOf
        exact Nat.and_le_right
      rw [encodeBit_snd _ _ hple] at hr
      have hpv : parityBitOf P u.output.length = oddparity8 b := by
        have h0 := hpar 0 (by simp)
        simpa using h0
      obtain ⟨st3, f3, e3, hiff3, hst3, hrunB⟩ :=
        millerRun_byte_core b (parityBitOf P u.output.length) last u
          (List.map millerAir
            ((millerEncodeData (some P) rest' (bits' - 8) (u.output.length + 1)
               (parityBitOf P u.output.length)).1 ++
              (if (millerEncodeData (some P) rest' (bits' - 8) (u.output.length + 1)
                    (parityBitOf P u.output.length)).2 == 0
               then [SEC_Z, SEC_Y] else [SEC_Y, SEC_Y])))
          hb256 hple hlast hbc hsr hsync hfull hst hiff
      rw [hrunB] at hr
      rw [millerByteComplete_nine _ b (parityBitOf P u.output.length) (by simp) (by simp)
          hb256 hple] at hr
      have hpb128 : u.parityBits < 128 := by
        have h2 : (2 : Nat) ^ (u.output.length % 8) ≤ 2 ^ 7 :=
          Nat.pow_le_pow_right (by norm_num)
            (by omega)
        norm_num at h2
        omega
      have hpbtr : (u.parityBits <<< 1) &&& 0xFF = u.parityBits <<< 1 := by
        rw [and255_eq_mod, Nat.mod_eq_of_lt]
        rw [Nat.shiftLeft_eq]
        omega
      have hcnt8 : u.output.length % 8 < 8 := Nat.mod_lt _ (by norm_num)
      have hlen1 : rest'.length = nbytes (bits' - 8) := by
        have := nbytes_sub8 bits' hbig
        simp only [List.length_cons] at hlen
        omega
      have hbytes' : ∀ x ∈ rest', x < 256 := fun x hx => hbytes x (List.mem_cons_of_mem _ hx)
      have hpart' : (bits' - 8) % 8 ≠ 0 →
          rest'.getD ((bits' - 8) / 8) 0 < 2 ^ ((bits' - 8) % 8) := by
        intro h
        have h1 := hpart (by omega)
        rw [show bits' / 8 = (bits' - 8) / 8 + 1 by omega, List.getD_cons_succ,
            show bits' % 8 = (bits' - 8) % 8 by omega] at h1
        exact h1
      have hdiv1 : bits' / 8 = (bits' - 8) / 8 + 1 := by omega
      have hmod8 : bits' % 8 = (bits' - 8) % 8 := by omega
      by_cases hfl : (u.output.length + 1) % 8 = 0
      · -- the 8th byte of a group: the parity byte is flushed
        have hn7 : u.output.length % 8 = 7 := by omega
        rw [if_pos (by simpa using hfl)] at hr
        dsimp only at hr
        rw [show u.output.length + 1 = (u.output ++ [b]).length by simp] at hr
        obtain ⟨hA, hB, hC, hD⟩ :=
          ih (bits' - 8) (parityBitOf P u.output.length)
            { u with state := st3, fourBits := f3, endTime := e3, bitCount := 0,
                     shiftReg := 0, output := u.output ++ [b], parityBits := 0,
                     parity := u.parity ++
                       [((u.parityBits <<< 1) &&& 0xFF) ||| parityBitOf P u.output.length] }
            P (by simpa using hlen1) hbytes' hpart' rfl rfl (by simpa using hsync)
            (by simpa using hst3) (by simpa using hiff3) hple
            (by simp only [List.length_append, List.length_singleton]
                simp only [List.length_cons] at hout
                omega)
            (by simp only [List.length_append, List.length_singleton]
                omega)
            (by intro j hj
                simp only [List.length_append, List.length_singleton]
                rw [show u.output.length + 1 + j = u.output.length + (j + 1) by omega]
                have hq := hpar (j + 1) (by simp only [List.length_cons]; omega)
                simpa using hq)
            (by simp)
            r hr
        refine ⟨hA, ?_, ?_, ?_⟩
        · rw [hB]
          simp
        · rw [hC]
          omega
        · dsimp only at hD
          simp only [List.length_append, List.length_singleton] at hD
          rw [hD, List.append_assoc]
          simp only [List.length_cons]
          congr 1
          rw [List.singleton_append, hpbtr, hpv, hn7, hfl, Nat.sub_zero,
              Nat.zero_shiftLeft, show (8 : Nat) - 7 = 1 from rfl]
          by_cases hc1 : (bits' - 8) % 8 = 0 ∧ (u.output.length + 1 + rest'.length) % 8 = 0
          · obtain ⟨hc1a, hc1b⟩ := hc1
            rw [if_pos ⟨hc1a, hc1b⟩,
                if_pos (show bits' % 8 = 0 ∧
                    (u.output.length + (rest'.length + 1)) % 8 = 0 by
                  constructor <;> omega)]
            rw [getParityAux_cons_seven,
                dropLast_cons_ne_nil _ (getParityAux_ne_nil _ _ _)]
          · rw [if_neg hc1, if_neg (show ¬(bits' % 8 = 0 ∧
                (u.output.length + (rest'.length + 1)) % 8 = 0) by
                  rintro ⟨h1, h2⟩
                  exact hc1 ⟨by omega, by omega⟩)]
            by_cases hc2 : (bits' - 8) % 8 ≠ 0 ∧
                (u.output.length + 1 + (bits' - 8) / 8) % 8 = 7
            · obtain ⟨hc2a, hc2b⟩ := hc2
              rw [if_pos ⟨hc2a, hc2b⟩,
                  if_pos (show bits' % 8 ≠ 0 ∧
                      (u.output.length + bits' / 8) % 8 = 7 by
                    constructor <;> omega)]
              rw [hdiv1, List.take_succ_cons, getParityAux_cons_seven,
                  dropLast_cons_ne_nil _ (getParityAux_ne_nil _ _ _),
                  List.cons_append]
            · rw [if_neg hc2, if_neg (show ¬(bits' % 8 ≠ 0 ∧
                  (u.output.length + bits' / 8) % 8 = 7) by
                    rintro ⟨h1, h2⟩
                    exact hc2 ⟨by omega, by omega⟩)]
              rw [hdiv1, List.take_succ_cons, getParityAux_cons_seven]
      · -- parity bits continue to accumulate
        have hn7 : u.output.length % 8 ≠ 7 := by omega
        rw [if_neg (by simpa using hfl)] at hr
        dsimp only at hr
        rw [show u.output.length + 1 = (u.output ++ [b]).length by simp] at hr
        obtain ⟨hA, hB, hC, hD⟩ :=
          ih (bits' - 8) (parityBitOf P u.output.length)
            { u with state := st3, fourBits := f3, endTime := e3, bitCount := 0,
                     shiftReg := 0, output := u.output ++ [b],
                     parityBits := ((u.parityBits <<< 1) &&& 0xFF) |||
                       parityBitOf P u.output.length }
            P (by simpa using hlen1) hbytes' hpart' rfl rfl (by simpa using hsync)
            (by simpa using hst3) (by simpa using hiff3) hple
            (by simp only [List.length_append, List.length_singleton]
                simp only [List.length_cons] at hout
                omega)
            (by simp only [List.length_append, List.length_singleton]
                omega)
            (by intro j hj
                simp only [List.length_append, List.length_singleton]
                rw [show u.output.length + 1 + j = u.output.length + (j + 1) by omega]
                have hq := hpar (j + 1) (by simp only [List.length_cons]; omega)
                simpa using hq)
            (by dsimp only
                simp only [List.length_append, List.length_singleton]
                rw [show (u.output.length + 1) % 8 = u.output.length % 8 + 1 by omega,
                    hpbtr]
                have h1 : u.parityBits <<< 1 < 2 ^ (u.output.length % 8 + 1) := by
                  rw [Nat.shiftLeft_eq, pow_succ]
                  omega
                have h2 : parityBitOf P u.output.length <
                    2 ^ (u.output.length % 8 + 1) := by
                  have h3 : (1 : Nat) < 2 ^ (u.output.length % 8 + 1) :=
                    Nat.one_lt_two_pow (by omega)
                  omega
                exact Nat.or_lt_two_pow h1 h2)
            r hr
        refine ⟨hA, ?_, ?_, ?_⟩
        · rw [hB]
          simp
        · rw [hC]
          omega
        · dsimp only at hD
          simp only [List.length_append, List.length_singleton] at hD
          rw [hD]
          congr 1
          simp only [List.length_cons]
          rw [show (u.output.length + 1) % 8 = u.output.length % 8 + 1 by omega, hpbtr,
              show (8 : Nat) - (u.output.length % 8 + 1) = 7 - u.output.length % 8 by omega,
              pb_shift_distrib _ _ _ (by omega), hpv]
          by_cases hc1 : (bits' - 8) % 8 = 0 ∧ (u.output.length + 1 + rest'.length) % 8 = 0
          · obtain ⟨hc1a, hc1b⟩ := hc1
            rw [if_pos ⟨hc1a, hc1b⟩,
                if_pos (show bits' % 8 = 0 ∧
                    (u.output.length + (rest'.length + 1)) % 8 = 0 by
                  constructor <;> omega)]
            rw [getParityAux_cons_lt _ _ _ _ hn7]
          · rw [if_neg hc1, if_neg (show ¬(bits' % 8 = 0 ∧
                (u.output.length + (rest'.length + 1)) % 8 = 0) by
                  rintro ⟨h1, h2⟩
                  exact hc1 ⟨by omega, by omega⟩)]
            by_cases hc2 : (bits' - 8) % 8 ≠ 0 ∧
                (u.output.length + 1 + (bits' - 8) / 8) % 8 = 7
            · obtain ⟨hc2a, hc2b⟩ := hc2
              rw [if_pos ⟨hc2a, hc2b⟩,
                  if_pos (show bits' % 8 ≠ 0 ∧
                      (u.output.length + bits' / 8) % 8 = 7 by
                    constructor <;> omega)]
              rw [hdiv1, List.take_succ_cons, getParityAux_cons_lt _ _ _ _ hn7]
            · rw [if_neg hc2, if_neg (show ¬(bits' % 8 ≠ 0 ∧
                  (u.output.length + bits' / 8) % 8 = 7) by
                    rintro ⟨h1, h2⟩
                    exact hc2 ⟨by omega, by omega⟩)]
              rw [hdiv1, List.take_succ_cons, getParityAux_cons_lt _ _ _ _ hn7]

/-- While unsynchronised and the start-bit search still fails, the decoder
only accumulates the sample byte into `fourBits`. -/
theorem millerStep_unsyncd_nomatch (u : Uart14a) (b nrt F : Nat)
    (hfull : u.output.length ≠ u.output_len) (hst : u.state = .unsyncd)
    (hF : ((u.fourBits <<< 8) ||| b) % 2 ^ 32 = F)
    (hs : millerSyncSearch F = 9999) :
    MillerDecoding u b nrt = ({ u with fourBits := F, syncBit := 9999 }, false) := by
  have hf : (u.output.length == u.output_len) = false := beq_eq_false_iff_ne.mpr hfull
  have hsu : (u.state == UartState.unsyncd) = true := by rw [hst]; rfl
  simp only [MillerDecoding, hf, Bool.false_eq_true, if_false, hsu, if_true, hF, hs,
    bne_self_eq_false]

/-- The unsynchronised decoder locks on as soon as the start-bit pattern
appears in the sliding window. -/
theorem millerStep_unsyncd_match (u : Uart14a) (b nrt F sb st : Nat)
    (hfull : u.output.length ≠ u.output_len) (hst : u.state = .unsyncd)
    (hF : ((u.fourBits <<< 8) ||| b) % 2 ^ 32 = F)
    (hs : millerSyncSearch F = sb) (hsb : (sb != 9999) = true)
    (hT : nrt - sb = st) :
    MillerDecoding u b nrt =
      ({ u with fourBits := F, syncBit := sb, startTime := st, endTime := st,
                state := .startOfComm }, false) := by
  have hf : (u.output.length == u.output_len) = false := beq_eq_false_iff_ne.mpr hfull
  have hsu : (u.state == UartState.unsyncd) = true := by rw [hst]; rfl
  simp only [MillerDecoding, hf, Bool.false_eq_true, if_false, hsu, if_true, hF, hs,
    hsb, hT]

/-- Two idle bytes followed by the air image of the start-of-communication
Sequence Z synchronise the decoder with `syncBit = 0`. -/
theorem millerRun_sync (OL : Nat) (hOL : OL ≠ 0) (rest : List Nat) :
    millerRun (Uart14aInit OL) (0xFF :: 0xFF :: 0x3F :: rest) =
      millerRun { state := .startOfComm, shiftReg := 0, bitCount := 0,
                  syncBit := 0, parityBits := 0, fourBits := 0xFFFF3F,
                  startTime := 8, endTime := 8, output := [], parity := [],
                  output_len := OL } rest := by
  have hne : ∀ v : Uart14a, v.output = [] → v.output_len = OL →
      v.output.length ≠ v.output_len := by
    intro v h1 h2
    rw [h1, h2]
    simpa using fun h => hOL h.symm
  rw [millerRun_cons_false _ _ _ _
    (millerStep_unsyncd_nomatch (Uart14aInit OL) 0xFF 8 0xFF (hne _ rfl rfl) rfl
      (by simp only [Uart14aInit]; decide) (by decide))]
  rw [millerRun_cons_false _ _ _ _
    (millerStep_unsyncd_nomatch _ 0xFF 8 0xFFFF (hne _ rfl rfl) rfl
      (by simp only [Uart14aInit]; decide) (by decide))]
  rw [millerRun_cons_false _ _ _ _
    (millerStep_unsyncd_match _ 0x3F 8 0xFFFF3F 0 8 (hne _ rfl rfl) rfl
      (by simp only [Uart14aInit]; decide) (by decide) (by decide) (by decide))]
  rfl

/-- C1: a reader frame encoded by `CodeIso14443aBitsAsReaderPar` with its
`GetParity` parity bits is recovered by `MillerDecoding`: the decoder
completes the frame, outputs exactly the frame's bytes, and leaves
`bitCount = bits % 8` (so 7-bit short frames keep their bit length).  The
recovered parity bytes, however, are NOT byte-for-byte `GetParity cmd`:
they are `GetParity` of the complete bytes only, the remainder byte of a
frame whose byte count is a multiple of 8 is dropped, and the remainder
byte of a partial-bit frame whose complete-byte count is 7 mod 8 is
clobbered to 0. -/
theorem c1_miller_roundtrip (cmd : List Nat) (bits : Nat)
    (hb : ∀ x ∈ cmd, x < 256) (hpos : 0 < bits)
    (hlen : cmd.length = nbytes bits)
    (hpart : bits % 8 ≠ 0 → cmd.getD (bits / 8) 0 < 2 ^ (bits % 8)) :
    ∀ r, r = millerRun (Uart14aInit (cmd.length + 1))
        (millerSamplesOf cmd bits (some (GetParity cmd))) →
      r.2 = true ∧ r.1.output = cmd ∧ r.1.bitCount = bits % 8 ∧
      r.1.parity =
        (if bits % 8 = 0 ∧ cmd.length % 8 = 0 then (GetParity cmd).dropLast
         else if bits % 8 ≠ 0 ∧ (bits / 8) % 8 = 7 then
           (GetParity (cmd.take (bits / 8))).dropLast ++ [0]
         else GetParity (cmd.take (bits / 8))) := by
  intro r hr
  rw [millerSamplesOf, CodeIso14443aBitsAsReaderPar, ← hlen, List.take_length] at hr
  simp only [List.cons_append, List.nil_append, List.map_cons] at hr
  rw [show millerAir SEC_Z = 0x3F from rfl] at hr
  rw [millerRun_sync _ (by omega) _] at hr
  obtain ⟨hA, hB, hC, hD⟩ :=
    millerRun_master cmd bits 0
      { state := .startOfComm, shiftReg := 0, bitCount := 0,
        syncBit := 0, parityBits := 0, fourBits := 0xFFFF3F,
        startTime := 8, endTime := 8, output := [], parity := [],
        output_len := cmd.length + 1 }
      (GetParity cmd) hlen hb hpart rfl rfl rfl (by simp) (by simp) (by norm_num)
      (by dsimp only
          simp only [List.length_nil]
          omega)
      (by dsimp only
          simp only [List.length_nil]
          omega)
      (by intro j hj
          dsimp only
          simp only [List.length_nil, Nat.zero_add]
          exact getParity_bit cmd j hj)
      (by dsimp only
          simp only [List.length_nil]
          norm_num)
      r hr
  refine ⟨hA, ?_, hC, ?_⟩
  · rw [hB]
    simp
  · rw [hD]
    dsimp only
    simp only [List.length_nil, List.nil_append, Nat.zero_add, Nat.zero_mod,
      Nat.sub_zero, Nat.zero_shiftLeft]
    rfl

/-- C1 counterexample: the 7-bit frame `0x00` round-trips its byte and bit
length, but the recovered parity bitstring is `[0x00]` while
`GetParity [0x00] = [0x80]` — not byte-for-byte identical. -/
theorem c1_counterexample :
    (millerRun (Uart14aInit 2) (millerSamplesOf [0x00] 7 (some (GetParity [0x00])))).2
      = true ∧
    (millerRun (Uart14aInit 2) (millerSamplesOf [0x00] 7 (some (GetParity [0x00])))).1.output
      = [0x00] ∧
    (millerRun (Uart14aInit 2) (millerSamplesOf [0x00] 7 (some (GetParity [0x00])))).1.bitCount
      = 7 ∧
    (millerRun (Uart14aInit 2) (millerSamplesOf [0x00] 7 (some (GetParity [0x00])))).1.parity
      = [0x00] ∧
    GetParity [0x00] = [0x80] ∧
    (millerRun (Uart14aInit 2) (millerSamplesOf [0x00] 7 (some (GetParity [0x00])))).1.parity
      ≠ GetParity [0x00] := by
  decide

theorem c1_miller_roundtrip_witness :
    (∀ x ∈ [(0x52 : Nat)], x < 256) ∧ 0 < 7 ∧
      ([(0x52 : Nat)].length = nbytes 7) ∧
    (millerRun (Uart14aInit 2) (millerSamplesOf [0x52] 7 (some (GetParity [0x52])))).2
      = true ∧
    (millerRun (Uart14aInit 2) (millerSamplesOf [0x52] 7 (some (GetParity [0x52])))).1.output
      = [0x52] ∧
    (millerRun (Uart14aInit 2) (millerSamplesOf [0x52] 7 (some (GetParity [0x52])))).1.bitCount
      = 7 ∧
    (millerRun (Uart14aInit 2) (millerSamplesOf [0x52] 7 (some (GetParity [0x52])))).1.parity
      = [0x00] := by
  have h := c1_miller_roundtrip [0x52] 7 (by decide) (by decide) (by decide)
      (fun _ => by decide)
      (millerRun (Uart14aInit 2) (millerSamplesOf [0x52] 7 (some (GetParity [0x52])))) rfl
  refine ⟨by decide, by decide, by decide, h.1, h.2.1, h.2.2.1, ?_⟩
  rw [h.2.2.2]
  decide

end Iso14443a
